import Mathlib

/-!
qonto-go (v2): pagination, URL building and error mapping

A shallow embedding of the v2 package of `ushu/qonto-go`:
`client.go`, `context_client.go`, `pagination.go`, `credentials.go`,
`response.go` and `types.go`.

Conventions of the embedding.

* A Go `string` is a Lean `String`; a Go `int` is an `Int` (no arithmetic is
  done on page numbers, and the JSON decoder checks the 64-bit range).
* A Go pointer is an `Option`.  A slice is a list, a nil slice and an empty
  slice being both `[]`, except for the slices of a `Transaction`, where the
  difference shows when a record is decoded, encoded and decoded again: there
  `none` is the nil slice.
* The options of `GetAllTransactionsContext` are also embedded as they lie
  in memory, behind the caller's pointer (`Memory`), to say what the call
  assigns to.
* A Go `error` is `Option Error` (`none` is `nil`).
* The network is a function from the requests sent so far and the request
  being sent to the result of `http.Client.Do`; every function that can send
  a request takes the list of requests sent so far and returns the extended
  list, so "no request is issued" is "the list is unchanged".
* A response body is the JSON value it holds (or a marker that it is not
  JSON, or cannot be read); the text-level JSON scanner is not modelled.
* `for { ... }` loops take a fuel argument; `none` means the fuel ran out.
* A run-time panic (nil dereference) is the `panics` outcome of a call.
* `context.Context` is reduced to the credentials it carries; cancellation
  shows up only as an error result of the transport.  The methods of
  `Client` that hand their context to `getJSON` are embedded for a non-nil
  context (with a nil one `http.NewRequestWithContext` fails and `getJSON`
  returns that error before any request); `DownloadAttachmentContext`, which
  drops that error, takes its context as an argument.
* A Go `float64` is a Lean `Float`.  What `strconv` reads and writes for a
  float, and what `time` reads and writes for a `time.Time`, are parameters
  of the decoders and encoders (`parseFloat`, `formatFloat`, `parseTime`,
  `formatTime`); the rules of `encoding/json` around them (`null`, type
  mismatches, `omitempty`, `,string`) are modelled.
* `json.Marshal` is modelled at the level of JSON values: the members of the
  object written, in the order of the struct fields.
-/

namespace Qonto

/-! ## JSON values and the `encoding/json` rules the package relies on -/

/-- A parsed JSON document.  Number literals are split in the integer
literals (which a Go `int` field accepts) and the others, kept as text. -/
inductive Json where
  | null
  | bool (b : Bool)
  | int (n : Int)
  | real (lit : String)
  | str (s : String)
  | arr (elems : List Json)
  | obj (members : List (String × Json))

/-- Case folding of one character of an object key, as `encoding/json` does
when it matches keys to struct fields: ASCII letters ignore case, and the
Kelvin sign and the long s fold to `k` and `s`. -/
def foldRune (c : Char) : Char :=
  if c.toNat = 0x212A then 'k'
  else if c.toNat = 0x17F then 's'
  else c.toLower

/-- Folded form of a key or field name. -/
def foldName (s : String) : String := String.mk (s.data.map foldRune)

/-- Whether the object key `key` selects the struct field whose JSON name is
`field` (exact or case-insensitive match). -/
def keyIs (field key : String) : Bool := foldName key == foldName field

/-- Decoding into an `int` (or `int64`) field holding `cur`: `null` leaves
the field alone, an integer literal in the 64-bit range is stored, anything
else is an `UnmarshalTypeError`. -/
def decodeInt (v : Json) (cur : Int) : Except String Int :=
  match v with
  | .null => .ok cur
  | .int n =>
    if -9223372036854775808 ≤ n ∧ n ≤ 9223372036854775807 then .ok n
    else .error "json: cannot unmarshal number into Go value of type int"
  | _ => .error "json: cannot unmarshal into Go value of type int"

/-- Decoding into an `*int` field: `null` sets the pointer to nil. -/
def decodeIntPtr (v : Json) : Except String (Option Int) :=
  match v with
  | .null => .ok none
  | .int n =>
    if -9223372036854775808 ≤ n ∧ n ≤ 9223372036854775807 then .ok (some n)
    else .error "json: cannot unmarshal number into Go value of type int"
  | _ => .error "json: cannot unmarshal into Go value of type int"

/-- Decoding into a `string` field holding `cur`. -/
def decodeString (v : Json) (cur : String) : Except String String :=
  match v with
  | .null => .ok cur
  | .str s => .ok s
  | _ => .error "json: cannot unmarshal into Go value of type string"

/-- Decoding into a `*string` field. -/
def decodeStringPtr (v : Json) : Except String (Option String) :=
  match v with
  | .null => .ok none
  | .str s => .ok (some s)
  | _ => .error "json: cannot unmarshal into Go value of type string"

/-! ## `strconv` and `net/url` -/

/-- Go `strconv.Itoa`: the decimal text of an integer. -/
def Itoa (n : Int) : String :=
  match n with
  | .ofNat m => String.mk (Nat.toDigits 10 m)
  | .negSucc m => String.mk ('-' :: Nat.toDigits 10 (m + 1))

/-- The UTF-8 bytes of a character. -/
def utf8Bytes (c : Char) : List Nat :=
  let n := c.toNat
  if n < 0x80 then [n]
  else if n < 0x800 then [0xC0 + n / 64, 0x80 + n % 64]
  else if n < 0x10000 then [0xE0 + n / 4096, 0x80 + n / 64 % 64, 0x80 + n % 64]
  else [0xF0 + n / 262144, 0x80 + n / 4096 % 64, 0x80 + n / 64 % 64, 0x80 + n % 64]

/-- One upper-case hexadecimal digit. -/
def upperhex (d : Nat) : Char := "0123456789ABCDEF".data.getD d '0'

/-- Whether `url.QueryEscape` escapes the character: everything but ASCII
letters, digits and `-` `_` `.` `~`. -/
def shouldEscape (c : Char) : Bool :=
  let n := c.toNat
  !((97 ≤ n && n ≤ 122) || (65 ≤ n && n ≤ 90) || (48 ≤ n && n ≤ 57)
    || n == 45 || n == 95 || n == 46 || n == 126)

/-- The escaped form of one character in a query component. -/
def escapeChar (c : Char) : List Char :=
  if c == ' ' then ['+']
  else if shouldEscape c then
    (utf8Bytes c).flatMap fun b => ['%', upperhex (b / 16), upperhex (b % 16)]
  else [c]

/-- The escaped form of a text in a query component. -/
def escape (s : List Char) : List Char := s.flatMap escapeChar

/-- Go `url.QueryEscape`. -/
def QueryEscape (s : String) : String := String.mk (escape s.data)

/-- Go `url.Values`: the keys with their values, each key once. -/
abbrev Values := List (String × List String)

/-- Go `Values.Set`: the key now holds exactly the one value. -/
def Values.Set (v : Values) (key value : String) : Values :=
  match v with
  | [] => [(key, [value])]
  | (k, vs) :: rest =>
    if k = key then (k, [value]) :: rest else (k, vs) :: Values.Set rest key value

/-- Go `Values.Add`: the value is appended to those of the key. -/
def Values.Add (v : Values) (key value : String) : Values :=
  match v with
  | [] => [(key, [value])]
  | (k, vs) :: rest =>
    if k = key then (k, vs ++ [value]) :: rest else (k, vs) :: Values.Add rest key value

/-- Go `Values.Get`: the first value of the key, if the key is there. -/
def Values.Get (v : Values) (key : String) : Option String :=
  match v with
  | [] => none
  | (k, vs) :: rest => if k = key then vs.head? else Values.Get rest key

/-- The order of Go strings (byte-wise, which on UTF-8 text is the order of
the code points, position by position). -/
def keyLess : List Char → List Char → Bool
  | _, [] => false
  | [], _ :: _ => true
  | a :: as, b :: bs =>
    if a.toNat < b.toNat then true
    else if b.toNat < a.toNat then false
    else keyLess as bs

/-- Insertion of an entry in a list of entries sorted by key. -/
def insertByKey (e : String × List String) : Values → Values
  | [] => [e]
  | f :: rest =>
    if keyLess e.1.data f.1.data then e :: f :: rest else f :: insertByKey e rest

/-- The entries sorted by key. -/
def sortByKey : Values → Values
  | [] => []
  | e :: rest => insertByKey e (sortByKey rest)

/-- The texts of a list joined by `&`. -/
def joinAmp : List (List Char) → List Char
  | [] => []
  | [p] => p
  | p :: q :: rest => p ++ '&' :: joinAmp (q :: rest)

/-- Go `Values.Encode`: `key=value` pairs, escaped, sorted by key, joined
by `&`. -/
def Values.Encode (v : Values) : String :=
  String.mk (joinAmp
    ((sortByKey v).flatMap fun e => e.2.map fun x => escape e.1.data ++ '=' :: escape x.data))

/-- A parsed `net/url` URL, as far as the package touches it: `head` is the
scheme, authority and path as written. -/
structure URL where
  head : String
  ForceQuery : Bool
  RawQuery : String
  Fragment : String

/-- Splitting a text at the first occurrence of a separator (Go
`strings.Cut`); the second part is `none` when the separator is absent. -/
def cut (sep : Char) : List Char → List Char × Option (List Char)
  | [] => ([], none)
  | c :: cs =>
    if c = sep then ([], some cs)
    else ((c :: (cut sep cs).1), (cut sep cs).2)

/-- The value of a hexadecimal digit. -/
def unhex (c : Char) : Option Nat :=
  if '0' ≤ c ∧ c ≤ '9' then some (c.toNat - '0'.toNat)
  else if 'a' ≤ c ∧ c ≤ 'f' then some (c.toNat - 'a'.toNat + 10)
  else if 'A' ≤ c ∧ c ≤ 'F' then some (c.toNat - 'A'.toNat + 10)
  else none

/-- Whether a character is an ASCII letter. -/
def isLetter (c : Char) : Bool :=
  (97 ≤ c.toNat && c.toNat ≤ 122) || (65 ≤ c.toNat && c.toNat ≤ 90)

/-- Whether a character is a decimal digit. -/
def isDigitChar (c : Char) : Bool := 48 ≤ c.toNat && c.toNat ≤ 57

/-- Go `ishex`. -/
def ishex (c : Char) : Bool :=
  isDigitChar c || (97 ≤ c.toNat && c.toNat ≤ 102) || (65 ≤ c.toNat && c.toNat ≤ 70)

/-- Go `getScheme`, as a scan of the text: `first` tells whether the
character at hand is the first one and `scheme` holds the characters passed.
The result is `none` for the error "missing protocol scheme" (a colon at
the start), `some none` when the text has no scheme, and the scheme with
what follows the colon otherwise. -/
def scanScheme (first : Bool) (scheme : List Char) :
    List Char → Option (Option (List Char × List Char))
  | [] => some none
  | c :: cs =>
    if isLetter c then scanScheme false (scheme ++ [c]) cs
    else if isDigitChar c || c == '+' || c == '-' || c == '.' then
      if first then some none else scanScheme false (scheme ++ [c]) cs
    else if c == ':' then
      if first then none else some (some (scheme, cs))
    else some none

/-- Whether Go `unescape` succeeds on a path, a fragment or a part of the
user information: every `%` is followed by two hexadecimal digits. -/
def validEscapes : List Char → Bool
  | [] => true
  | '%' :: a :: b :: rest => ishex a && ishex b && validEscapes rest
  | '%' :: _ => false
  | _ :: rest => validEscapes rest

/-- The ASCII characters a host may hold unescaped (Go `shouldEscape` is
false for them in the host mode). -/
def hostCharAllowed (c : Char) : Bool :=
  isLetter c || isDigitChar c
    || ['!', '$', '&', '\'', '(', ')', '*', '+', ',', ';', '=', ':', '[', ']', '<', '>', '"',
        '-', '_', '.', '~'].contains c

/-- Whether Go `unescape` succeeds on a host: an escape has to be well
formed and, unless it is `%25`, to stand for a byte of 0x80 or more; an
ASCII character has to be one a host may hold. -/
def validHost : List Char → Bool
  | [] => true
  | '%' :: a :: b :: rest =>
    ishex a && ishex b && (!(48 ≤ a.toNat && a.toNat ≤ 55) || (a == '2' && b == '5'))
      && validHost rest
  | '%' :: _ => false
  | c :: rest => (decide (0x80 ≤ c.toNat) || hostCharAllowed c) && validHost rest

/-- Whether Go `unescape` succeeds on the zone of an IPv6 literal: an
escape has to be well formed and to stand for `%`, for a space or for an
ASCII character a host may hold. -/
def validZone : List Char → Bool
  | [] => true
  | '%' :: a :: b :: rest =>
    match unhex a, unhex b with
    | some x, some y =>
      ((a == '2' && b == '5') || 16 * x + y == 32
          || (decide (16 * x + y < 0x80) && hostCharAllowed (Char.ofNat (16 * x + y))))
        && validZone rest
    | _, _ => false
  | '%' :: _ => false
  | c :: rest => (decide (0x80 ≤ c.toNat) || hostCharAllowed c) && validZone rest

/-- Go `validOptionalPort`: nothing, or a colon and digits. -/
def validOptionalPort (port : List Char) : Bool :=
  match port with
  | [] => true
  | c :: digits => c == ':' && digits.all isDigitChar

/-- Splitting a text at the last occurrence of a separator (Go
`strings.LastIndex`); `none` when the separator is absent. -/
def cutLast (sep : Char) (l : List Char) : Option (List Char × List Char) :=
  match cut sep l.reverse with
  | (_, none) => none
  | (after, some before) => some (before.reverse, after.reverse)

/-- Splitting a text at the first occurrence of `%25`, which stays in the
second part (Go `strings.Index(host, "%25")`). -/
def splitAtZone : List Char → Option (List Char × List Char)
  | [] => none
  | c :: rest =>
    if ['%', '2', '5'].isPrefixOf (c :: rest) then some ([], c :: rest)
    else (splitAtZone rest).map fun p => (c :: p.1, p.2)

/-- Whether Go `parseHost` succeeds. -/
def validHostPort (host : List Char) : Bool :=
  if ['['].isPrefixOf host then
    match cutLast ']' host with
    | none => false
    | some (inside, colonPort) =>
      validOptionalPort colonPort
        && (match splitAtZone inside with
            | some (address, zone) =>
              validHost address && validZone zone && validHost (']' :: colonPort)
            | none => validHost host)
  else
    match cutLast ':' host with
    | some (_, port) => port.all isDigitChar && validHost host
    | none => validHost host

/-- Go `validUserinfo`. -/
def validUserinfo (s : List Char) : Bool :=
  s.all fun c => isLetter c || isDigitChar c
    || ['-', '.', '_', ':', '~', '!', '$', '&', '\'', '(', ')', '*', '+', ',', ';', '=', '%',
        '@'].contains c

/-- Whether Go `parseAuthority` succeeds: the host after the last `@`, and
the user information before it. -/
def validAuthority (authority : List Char) : Bool :=
  match cutLast '@' authority with
  | none => validHostPort authority
  | some (userinfo, host) =>
    validHostPort host && validUserinfo userinfo
      && (match cut ':' userinfo with
          | (_, none) => validEscapes userinfo
          | (username, some password) => validEscapes username && validEscapes password)

/-- The checks of Go `url.Parse` on the text before the query: the scheme,
the rule that a relative reference has no colon in its first segment, the
authority, and the escapes of the path. -/
def checkHead (text : List Char) : Except String Unit :=
  match scanScheme true [] text with
  | none => .error "missing protocol scheme"
  | some found =>
    let rest := (found.map (·.2)).getD text
    if (['/'].isPrefixOf rest) = false then
      if found.isSome then .ok ()
      else if (cut '/' rest).1.contains ':' then
        .error "first path segment in URL cannot contain colon"
      else if validEscapes rest then .ok ()
      else .error "invalid URL escape"
    else if (found.isSome || (['/', '/', '/'].isPrefixOf rest) == false) && ['/', '/'].isPrefixOf rest then
      if !validAuthority (cut '/' (rest.drop 2)).1 then .error "invalid authority"
      else if validEscapes ((cut '/' (rest.drop 2)).2.getD []) then .ok ()
      else .error "invalid URL escape"
    else if validEscapes rest then .ok ()
    else .error "invalid URL escape"

/-- Go `url.Parse` (which `http.NewRequestWithContext` calls): the text is
split at the first `#` and the first `?`; it is rejected when the part
before `#` holds an ASCII control character, when the part before the query
does not pass the checks of `checkHead`, and when an escape of the fragment
is not well formed.  The head is taken to print back as written.  (A
bracketed host is checked for its brackets, port and escapes, as in the Go
releases this package was written for; later releases also check the
address between the brackets.) -/
def urlParse (rawURL : String) : Except String URL :=
  let (u, frag) := cut '#' rawURL.data
  if u.any (fun c => decide (c.toNat < 0x20) || decide (c.toNat = 0x7F)) then
    .error "net/url: invalid control character in URL"
  else
    let (rest, q) := cut '?' u
    match checkHead rest with
    | .error e => .error e
    | .ok _ =>
      if !validEscapes (frag.getD []) then .error "invalid URL escape"
      else
        match q with
        | none => .ok ⟨String.mk rest, false, "", String.mk (frag.getD [])⟩
        | some [] => .ok ⟨String.mk rest, true, "", String.mk (frag.getD [])⟩
        | some q => .ok ⟨String.mk rest, false, String.mk q, String.mk (frag.getD [])⟩

/-- Go `URL.String`. -/
def URL.String (u : URL) : String :=
  u.head
    ++ (if u.ForceQuery || u.RawQuery != "" then "?" ++ u.RawQuery else "")
    ++ (if u.Fragment != "" then "#" ++ u.Fragment else "")

/-- Go `url.QueryUnescape` on characters: `+` is a space and `%XY` is the
byte `XY`.  Escapes of bytes above 0x7F (parts of a multi-byte character) are
outside the model and make the component undecodable. -/
def unescape : List Char → Option (List Char)
  | [] => some []
  | '%' :: a :: b :: rest =>
    match unhex a, unhex b, unescape rest with
    | some x, some y, some r =>
      if 16 * x + y < 0x80 then some (Char.ofNat (16 * x + y) :: r) else none
    | _, _, _ => none
  | '%' :: _ => none
  | '+' :: rest => (unescape rest).map (' ' :: ·)
  | c :: rest => (unescape rest).map (c :: ·)

/-- The pieces of a text between the occurrences of a separator. -/
def pieces (sep : Char) : List Char → List (List Char)
  | [] => [[]]
  | c :: cs =>
    if c = sep then [] :: pieces sep cs
    else
      match pieces sep cs with
      | [] => [[c]]
      | p :: ps => (c :: p) :: ps

/-- One step of Go `url.ParseQuery`: a piece that holds `;`, is empty or
does not unescape is dropped. -/
def parseQueryPiece (m : Values) (piece : List Char) : Values :=
  if piece.contains ';' || piece.isEmpty then m
  else
    let (k, v) := cut '=' piece
    match unescape k, unescape (v.getD []) with
    | some key, some value => Values.Add m (String.mk key) (String.mk value)
    | _, _ => m

/-- Go `URL.Query`: the raw query parsed into values, errors dropped. -/
def URL.Query (u : URL) : Values :=
  if u.RawQuery = "" then []
  else (pieces '&' u.RawQuery.data).foldl parseQueryPiece []

/-! ## HTTP requests, responses and errors -/

/-- An outgoing request: method, URL and the `Authorization` header. -/
structure Request where
  Method : String
  URL : String
  Authorization : String
  deriving DecidableEq

/-- A response body: the JSON document it holds, text that is not JSON, or
a body whose reading fails. -/
inductive Body where
  | json (v : Json)
  | invalid
  | unreadable

/-- An incoming response.  Of `http.Response` only the status code and the
body are modelled. -/
structure Response where
  StatusCode : Int
  Body : Body

/-- Go `http.Client`: the result of `Do`, given the requests sent before. -/
structure HTTPClient where
  Do : List Request → Request → Except String Response

/-- APIError holds the error information sent in API responses. -/
structure APIError where
  Request : Request
  Response : Option Response
  Message : String

/-- The Go `error` values of the package. -/
inductive Error where
  | ErrMissingBankAccountSlug
  | ErrMissingBankAccountIBAN
  | ErrBankAccountNeeded
  | ErrAttachementNeeded
  | ErrMissingAttachmentURL
  | ErrDone
  | MissingCredentialsError
  | api (e : APIError)
  | Errorf (text : String)
  | wrapped (text : String) (err : Error)
  | library (text : String)

/-! ## Resource records (`types.go`, `response.go`) and their decoding -/

/-- Meta holds the paging information of a page (`types.go`). -/
structure Meta where
  CurrentPage : Int
  NextPage : Option Int
  PrevPage : Option Int
  TotalPages : Int
  TotalCount : Int
  PerPage : Int

/-- ResponseMeta holds the paging information when fetching a page of
transactions (`response.go`); it has the fields and JSON names of `Meta`. -/
abbrev ResponseMeta := Meta

/-- The zero value of `Meta`. -/
def Meta.zero : Meta := ⟨0, none, none, 0, 0, 0⟩

/-- IsLastPage returns true when the meta-data corresponds to the last page. -/
def Meta.IsLastPage (m : Meta) : Bool := m.NextPage.isNone

/-- IsFirstPage returns true when the meta-data corresponds to the first page. -/
def Meta.IsFirstPage (m : Meta) : Bool := m.PrevPage.isNone

/-- Decoding of one member of a JSON object into a `Meta`. -/
def decodeMetaField (m : Meta) (kv : String × Json) : Except String Meta :=
  if keyIs "current_page" kv.1 then (decodeInt kv.2 m.CurrentPage).map ({ m with CurrentPage := · })
  else if keyIs "next_page" kv.1 then (decodeIntPtr kv.2).map ({ m with NextPage := · })
  else if keyIs "prev_page" kv.1 then (decodeIntPtr kv.2).map ({ m with PrevPage := · })
  else if keyIs "total_pages" kv.1 then (decodeInt kv.2 m.TotalPages).map ({ m with TotalPages := · })
  else if keyIs "total_count" kv.1 then (decodeInt kv.2 m.TotalCount).map ({ m with TotalCount := · })
  else if keyIs "per_page" kv.1 then (decodeInt kv.2 m.PerPage).map ({ m with PerPage := · })
  else .ok m

/-- Decoding into a `Meta` holding `cur`: `null` leaves it alone, an object
is decoded member by member, unknown keys are skipped. -/
def decodeMeta (v : Json) (cur : Meta) : Except String Meta :=
  match v with
  | .null => .ok cur
  | .obj kvs => kvs.foldlM decodeMetaField cur
  | _ => .error "json: cannot unmarshal into Go value of type qonto.Meta"

/-- Decoding into a `*ResponseMeta` holding `cur`: `null` sets it to nil,
an object is decoded into the record pointed to (a fresh one if nil). -/
def decodeMetaPtr (v : Json) (cur : Option ResponseMeta) : Except String (Option ResponseMeta) :=
  match v with
  | .null => .ok none
  | _ => (decodeMeta v (cur.getD Meta.zero)).map some

/-- Decoding into a slice of records `[]T`, a slice being the list of its
elements (the nil slice, which `null` gives, and the empty slice, which `[]`
gives, are both the empty list): an array is decoded element by element from
the zero value. -/
def decodeSlice {α : Type} (dec : Json → α → Except String α) (zero : α) (v : Json) :
    Except String (List α) :=
  match v with
  | .null => .ok []
  | .arr xs => xs.mapM fun x => dec x zero
  | _ => .error "json: cannot unmarshal into Go value of slice type"

/-- Decoding into a slice of pointers `[]*T`, a slice being the list of its
elements (`null` and `[]` both give the empty list): a `null` element is a
nil pointer, any other element is decoded into a fresh record. -/
def decodePtrSlice {τ : Type} (decT : Json → Except String τ) (v : Json) :
    Except String (List (Option τ)) :=
  match v with
  | .null => .ok []
  | .arr xs => xs.mapM fun x =>
      match x with
      | .null => .ok none
      | x => (decT x).map some
  | _ => .error "json: cannot unmarshal into Go value of slice type"

/-- Label as defined in the Qonto Dashboard. -/
structure Label where
  ID : String
  Name : String
  ParentID : Option String

/-- Decoding of one member of a JSON object into a `Label`. -/
def decodeLabelField (l : Label) (kv : String × Json) : Except String Label :=
  if keyIs "id" kv.1 then (decodeString kv.2 l.ID).map ({ l with ID := · })
  else if keyIs "name" kv.1 then (decodeString kv.2 l.Name).map ({ l with Name := · })
  else if keyIs "parent_id" kv.1 then (decodeStringPtr kv.2).map ({ l with ParentID := · })
  else .ok l

/-- Decoding into a `Label` holding `cur`. -/
def decodeLabel (v : Json) (cur : Label) : Except String Label :=
  match v with
  | .null => .ok cur
  | .obj kvs => kvs.foldlM decodeLabelField cur
  | _ => .error "json: cannot unmarshal into Go value of type qonto.Label"

/-- Memberships as defined in the Qonto Dashboard. -/
structure Membership where
  ID : String
  FirstName : String
  LastName : String

/-- Decoding of one member of a JSON object into a `Membership`. -/
def decodeMembershipField (m : Membership) (kv : String × Json) : Except String Membership :=
  if keyIs "id" kv.1 then (decodeString kv.2 m.ID).map ({ m with ID := · })
  else if keyIs "first_name" kv.1 then (decodeString kv.2 m.FirstName).map ({ m with FirstName := · })
  else if keyIs "last_name" kv.1 then (decodeString kv.2 m.LastName).map ({ m with LastName := · })
  else .ok m

/-- Decoding into a `Membership` holding `cur`. -/
def decodeMembership (v : Json) (cur : Membership) : Except String Membership :=
  match v with
  | .null => .ok cur
  | .obj kvs => kvs.foldlM decodeMembershipField cur
  | _ => .error "json: cannot unmarshal into Go value of type qonto.Membership"

/-- LabelsPage represents the data returned by Qonto when calling GetLabels*. -/
structure LabelsPage where
  Labels : List Label
  Meta : Meta

/-- Decoding of one member of a JSON object into a `LabelsPage`. -/
def decodeLabelsPageField (p : LabelsPage) (kv : String × Json) : Except String LabelsPage :=
  if keyIs "labels" kv.1 then
    (decodeSlice decodeLabel ⟨"", "", none⟩ kv.2).map ({ p with Labels := · })
  else if keyIs "meta" kv.1 then (decodeMeta kv.2 p.Meta).map ({ p with Meta := · })
  else .ok p

/-- Decoding into a nil `*LabelsPage`: `null` leaves it nil, an object
fills a fresh page. -/
def decodeLabelsPage (v : Json) : Except String (Option LabelsPage) :=
  match v with
  | .null => .ok none
  | .obj kvs => (kvs.foldlM decodeLabelsPageField ⟨[], Meta.zero⟩).map some
  | _ => .error "json: cannot unmarshal into Go value of type qonto.LabelsPage"

/-- MembershipsPage represents the data returned by Qonto when calling
GetMemberships*. -/
structure MembershipsPage where
  Memberships : List Membership
  Meta : Meta

/-- Decoding of one member of a JSON object into a `MembershipsPage`. -/
def decodeMembershipsPageField (p : MembershipsPage) (kv : String × Json) :
    Except String MembershipsPage :=
  if keyIs "memberships" kv.1 then
    (decodeSlice decodeMembership ⟨"", "", ""⟩ kv.2).map ({ p with Memberships := · })
  else if keyIs "meta" kv.1 then (decodeMeta kv.2 p.Meta).map ({ p with Meta := · })
  else .ok p

/-- Decoding into a nil `*MembershipsPage`. -/
def decodeMembershipsPage (v : Json) : Except String (Option MembershipsPage) :=
  match v with
  | .null => .ok none
  | .obj kvs => (kvs.foldlM decodeMembershipsPageField ⟨[], Meta.zero⟩).map some
  | _ => .error "json: cannot unmarshal into Go value of type qonto.MembershipsPage"

/-- TransactionsPage represents the data returned by Qonto when calling
GetTransactions*.  The `Transaction` record is the parameter `τ`: paging
never looks inside a transaction. -/
structure TransactionsPage (τ : Type) where
  Transactions : List (Option τ)
  Meta : Meta

/-- Decoding of one member of a JSON object into a `TransactionsPage`;
`decT` decodes one transaction object. -/
def decodeTransactionsPageField {τ : Type} (decT : Json → Except String τ)
    (p : TransactionsPage τ) (kv : String × Json) : Except String (TransactionsPage τ) :=
  if keyIs "transactions" kv.1 then
    (decodePtrSlice decT kv.2).map ({ p with Transactions := · })
  else if keyIs "meta" kv.1 then (decodeMeta kv.2 p.Meta).map ({ p with Meta := · })
  else .ok p

/-- Decoding into a nil `*TransactionsPage`. -/
def decodeTransactionsPage {τ : Type} (decT : Json → Except String τ) (v : Json) :
    Except String (Option (TransactionsPage τ)) :=
  match v with
  | .null => .ok none
  | .obj kvs => (kvs.foldlM (decodeTransactionsPageField decT) ⟨[], Meta.zero⟩).map some
  | _ => .error "json: cannot unmarshal into Go value of type qonto.TransactionsPage"

/-- TransactionsResponse holds the data returned by the Qonto API when
fetching a page of transactions (`response.go`). -/
structure TransactionsResponse (τ : Type) where
  Transactions : List (Option τ)
  Meta : Option ResponseMeta

/-- Decoding of one member of a JSON object into a `TransactionsResponse`. -/
def decodeTransactionsResponseField {τ : Type} (decT : Json → Except String τ)
    (o : TransactionsResponse τ) (kv : String × Json) : Except String (TransactionsResponse τ) :=
  if keyIs "transactions" kv.1 then
    (decodePtrSlice decT kv.2).map ({ o with Transactions := · })
  else if keyIs "meta" kv.1 then (decodeMetaPtr kv.2 o.Meta).map ({ o with Meta := · })
  else .ok o

/-- Decoding into a `TransactionsResponse` holding `cur`. -/
def decodeTransactionsResponse {τ : Type} (decT : Json → Except String τ) (v : Json)
    (cur : TransactionsResponse τ) : Except String (TransactionsResponse τ) :=
  match v with
  | .null => .ok cur
  | .obj kvs => kvs.foldlM (decodeTransactionsResponseField decT) cur
  | _ => .error "json: cannot unmarshal into Go value of type qonto.TransactionsResponse"

/-- Where the `Response` pointer of an `APIError` points while an error
body is decoded into the error: to the response received, to nothing, or to
a record the decoder allocated. -/
inductive ResponseRef where
  | received
  | nil
  | allocated (r : Response)

/-- What the decoding of an error body works on: the response received
(which the decoder reaches through the `Response` pointer as long as the
pointer is not reset), the `Response` pointer and the `Message` of the
`APIError`, and the first type error met.  As `encoding/json` does, a type
error is saved and decoding goes on with the next member. -/
structure ErrorDecoding where
  res : Response
  Response : ResponseRef
  Message : String
  saved : Option String

/-- The saved error after a new type error: the first one is kept. -/
def firstError (saved : Option String) (e : String) : Option String :=
  match saved with
  | some e0 => some e0
  | none => some e

/-- Decoding of one member of a JSON object into an `http.Response`, for
the member `StatusCode`, the one field of the response `getJSON` reads
afterwards.  The embedding covers error bodies whose `Response` member, if
any, holds no other field of `http.Response`: Go would decode those too
(`"Body": null` resets `res.Body`, and the `res.Body.Close()` that follows
in `getJSON` then panics; a value of the wrong type for `Status` or `Header`
is one more type error), and such a member is passed over here.  The
statements about failure statuses that range over every body take a body
without a `Response` member. -/
def decodeResponseMember (s : Response × Option String) (kv : String × Json) :
    Response × Option String :=
  if keyIs "StatusCode" kv.1 then
    match decodeInt kv.2 s.1.StatusCode with
    | .ok n => ({ s.1 with StatusCode := n }, s.2)
    | .error e => (s.1, firstError s.2 e)
  else s

/-- Decoding of one member of a JSON object into an `APIError`.  The struct
tags are `Request: json:"-"`, `Response: jsoon:"-"`, `Message:
json:"message"`: `Request` is skipped, `Message` answers to `message`, and
`Response`, whose tag is not a `json` tag, answers to its field name: `null`
resets the pointer, an object is decoded into the record the pointer points
to (a fresh one when it is nil). -/
def decodeErrorMember (d : ErrorDecoding) (kv : String × Json) : ErrorDecoding :=
  if keyIs "Response" kv.1 then
    match kv.2 with
    | .null => { d with Response := .nil }
    | .obj kvs =>
      match d.Response with
      | .received =>
        { d with res := (kvs.foldl decodeResponseMember (d.res, d.saved)).1,
                 saved := (kvs.foldl decodeResponseMember (d.res, d.saved)).2 }
      | .nil =>
        { d with Response := .allocated (kvs.foldl decodeResponseMember (⟨0, .invalid⟩, d.saved)).1,
                 saved := (kvs.foldl decodeResponseMember (⟨0, .invalid⟩, d.saved)).2 }
      | .allocated r =>
        { d with Response := .allocated (kvs.foldl decodeResponseMember (r, d.saved)).1,
                 saved := (kvs.foldl decodeResponseMember (r, d.saved)).2 }
    | _ =>
      { d with saved :=
          firstError d.saved "json: cannot unmarshal into Go value of type http.Response" }
  else if keyIs "message" kv.1 then
    match decodeString kv.2 d.Message with
    | .ok m => { d with Message := m }
    | .error e => { d with saved := firstError d.saved e }
  else d

/-- Decoding of a JSON document into an `APIError`: `null` changes nothing,
an object is decoded member by member, anything else is a type error. -/
def decodeErrorBody (v : Json) (d : ErrorDecoding) : ErrorDecoding :=
  match v with
  | .null => d
  | .obj kvs => kvs.foldl decodeErrorMember d
  | _ =>
    { d with saved :=
        firstError d.saved "json: cannot unmarshal into Go value of type qonto.APIError" }

/-- The response the `Response` pointer of the decoded `APIError` points
to. -/
def ErrorDecoding.pointee (d : ErrorDecoding) : Option Qonto.Response :=
  match d.Response with
  | .received => some d.res
  | .nil => none
  | .allocated r => some r

/-- Go `json.NewDecoder(body).Decode(ref)`, `dec` being the decoding into
the type of `ref`: it fails when the body cannot be read or is not JSON.
When decoding fails, what had already been written to `ref` is not
tracked. -/
def Body.Decode {α : Type} (b : Body) (dec : Json → Except String α) : Except String α :=
  match b with
  | .json v => dec v
  | .invalid => .error "invalid character looking for beginning of value"
  | .unreadable => .error "unexpected EOF"

/-! ## `time.Time` and its RFC 3339 text -/

/-- A `time.Time`, as its calendar reading in its own location, to the
nanosecond, and the offset of that location, in seconds east of UTC. -/
structure Time where
  Year : Int
  Month : Nat
  Day : Nat
  Hour : Nat
  Minute : Nat
  Second : Nat
  Nanosecond : Nat
  Offset : Int

/-- The decimal text of a natural number, zero-padded to `width` digits. -/
def padded (width n : Nat) : String :=
  let digits := Nat.toDigits 10 n
  String.mk (List.replicate (width - digits.length) '0' ++ digits)

/-- Go `t.Format(time.RFC3339)`: layout `2006-01-02T15:04:05Z07:00`.  The
layout has no fraction of a second; `Z` is written for the offset 0 only, an
offset of less than a minute being written `+00:00`. -/
def Time.FormatRFC3339 (t : Time) : String :=
  let zone := Int.tdiv t.Offset 60
  (if t.Year < 0 then "-" else "") ++ padded 4 t.Year.natAbs ++ "-" ++ padded 2 t.Month ++ "-"
    ++ padded 2 t.Day ++ "T" ++ padded 2 t.Hour ++ ":" ++ padded 2 t.Minute ++ ":"
    ++ padded 2 t.Second
    ++ (if t.Offset = 0 then "Z"
        else (if zone < 0 then "-" else "+") ++ padded 2 (zone.natAbs / 60) ++ ":"
          ++ padded 2 (zone.natAbs % 60))

/-! ## The v2 client (`client.go`) -/

/-- BaseURL is the root URL for all API calls (the value the package
variable is initialised with). -/
def BaseURL : String := "https://thirdparty.qonto.eu/v2"

/-- Client allows to send requests to the Qonto API servers. -/
structure Client where
  h : HTTPClient
  Slug : String
  SecretKey : String

/-- How a call ends: it returns, or it panics (nil pointer dereference). -/
inductive Outcome (α : Type) where
  | returns (a : α)
  | panics (msg : String)

/-- The method `Client.getJSON(ctx, u, ref)`: `ref` is the value of the
output before the call and `dec` the JSON decoding into it; the result is the
value of the output after the call, the error, and the requests sent.
`http.NewRequestWithContext` fails when the URL does not parse, and closing
the body is taken to succeed.  On a status above 299 the body is decoded into
an `APIError` that points to the request and to the response; the status
printed in the generic error is read from the response after that decoding.
(An error body that resets `res.Body` through its `Response` member, which
makes `res.Body.Close()` panic, is outside the embedding: see
`decodeResponseMember`.) -/
def Client.getJSON {α : Type} (c : Client) (u : String) (dec : Json → Except String α)
    (ref : α) (log : List Request) : (α × Option Error) × List Request :=
  match urlParse u with
  | .error e => ((ref, some (.library e)), log)
  | .ok _ =>
    let req : Request := ⟨"GET", u, c.Slug ++ ":" ++ c.SecretKey⟩
    match c.h.Do log req with
    | .error e =>
      ((ref, some (.wrapped "Qonto API could not be reached: " (.library e))), log ++ [req])
    | .ok res =>
      if res.StatusCode > 299 then
        match res.Body with
        | .json v =>
          let d := decodeErrorBody v ⟨res, .received, "", none⟩
          match d.saved with
          | none => ((ref, some (.api ⟨req, d.pointee, d.Message⟩)), log ++ [req])
          | some _ =>
            ((ref, some (.Errorf ("GET " ++ u ++ " returned " ++ Itoa d.res.StatusCode))),
              log ++ [req])
        | _ =>
          ((ref, some (.Errorf ("GET " ++ u ++ " returned " ++ Itoa res.StatusCode))), log ++ [req])
      else
        match res.Body.Decode dec with
        | .error e =>
          ((ref, some (.wrapped "Could not decode the response from Qonto API: " (.library e))),
            log ++ [req])
        | .ok a => ((a, none), log ++ [req])

/-- The function `addPaginationQueryParams`.  The values set in `query` are
not used afterwards: the raw query is rebuilt from `u.Query()`. -/
def addPaginationQueryParams (baseURL : String) (currentPage perPage : Int) :
    String × Option Error :=
  match urlParse baseURL with
  | .error e => (baseURL, some (.library e))
  | .ok u =>
    let query : Values := []
    let query := if currentPage > 0 then Values.Set query "current_page" (Itoa currentPage) else query
    let query := if perPage > 0 then Values.Set query "per_page" (Itoa perPage) else query
    let _unused := query
    let u := { u with RawQuery := Values.Encode u.Query }
    (u.String, none)

/-- GetLabelsContext fetches the list of labels defined in the current
Organization. -/
def Client.GetLabelsContext (c : Client) (currentPage perPage : Int) (log : List Request) :
    (Option LabelsPage × Option Error) × List Request :=
  match addPaginationQueryParams (BaseURL ++ "/labels") currentPage perPage with
  | (_, some err) => ((none, some err), log)
  | (u, none) => c.getJSON u decodeLabelsPage none log

/-- The loop of `GetAllLabelsContext`, `labels` being the labels gathered so
far. -/
def Client.GetAllLabelsContext.loop (c : Client) (perPage : Int) :
    Nat → Int → List Label → List Request →
      Option (Outcome (List Label × Option Error) × List Request)
  | 0, _, _, _ => none
  | fuel + 1, startPage, labels, log =>
    match c.GetLabelsContext startPage perPage log with
    | ((_, some err), log) => some (.returns (labels, some err), log)
    | ((none, none), log) => some (.panics "nil pointer dereference", log)
    | ((some res, none), log) =>
      let labels := labels ++ res.Labels
      match res.Meta.NextPage with
      | none => some (.returns (labels, none), log)
      | some next => Client.GetAllLabelsContext.loop c perPage fuel next labels log

/-- GetAllLabelsContext fetches the list of labels defined in the current
Organization. -/
def Client.GetAllLabelsContext (fuel : Nat) (c : Client) (startPage perPage : Int)
    (log : List Request) : Option (Outcome (List Label × Option Error) × List Request) :=
  Client.GetAllLabelsContext.loop c perPage fuel startPage [] log

/-- GetMembershipsContext fetches the list of members of the current
Organization. -/
def Client.GetMembershipsContext (c : Client) (currentPage perPage : Int) (log : List Request) :
    (Option MembershipsPage × Option Error) × List Request :=
  match addPaginationQueryParams (BaseURL ++ "/memberships") currentPage perPage with
  | (_, some err) => ((none, some err), log)
  | (u, none) => c.getJSON u decodeMembershipsPage none log

/-- The loop of `GetAllMembershipsContext`. -/
def Client.GetAllMembershipsContext.loop (c : Client) (perPage : Int) :
    Nat → Int → List Membership → List Request →
      Option (Outcome (List Membership × Option Error) × List Request)
  | 0, _, _, _ => none
  | fuel + 1, startPage, memberships, log =>
    match c.GetMembershipsContext startPage perPage log with
    | ((_, some err), log) => some (.returns (memberships, some err), log)
    | ((none, none), log) => some (.panics "nil pointer dereference", log)
    | ((some res, none), log) =>
      let memberships := memberships ++ res.Memberships
      match res.Meta.NextPage with
      | none => some (.returns (memberships, none), log)
      | some next => Client.GetAllMembershipsContext.loop c perPage fuel next memberships log

/-- GetAllMembershipsContext fetches the list of members of the current
Organization. -/
def Client.GetAllMembershipsContext (fuel : Nat) (c : Client) (startPage perPage : Int)
    (log : List Request) : Option (Outcome (List Membership × Option Error) × List Request) :=
  Client.GetAllMembershipsContext.loop c perPage fuel startPage [] log

/-- GetTransactionOptions list all the (optional) search options for the
Get[All]Transactions* calls. -/
structure GetTransactionOptions where
  Statuses : List String
  UpdatedAtFrom : Option Time
  UpdatedAtTo : Option Time
  SettledAtFrom : Option Time
  SettledAtTo : Option Time
  SortBy : Option String
  CurrentPage : Option Int
  PerPage : Option Int

/-- The zero value of `GetTransactionOptions`. -/
def GetTransactionOptions.zero : GetTransactionOptions :=
  ⟨[], none, none, none, none, none, none, none⟩

/-- A query with the key set when the option is present (and passes the
test), as the `if options.X != nil { query.Set(...) }` lines do. -/
def setWhen (query : Values) (key : String) (value : Option String) : Values :=
  match value with
  | some x => Values.Set query key x
  | none => query

/-- The function `getTransactionsURL`. -/
def getTransactionsURL (slug IBAN : String) (options : Option GetTransactionOptions) :
    String × Option Error :=
  match urlParse (BaseURL ++ "/transactions") with
  | .error e => ("", some (.library e))
  | .ok u =>
    let query : Values := []
    if slug = "" then ("", some .ErrMissingBankAccountSlug)
    else
      let query := Values.Set query "slug" slug
      if IBAN = "" then ("", some .ErrMissingBankAccountIBAN)
      else
        let query := Values.Set query "iban" IBAN
        let query :=
          match options with
          | none => query
          | some options =>
            let query := options.Statuses.foldl (fun q s => Values.Add q "status" s) query
            let query := setWhen query "updated_at_from" (options.UpdatedAtFrom.map Time.FormatRFC3339)
            let query := setWhen query "updated_at_to" (options.UpdatedAtTo.map Time.FormatRFC3339)
            let query := setWhen query "settled_at_from" (options.SettledAtFrom.map Time.FormatRFC3339)
            let query := setWhen query "settled_at_to" (options.SettledAtTo.map Time.FormatRFC3339)
            let query := setWhen query "sort_by" options.SortBy
            let query := setWhen query "current_page"
              ((options.CurrentPage.filter (· > 0)).map Itoa)
            setWhen query "per_page" ((options.PerPage.filter (· > 0)).map Itoa)
        let u := { u with RawQuery := Values.Encode query }
        (u.String, none)

/-- GetTransactionsContext fetches the list of transactions of the given
bank account. -/
def Client.GetTransactionsContext {τ : Type} (decT : Json → Except String τ) (c : Client)
    (bankAccountID IBAN : String) (options : Option GetTransactionOptions)
    (log : List Request) : (Option (TransactionsPage τ) × Option Error) × List Request :=
  match getTransactionsURL bankAccountID IBAN options with
  | (_, some err) => ((none, some err), log)
  | (u, none) => c.getJSON u (decodeTransactionsPage decT) none log

/-- The loop of `GetAllTransactionsContext`: `currentPage` is the page to
ask for and `transactions` the transactions gathered so far. -/
def Client.GetAllTransactionsContext.loop {τ : Type} (decT : Json → Except String τ)
    (c : Client) (bankAccountID IBAN : String) (options : Option GetTransactionOptions) :
    Nat → Int → List (Option τ) → List Request →
      Option (Outcome (List (Option τ) × Option Error) × List Request)
  | 0, _, _, _ => none
  | fuel + 1, currentPage, transactions, log =>
    let callOptions : GetTransactionOptions := options.getD GetTransactionOptions.zero
    let callOptions := { callOptions with CurrentPage := some currentPage }
    match c.GetTransactionsContext decT bankAccountID IBAN (some callOptions) log with
    | ((_, some err), log) => some (.returns (transactions, some err), log)
    | ((none, none), log) => some (.panics "nil pointer dereference", log)
    | ((some res, none), log) =>
      let transactions := transactions ++ res.Transactions
      match res.Meta.NextPage with
      | none => some (.returns (transactions, none), log)
      | some next =>
        Client.GetAllTransactionsContext.loop decT c bankAccountID IBAN options fuel next
          transactions log

/-- GetAllTransactionsContext fetches the list of transactions of the given
bank account. -/
def Client.GetAllTransactionsContext {τ : Type} (decT : Json → Except String τ) (fuel : Nat)
    (c : Client) (bankAccountID IBAN : String) (options : Option GetTransactionOptions)
    (log : List Request) : Option (Outcome (List (Option τ) × Option Error) × List Request) :=
  let currentPage : Int := (options.bind (·.CurrentPage)).getD 1
  Client.GetAllTransactionsContext.loop decT c bankAccountID IBAN options fuel currentPage [] log

/-! ## Credentials carried by the context (`credentials.go`) -/

/-- Credentials: the unique slug for the organization and the secret key. -/
structure Credentials where
  Slug : String
  SecretKey : String

/-- A non-nil `context.Context`, reduced to the credentials attached to it
by `WithCredentials`. -/
inductive Context where
  | background
  | withValue (parent : Context) (cred : Credentials)

/-- Go `ctx.Value(credentialsContextKey)`: the pair attached last, if any. -/
def Context.Value : Context → Option Credentials
  | .background => none
  | .withValue _ cred => some cred

/-- The function `WithCredentials`; a nil `ctx` is `none`. -/
def WithCredentials (ctx : Option Context) (slug secretKey : String) : Context :=
  let ctx := ctx.getD .background
  .withValue ctx ⟨slug, secretKey⟩

/-- The package variables the context client reads: `DefaultCredentials`
and Go `http.DefaultClient`. -/
structure Globals where
  DefaultCredentials : Option Credentials
  DefaultClient : HTTPClient

/-- The function `SetDefaultCredentials`. -/
def SetDefaultCredentials (g : Globals) (slug secretKey : String) : Globals :=
  { g with DefaultCredentials := some ⟨slug, secretKey⟩ }

/-- A Go interface value that holds a `*Credentials`: the nil interface, or
an interface holding a pointer, which may itself be nil. -/
inductive CredentialsValue where
  | nil
  | ptr (p : Option Credentials)

/-- The function `GetCredentials`.  After `c = DefaultCredentials` the
interface holds a typed pointer, so the second `c == nil` test is false even
when `DefaultCredentials` is nil, and `cred.Slug` then dereferences nil. -/
def GetCredentials (g : Globals) (ctx : Option Context) :
    Outcome (String × String × Option Error) :=
  match ctx with
  | none => .panics "nil pointer dereference"
  | some ctx =>
    let c : CredentialsValue :=
      match ctx.Value with
      | some cred => .ptr (some cred)
      | none => .nil
    let c : CredentialsValue :=
      match c with
      | .nil => .ptr g.DefaultCredentials
      | c => c
    match c with
    | .nil => .returns ("", "", some .MissingCredentialsError)
    | .ptr none => .panics "nil pointer dereference"
    | .ptr (some cred) => .returns (cred.Slug, cred.SecretKey, none)

/-! ## The context client and its iterator (`context_client.go`, `pagination.go`) -/

/-- BackendURL holds the base URL for calling Qonto API v2. -/
def BackendURL : String := "https://thirdparty.qonto.eu/v2/"

/-- A ContextClient is an API client for the Qonto API v2; a nil
`HTTPClient` stands for Go `http.DefaultClient`. -/
structure ContextClient where
  HTTPClient : Option Qonto.HTTPClient

/-- The method `ContextClient.authenticatedGet`: the bytes read (as the
body they form) and the error.  The error of `http.NewRequest` is dropped by
the source, so a URL that does not parse makes `req.Header` dereference
nil. -/
def ContextClient.authenticatedGet (g : Globals) (c : ContextClient) (ctx : Option Context)
    (path : String) (log : List Request) : Outcome (Body × Option Error) × List Request :=
  match GetCredentials g ctx with
  | .panics m => (.panics m, log)
  | .returns (_, _, some err) => (.returns (.invalid, some err), log)
  | .returns (slug, secretKey, none) =>
    let u := BackendURL
    let u := if path != "" then u ++ "/" ++ path else u
    match urlParse u with
    | .error _ => (.panics "nil pointer dereference", log)
    | .ok _ =>
      let req : Request := ⟨"GET", u, slug ++ ":" ++ secretKey⟩
      let httpClient := c.HTTPClient.getD g.DefaultClient
      match httpClient.Do log req with
      | .error e => (.returns (.invalid, some (.library e)), log ++ [req])
      | .ok res =>
        match res.Body with
        | .unreadable => (.returns (.invalid, some (.library "unexpected EOF")), log ++ [req])
        | buf => (.returns (buf, none), log ++ [req])

/-- The PaginationOptions holds the pagination details for the requests. -/
structure PaginationOptions where
  CurrentPage : Int
  PerPage : Int

/-- The method `ContextClient.GetTransactions`: the transactions, the
meta-data and the error.  When `json.Unmarshal` fails, what it had already
written to the response record is not tracked. -/
def ContextClient.GetTransactions {τ : Type} (g : Globals) (decT : Json → Except String τ)
    (c : ContextClient) (ctx : Option Context) (slug iban : String)
    (opt : Option PaginationOptions) (log : List Request) :
    Outcome (List (Option τ) × Option ResponseMeta × Option Error) × List Request :=
  let v : Values := []
  let v := Values.Set v "slug" slug
  let v := Values.Set v "iban" iban
  let v :=
    match opt with
    | none => v
    | some opt =>
      let v := if opt.CurrentPage > 0 then Values.Set v "current_page" (Itoa opt.CurrentPage) else v
      if opt.PerPage > 0 then Values.Set v "per_page" (Itoa opt.PerPage) else v
  let path := "transactions?" ++ Values.Encode v
  match c.authenticatedGet g ctx path log with
  | (.panics m, log) => (.panics m, log)
  | (.returns (_, some err), log) => (.returns ([], none, some err), log)
  | (.returns (buf, none), log) =>
    match buf.Decode (fun j => decodeTransactionsResponse decT j ⟨[], none⟩) with
    | .ok o => (.returns (o.Transactions, o.Meta, none), log)
    | .error e => (.returns ([], none, some (.library e)), log)

/-- ContextIterator is an iterator type for the ContextClient. -/
structure ContextIterator where
  c : ContextClient
  Slug : String
  IBAN : String
  nextPage : Int
  perPage : Int
  done : Bool

/-- IterTransactionPages creates a new ContextIterator for the provided
iban and slug. -/
def ContextClient.IterTransactionPages (c : ContextClient) (slug iban : String) (perPage : Int) :
    ContextIterator :=
  { c := c, Slug := slug, IBAN := iban, nextPage := 0, perPage := perPage, done := false }

/-- Next fetches and returns the next page of transactions: the result, the
iterator after the call and the requests sent.  `m.NextPage` dereferences
the meta-data pointer returned by `GetTransactions`. -/
def ContextIterator.Next {τ : Type} (g : Globals) (decT : Json → Except String τ)
    (i : ContextIterator) (ctx : Option Context) (log : List Request) :
    Outcome (List (Option τ) × Bool × Option Error) × ContextIterator × List Request :=
  if i.done then (.returns ([], true, some .ErrDone), i, log)
  else
    let opt : PaginationOptions := { CurrentPage := i.nextPage, PerPage := i.perPage }
    match i.c.GetTransactions g decT ctx i.Slug i.IBAN (some opt) log with
    | (.panics m, log) => (.panics m, i, log)
    | (.returns (_, _, some err), log) => (.returns ([], false, some err), i, log)
    | (.returns (_, none, none), log) => (.panics "nil pointer dereference", i, log)
    | (.returns (t, some m, none), log) =>
      let i : ContextIterator :=
        match m.NextPage with
        | some next => { i with nextPage := next }
        | none => { i with done := true }
      (.returns (t, i.done, none), i, log)

/-! ## Organizations, bank accounts and attachments -/

/-- BankAccount holds identification info about a single bank account.  A
Go `float64` is a Lean `Float`. -/
structure BankAccount where
  Slug : String
  IBAN : String
  BIC : String
  Currency : String
  Balance : Float
  BalanceCents : Int
  AuthorizedBalance : Float
  AuthorizedBalanceCents : Int

/-- Organization describes the holder of a Qonto account. -/
structure Organization where
  Slug : String
  BankAccounts : List (Option BankAccount)

/-- OrganizationResponse holds the data returned by the Qonto API when
fetching organization info. -/
structure OrganizationResponse where
  Organization : Option Qonto.Organization

/-- Attachment: the record of a file attached to a transaction. -/
structure Attachment where
  ID : String
  CreatedAt : Time
  FileName : String
  FileSize : Int
  FileContentType : String
  URL : String

/-- Decoding of one member of a JSON object into an `Organization`; `decB`
decodes one bank account object. -/
def decodeOrganizationField (decB : Json → Except String BankAccount) (o : Organization)
    (kv : String × Json) : Except String Organization :=
  if keyIs "slug" kv.1 then (decodeString kv.2 o.Slug).map ({ o with Slug := · })
  else if keyIs "bank_accounts" kv.1 then
    (decodePtrSlice decB kv.2).map ({ o with BankAccounts := · })
  else .ok o

/-- Decoding into an `*Organization` holding `cur`. -/
def decodeOrganizationPtr (decB : Json → Except String BankAccount) (v : Json)
    (cur : Option Organization) : Except String (Option Organization) :=
  match v with
  | .null => .ok none
  | .obj kvs => (kvs.foldlM (decodeOrganizationField decB) (cur.getD ⟨"", []⟩)).map some
  | _ => .error "json: cannot unmarshal into Go value of type qonto.Organization"

/-- Decoding of one member of a JSON object into an `OrganizationResponse`. -/
def decodeOrganizationResponseField (decB : Json → Except String BankAccount)
    (o : OrganizationResponse) (kv : String × Json) : Except String OrganizationResponse :=
  if keyIs "organization" kv.1 then
    (decodeOrganizationPtr decB kv.2 o.Organization).map ({ o with Organization := · })
  else .ok o

/-- Decoding into an `OrganizationResponse` holding `cur`. -/
def decodeOrganizationResponse (decB : Json → Except String BankAccount) (v : Json)
    (cur : OrganizationResponse) : Except String OrganizationResponse :=
  match v with
  | .null => .ok cur
  | .obj kvs => kvs.foldlM (decodeOrganizationResponseField decB) cur
  | _ => .error "json: cannot unmarshal into Go value of type qonto.OrganizationResponse"

/-- Whether `url.PathEscape` escapes the character: everything but ASCII
letters, digits, `-` `_` `.` `~` and `$` `&` `+` `:` `=` `@`. -/
def shouldEscapeSegment (c : Char) : Bool :=
  let n := c.toNat
  !((97 ≤ n && n ≤ 122) || (65 ≤ n && n ≤ 90) || (48 ≤ n && n ≤ 57)
    || n == 45 || n == 95 || n == 46 || n == 126
    || n == 36 || n == 38 || n == 43 || n == 58 || n == 61 || n == 64)

/-- The escaped form of one character in a path segment. -/
def escapeSegmentChar (c : Char) : List Char :=
  if shouldEscapeSegment c then
    (utf8Bytes c).flatMap fun b => ['%', upperhex (b / 16), upperhex (b % 16)]
  else [c]

/-- Go `url.PathEscape`. -/
def PathEscape (s : String) : String := String.mk (s.data.flatMap escapeSegmentChar)

/-- The method `ContextClient.GetOrganization`: the organization and the
error. -/
def ContextClient.GetOrganization (g : Globals) (decB : Json → Except String BankAccount)
    (c : ContextClient) (ctx : Option Context) (log : List Request) :
    Outcome (Option Organization × Option Error) × List Request :=
  match GetCredentials g ctx with
  | .panics m => (.panics m, log)
  | .returns (_, _, some err) => (.returns (none, some err), log)
  | .returns (slug, _, none) =>
    let path := "organizations/" ++ PathEscape slug
    match c.authenticatedGet g ctx path log with
    | (.panics m, log) => (.panics m, log)
    | (.returns (_, some err), log) => (.returns (none, some err), log)
    | (.returns (buf, none), log) =>
      match buf.Decode (fun j => decodeOrganizationResponse decB j ⟨none⟩) with
      | .ok o => (.returns (o.Organization, none), log)
      | .error e => (.returns (none, some (.library e)), log)

/-- GetTransactions fetches the list of transactions of the given bank
account. -/
def Client.GetTransactions {τ : Type} (decT : Json → Except String τ) (c : Client)
    (bankAccountID IBAN : String) (options : Option GetTransactionOptions)
    (log : List Request) : (Option (TransactionsPage τ) × Option Error) × List Request :=
  c.GetTransactionsContext decT bankAccountID IBAN options log

/-- GetTransactionsForAccount fetches the list of transactions of the given
bank account. -/
def Client.GetTransactionsForAccount {τ : Type} (decT : Json → Except String τ) (c : Client)
    (ba : Option BankAccount) (options : Option GetTransactionOptions) (log : List Request) :
    (Option (TransactionsPage τ) × Option Error) × List Request :=
  match ba with
  | none => ((none, some .ErrBankAccountNeeded), log)
  | some ba => c.GetTransactions decT ba.Slug ba.IBAN options log

/-- GetTransactionsForAccountContext fetches the list of transactions of the
given bank account. -/
def Client.GetTransactionsForAccountContext {τ : Type} (decT : Json → Except String τ)
    (c : Client) (ba : Option BankAccount) (options : Option GetTransactionOptions)
    (log : List Request) : (Option (TransactionsPage τ) × Option Error) × List Request :=
  match ba with
  | none => ((none, some .ErrBankAccountNeeded), log)
  | some ba => c.GetTransactionsContext decT ba.Slug ba.IBAN options log

/-- GetAllTransactions fetches the list of transactions of the given bank
account. -/
def Client.GetAllTransactions {τ : Type} (decT : Json → Except String τ) (fuel : Nat)
    (c : Client) (bankAccountID IBAN : String) (options : Option GetTransactionOptions)
    (log : List Request) : Option (Outcome (List (Option τ) × Option Error) × List Request) :=
  c.GetAllTransactionsContext decT fuel bankAccountID IBAN options log

/-- GetAllTransactionsForAccount fetches the list of transactions of the
given bank account. -/
def Client.GetAllTransactionsForAccount {τ : Type} (decT : Json → Except String τ) (fuel : Nat)
    (c : Client) (ba : Option BankAccount) (options : Option GetTransactionOptions)
    (log : List Request) : Option (Outcome (List (Option τ) × Option Error) × List Request) :=
  match ba with
  | none => some (.returns ([], some .ErrBankAccountNeeded), log)
  | some ba => c.GetAllTransactions decT fuel ba.Slug ba.IBAN options log

/-- GetAllTransactionsForAccountContext fetches the list of transactions of
the given bank account. -/
def Client.GetAllTransactionsForAccountContext {τ : Type} (decT : Json → Except String τ)
    (fuel : Nat) (c : Client) (ba : Option BankAccount)
    (options : Option GetTransactionOptions) (log : List Request) :
    Option (Outcome (List (Option τ) × Option Error) × List Request) :=
  match ba with
  | none => some (.returns ([], some .ErrBankAccountNeeded), log)
  | some ba => c.GetAllTransactionsContext decT fuel ba.Slug ba.IBAN options log

/-- Go `http.NewRequestWithContext(ctx, "GET", url, nil)`: the method `GET`
is valid; a nil context is refused, and so is a URL that `url.Parse`
rejects.  The request built has no `Authorization` header (the empty
text). -/
def NewRequestWithContext (ctx : Option Context) (url : String) : Except String Request :=
  match ctx with
  | none => .error "net/http: nil Context"
  | some _ =>
    match urlParse url with
    | .error e => .error e
    | .ok _ => .ok ⟨"GET", url, ""⟩

/-- DownloadAttachmentContext downloads the file contents of an attachment:
the bytes read (as the body they form, nil being `none`) and the error.  The
error of `http.NewRequestWithContext` is overwritten by the next line, so a
nil context or a URL that does not parse makes `c.h.Do` dereference the nil
request.  No `Authorization` header is set. -/
def Client.DownloadAttachmentContext (c : Client) (ctx : Option Context)
    (a : Option Attachment) (log : List Request) :
    Outcome (Option Body × Option Error) × List Request :=
  match a with
  | none => (.returns (none, some .ErrAttachementNeeded), log)
  | some a =>
    if a.URL = "" then (.returns (none, some .ErrMissingAttachmentURL), log)
    else
      match NewRequestWithContext ctx a.URL with
      | .error _ => (.panics "nil pointer dereference", log)
      | .ok req =>
        match c.h.Do log req with
        | .error e => (.returns (none, some (.library e)), log ++ [req])
        | .ok res =>
          match res.Body with
          | .unreadable => (.returns (none, some (.library "unexpected EOF")), log ++ [req])
          | data => (.returns (some data, none), log ++ [req])

/-- DownloadAttachment downloads the file contents of an attachment. -/
def Client.DownloadAttachment (c : Client) (a : Option Attachment) (log : List Request) :
    Outcome (Option Body × Option Error) × List Request :=
  c.DownloadAttachmentContext (some .background) a log

/-- The query `getTransactionsURL` has built when it reaches
`query.Encode()`, that is for a slug and an IBAN that are not empty. -/
def transactionsQuery (slug IBAN : String) (options : Option GetTransactionOptions) : Values :=
  let query : Values := []
  let query := Values.Set query "slug" slug
  let query := Values.Set query "iban" IBAN
  match options with
  | none => query
  | some options =>
    let query := options.Statuses.foldl (fun q s => Values.Add q "status" s) query
    let query := setWhen query "updated_at_from" (options.UpdatedAtFrom.map Time.FormatRFC3339)
    let query := setWhen query "updated_at_to" (options.UpdatedAtTo.map Time.FormatRFC3339)
    let query := setWhen query "settled_at_from" (options.SettledAtFrom.map Time.FormatRFC3339)
    let query := setWhen query "settled_at_to" (options.SettledAtTo.map Time.FormatRFC3339)
    let query := setWhen query "sort_by" options.SortBy
    let query := setWhen query "current_page" ((options.CurrentPage.filter (· > 0)).map Itoa)
    setWhen query "per_page" ((options.PerPage.filter (· > 0)).map Itoa)

/-! ## The records of `types.go`: decoding and encoding (`encoding/json`) -/

/-- Decoding into a `bool` field holding `cur`. -/
def decodeBool (v : Json) (cur : Bool) : Except String Bool :=
  match v with
  | .null => .ok cur
  | .bool b => .ok b
  | _ => .error "json: cannot unmarshal into Go value of type bool"

/-- Decoding into a `float64` field holding `cur`.  `parseFloat` stands for
`strconv.ParseFloat` on a number literal: `none` when the number is out of
the range of a `float64`. -/
def decodeFloat (parseFloat : Json → Option Float) (v : Json) (cur : Float) :
    Except String Float :=
  match v with
  | .null => .ok cur
  | .int n =>
    match parseFloat (.int n) with
    | some x => .ok x
    | none => .error "json: cannot unmarshal number into Go value of type float64"
  | .real lit =>
    match parseFloat (.real lit) with
    | some x => .ok x
    | none => .error "json: cannot unmarshal number into Go value of type float64"
  | _ => .error "json: cannot unmarshal into Go value of type float64"

/-- Decoding into a `*float64` field: `null` sets the pointer to nil. -/
def decodeFloatPtr (parseFloat : Json → Option Float) (v : Json) :
    Except String (Option Float) :=
  match v with
  | .null => .ok none
  | v => (decodeFloat parseFloat v 0).map some

/-- The zero value of `time.Time`: January 1 of the year 1, 00:00:00 UTC. -/
def Time.zero : Time := ⟨1, 1, 1, 0, 0, 0, 0, 0⟩

/-- Decoding into a `time.Time` field holding `cur` (`Time.UnmarshalJSON`):
`null` leaves the field alone, a string is parsed as an RFC 3339 text by
`parseTime`, anything else is an error. -/
def decodeTime (parseTime : String → Option Time) (v : Json) (cur : Time) :
    Except String Time :=
  match v with
  | .null => .ok cur
  | .str s =>
    match parseTime s with
    | some t => .ok t
    | none => .error "parsing time: cannot parse"
  | _ => .error "Time.UnmarshalJSON: input is not a JSON string"

/-- Decoding into a `*time.Time` field: `null` sets the pointer to nil. -/
def decodeTimePtr (parseTime : String → Option Time) (v : Json) :
    Except String (Option Time) :=
  match v with
  | .null => .ok none
  | v => (decodeTime parseTime v Time.zero).map some

/-- The value of a decimal digit. -/
def digitValue (c : Char) : Option Nat :=
  if 48 ≤ c.toNat ∧ c.toNat ≤ 57 then some (c.toNat - 48) else none

/-- The number a run of decimal digits denotes, read after `acc`. -/
def parseDigits : List Char → Nat → Option Nat
  | [], acc => some acc
  | c :: cs, acc =>
    match digitValue c with
    | some d => parseDigits cs (acc * 10 + d)
    | none => none

/-- The value of a JSON number literal without sign, fraction or exponent:
digits, with no leading zero unless the literal is `0`. -/
def parseNatLiteral (cs : List Char) : Option Nat :=
  match cs with
  | [] => none
  | c :: rest => if c = '0' ∧ rest ≠ [] then none else parseDigits (c :: rest) 0

/-- The value of a JSON integer literal. -/
def parseIntLiteral (cs : List Char) : Option Int :=
  match cs with
  | '-' :: rest => (parseNatLiteral rest).map fun n => -(n : Int)
  | cs => (parseNatLiteral cs).map fun n => (n : Int)

/-- Decoding into an `int64` field tagged `,string`, holding `cur`: the
value has to be a JSON string, and the text in it is read as a JSON literal,
`null` leaving the field alone and an integer literal in the 64-bit range
being stored. -/
def decodeQuotedInt (v : Json) (cur : Int) : Except String Int :=
  match v with
  | .null => .ok cur
  | .str s =>
    if s = "null" then .ok cur
    else
      match parseIntLiteral s.data with
      | some n =>
        if -9223372036854775808 ≤ n ∧ n ≤ 9223372036854775807 then .ok n
        else .error "json: cannot unmarshal number into Go value of type int64"
      | none => .error "json: invalid use of ,string struct tag"
  | _ => .error "json: invalid use of ,string struct tag, trying to unmarshal unquoted value"

/-- The zero value of `BankAccount`. -/
def BankAccount.zero : BankAccount := ⟨"", "", "", "", 0, 0, 0, 0⟩

/-- Decoding of one member of a JSON object into a `BankAccount`. -/
def decodeBankAccountField (parseFloat : Json → Option Float) (b : BankAccount)
    (kv : String × Json) : Except String BankAccount :=
  if keyIs "slug" kv.1 then (decodeString kv.2 b.Slug).map ({ b with Slug := · })
  else if keyIs "iban" kv.1 then (decodeString kv.2 b.IBAN).map ({ b with IBAN := · })
  else if keyIs "BIC" kv.1 then (decodeString kv.2 b.BIC).map ({ b with BIC := · })
  else if keyIs "currency" kv.1 then (decodeString kv.2 b.Currency).map ({ b with Currency := · })
  else if keyIs "balance" kv.1 then
    (decodeFloat parseFloat kv.2 b.Balance).map ({ b with Balance := · })
  else if keyIs "balance_cents" kv.1 then
    (decodeInt kv.2 b.BalanceCents).map ({ b with BalanceCents := · })
  else if keyIs "authorized_balance" kv.1 then
    (decodeFloat parseFloat kv.2 b.AuthorizedBalance).map ({ b with AuthorizedBalance := · })
  else if keyIs "authorized_balance_cents" kv.1 then
    (decodeInt kv.2 b.AuthorizedBalanceCents).map ({ b with AuthorizedBalanceCents := · })
  else .ok b

/-- Decoding into a `BankAccount` holding `cur`. -/
def decodeBankAccount (parseFloat : Json → Option Float) (v : Json) (cur : BankAccount) :
    Except String BankAccount :=
  match v with
  | .null => .ok cur
  | .obj kvs => kvs.foldlM (decodeBankAccountField parseFloat) cur
  | _ => .error "json: cannot unmarshal into Go value of type qonto.BankAccount"

/-- Decoding into a `[]string` field, the nil slice being `none`: `null`
gives the nil slice, an array gives a slice that is not nil, the empty array
included; each element is decoded as a string from the zero value. -/
def decodeStringSlice (v : Json) : Except String (Option (List String)) :=
  match v with
  | .null => .ok none
  | .arr xs => (xs.mapM fun x => decodeString x "").map some
  | _ => .error "json: cannot unmarshal into Go value of type []string"

/-- Transaction holds the detail of a transaction in an Account.  The
string types `TransactionSide`, `OperationType` and `TransactionStatus` are
strings; for the slices `LabelIDs` and `AttachmentIDs`, `none` is the nil
slice and `some []` an empty slice that is not nil. -/
structure Transaction where
  ID : String
  Amount : Float
  AmountCents : Int
  LocalAmount : Float
  LocalAmountCents : Int
  Side : String
  OperationType : String
  Currency : String
  LocalCurrency : String
  SettledAt : Option Time
  EmittedAt : Time
  Status : String
  Note : Option String
  Label : Option String
  VATAmount : Option Float
  VATAmountCents : Option Int
  VATRate : Option Float
  InitiatorID : Option String
  LabelIDs : Option (List String)
  AttachmentIDs : Option (List String)
  AttachmentLost : Bool
  AttachmentRequired : Bool

/-- The zero value of `Transaction`. -/
def Transaction.zero : Transaction :=
  ⟨"", 0, 0, 0, 0, "", "", "", "", none, Time.zero, "", none, none, none, none, none, none,
    none, none, false, false⟩

/-- Decoding of one member of a JSON object into a `Transaction`. -/
def decodeTransactionField (parseFloat : Json → Option Float) (parseTime : String → Option Time)
    (t : Transaction) (kv : String × Json) : Except String Transaction :=
  if keyIs "transaction_id" kv.1 then (decodeString kv.2 t.ID).map ({ t with ID := · })
  else if keyIs "amount" kv.1 then
    (decodeFloat parseFloat kv.2 t.Amount).map ({ t with Amount := · })
  else if keyIs "amount_cents" kv.1 then
    (decodeInt kv.2 t.AmountCents).map ({ t with AmountCents := · })
  else if keyIs "local_amount" kv.1 then
    (decodeFloat parseFloat kv.2 t.LocalAmount).map ({ t with LocalAmount := · })
  else if keyIs "local_amount_cents" kv.1 then
    (decodeInt kv.2 t.LocalAmountCents).map ({ t with LocalAmountCents := · })
  else if keyIs "side" kv.1 then (decodeString kv.2 t.Side).map ({ t with Side := · })
  else if keyIs "operation_type" kv.1 then
    (decodeString kv.2 t.OperationType).map ({ t with OperationType := · })
  else if keyIs "currency" kv.1 then (decodeString kv.2 t.Currency).map ({ t with Currency := · })
  else if keyIs "local_currency" kv.1 then
    (decodeString kv.2 t.LocalCurrency).map ({ t with LocalCurrency := · })
  else if keyIs "settled_at" kv.1 then
    (decodeTimePtr parseTime kv.2).map ({ t with SettledAt := · })
  else if keyIs "emitted_at" kv.1 then
    (decodeTime parseTime kv.2 t.EmittedAt).map ({ t with EmittedAt := · })
  else if keyIs "status" kv.1 then (decodeString kv.2 t.Status).map ({ t with Status := · })
  else if keyIs "note" kv.1 then (decodeStringPtr kv.2).map ({ t with Note := · })
  else if keyIs "label" kv.1 then (decodeStringPtr kv.2).map ({ t with Label := · })
  else if keyIs "vat_amount" kv.1 then
    (decodeFloatPtr parseFloat kv.2).map ({ t with VATAmount := · })
  else if keyIs "vat_amount_cents" kv.1 then
    (decodeIntPtr kv.2).map ({ t with VATAmountCents := · })
  else if keyIs "vat_rate" kv.1 then
    (decodeFloatPtr parseFloat kv.2).map ({ t with VATRate := · })
  else if keyIs "initiator_id" kv.1 then
    (decodeStringPtr kv.2).map ({ t with InitiatorID := · })
  else if keyIs "label_ids" kv.1 then
    (decodeStringSlice kv.2).map ({ t with LabelIDs := · })
  else if keyIs "attachment_ids" kv.1 then
    (decodeStringSlice kv.2).map ({ t with AttachmentIDs := · })
  else if keyIs "attachment_lost" kv.1 then
    (decodeBool kv.2 t.AttachmentLost).map ({ t with AttachmentLost := · })
  else if keyIs "attachment_required" kv.1 then
    (decodeBool kv.2 t.AttachmentRequired).map ({ t with AttachmentRequired := · })
  else .ok t

/-- Decoding into a `Transaction` holding `cur`. -/
def decodeTransaction (parseFloat : Json → Option Float) (parseTime : String → Option Time)
    (v : Json) (cur : Transaction) : Except String Transaction :=
  match v with
  | .null => .ok cur
  | .obj kvs => kvs.foldlM (decodeTransactionField parseFloat parseTime) cur
  | _ => .error "json: cannot unmarshal into Go value of type qonto.Transaction"

/-- The zero value of `Attachment`. -/
def Attachment.zero : Attachment := ⟨"", Time.zero, "", 0, "", ""⟩

/-- Decoding of one member of a JSON object into an `Attachment`. -/
def decodeAttachmentField (parseTime : String → Option Time) (a : Attachment)
    (kv : String × Json) : Except String Attachment :=
  if keyIs "id" kv.1 then (decodeString kv.2 a.ID).map ({ a with ID := · })
  else if keyIs "created_at" kv.1 then
    (decodeTime parseTime kv.2 a.CreatedAt).map ({ a with CreatedAt := · })
  else if keyIs "file_name" kv.1 then (decodeString kv.2 a.FileName).map ({ a with FileName := · })
  else if keyIs "file_size" kv.1 then (decodeQuotedInt kv.2 a.FileSize).map ({ a with FileSize := · })
  else if keyIs "file_content_type" kv.1 then
    (decodeString kv.2 a.FileContentType).map ({ a with FileContentType := · })
  else if keyIs "url" kv.1 then (decodeString kv.2 a.URL).map ({ a with URL := · })
  else .ok a

/-- Decoding into an `Attachment` holding `cur`. -/
def decodeAttachment (parseTime : String → Option Time) (v : Json) (cur : Attachment) :
    Except String Attachment :=
  match v with
  | .null => .ok cur
  | .obj kvs => kvs.foldlM (decodeAttachmentField parseTime) cur
  | _ => .error "json: cannot unmarshal into Go value of type qonto.Attachment"

/-- Encoding of a `float64` by `json.Marshal`.  `formatFloat` stands for the
number literal written: `none` for NaN and the infinities. -/
def encodeFloat (formatFloat : Float → Option Json) (x : Float) : Except String Json :=
  match formatFloat x with
  | some v => .ok v
  | none => .error "json: unsupported value"

/-- Encoding of a `time.Time` (`Time.MarshalJSON`).  `formatTime` stands
for the RFC 3339 text written: `none` when the year is outside [0, 9999]. -/
def encodeTime (formatTime : Time → Option String) (t : Time) : Except String Json :=
  match formatTime t with
  | some s => .ok (.str s)
  | none => .error "Time.MarshalJSON: year outside of range [0,9999]"

/-- Encoding of a pointer field without `omitempty`: nil is written as
`null`. -/
def encodePtr {α : Type} (enc : α → Json) (p : Option α) : Json :=
  match p with
  | none => .null
  | some x => enc x

/-- The members written for a field tagged `omitempty` whose encoded value
is `v`, `none` standing for the empty value of the field: nothing when
empty. -/
def omitEmpty (key : String) (v : Option Json) : List (String × Json) :=
  match v with
  | none => []
  | some v => [(key, v)]

/-- Encoding of a `Label` by `json.Marshal`: `parent_id` has no
`omitempty`. -/
def encodeLabel (l : Label) : Json :=
  .obj [("id", .str l.ID), ("name", .str l.Name), ("parent_id", encodePtr .str l.ParentID)]

/-- Encoding of a `Meta` by `json.Marshal`: `next_page` and `prev_page`
have no `omitempty`. -/
def encodeMeta (m : Meta) : Json :=
  .obj [("current_page", .int m.CurrentPage), ("next_page", encodePtr .int m.NextPage),
    ("prev_page", encodePtr .int m.PrevPage), ("total_pages", .int m.TotalPages),
    ("total_count", .int m.TotalCount), ("per_page", .int m.PerPage)]

/-- Encoding of an `Attachment` by `json.Marshal`: `file_size` is tagged
`,string,omitempty`. -/
def encodeAttachment (formatTime : Time → Option String) (a : Attachment) :
    Except String Json :=
  match encodeTime formatTime a.CreatedAt with
  | .error e => .error e
  | .ok createdAt =>
    .ok (.obj ([("id", .str a.ID), ("created_at", createdAt), ("file_name", .str a.FileName)]
      ++ omitEmpty "file_size" (if a.FileSize = 0 then none else some (.str (Itoa a.FileSize)))
      ++ [("file_content_type", .str a.FileContentType), ("url", .str a.URL)]))

/-- Encoding of an optional value by an encoder that can fail. -/
def encodeOptional {α : Type} (enc : α → Except String Json) (p : Option α) :
    Except String (Option Json) :=
  match p with
  | none => .ok none
  | some x => (enc x).map some

/-- Encoding of a `Transaction` by `json.Marshal`: the fields in the order
of the struct, those tagged `omitempty` left out when empty. -/
def encodeTransaction (formatFloat : Float → Option Json) (formatTime : Time → Option String)
    (t : Transaction) : Except String Json := do
  let amount ← encodeFloat formatFloat t.Amount
  let localAmount ← encodeFloat formatFloat t.LocalAmount
  let settledAt ← encodeOptional (encodeTime formatTime) t.SettledAt
  let emittedAt ← encodeTime formatTime t.EmittedAt
  let vatAmount ← encodeOptional (encodeFloat formatFloat) t.VATAmount
  let vatRate ← encodeOptional (encodeFloat formatFloat) t.VATRate
  pure (.obj ([("transaction_id", .str t.ID), ("amount", amount),
      ("amount_cents", .int t.AmountCents), ("local_amount", localAmount),
      ("local_amount_cents", .int t.LocalAmountCents), ("side", .str t.Side),
      ("operation_type", .str t.OperationType), ("currency", .str t.Currency),
      ("local_currency", .str t.LocalCurrency)]
    ++ omitEmpty "settled_at" settledAt
    ++ [("emitted_at", emittedAt), ("status", .str t.Status)]
    ++ omitEmpty "note" (t.Note.map .str)
    ++ omitEmpty "label" (t.Label.map .str)
    ++ omitEmpty "vat_amount" vatAmount
    ++ omitEmpty "vat_amount_cents" (t.VATAmountCents.map .int)
    ++ omitEmpty "vat_rate" vatRate
    ++ omitEmpty "initiator_id" (t.InitiatorID.map .str)
    ++ omitEmpty "label_ids"
        ((t.LabelIDs.filter fun l => !l.isEmpty).map fun l => .arr (l.map .str))
    ++ omitEmpty "attachment_ids"
        ((t.AttachmentIDs.filter fun l => !l.isEmpty).map fun l => .arr (l.map .str))
    ++ omitEmpty "attachment_lost" (if t.AttachmentLost then some (.bool true) else none)
    ++ omitEmpty "attachment_required" (if t.AttachmentRequired then some (.bool true) else none)))

/-- Whether a JSON document is an object with a member whose key matches
the field named `field`. -/
def hasKey (field : String) (v : Json) : Bool :=
  match v with
  | .obj kvs => kvs.any fun kv => keyIs field kv.1
  | _ => false

/-- The range of an `int64` (and of an `int` on a 64-bit platform). -/
def inInt64 (n : Int) : Prop := -9223372036854775808 ≤ n ∧ n ≤ 9223372036854775807

/-- Whether a JSON value is a number literal. -/
def Json.isNumber (v : Json) : Bool :=
  match v with
  | .int _ => true
  | .real _ => true
  | _ => false

/-- `formatFloat` writes `x` as a number literal that `parseFloat` reads
back as `x`. -/
def FloatRoundTrips (parseFloat : Json → Option Float) (formatFloat : Float → Option Json)
    (x : Float) : Prop :=
  ∃ v, formatFloat x = some v ∧ v.isNumber = true ∧ parseFloat v = some x

/-- `formatTime` writes `t` as a text that `parseTime` reads back as `t`. -/
def TimeRoundTrips (parseTime : String → Option Time) (formatTime : Time → Option String)
    (t : Time) : Prop :=
  ∃ s, formatTime t = some s ∧ parseTime s = some t

/-- The numbers and times of a `Transaction` can be written and read back:
the integers are in the range of `int64`, the floats and the times are
written as values that decode to them. -/
def Transaction.Representable (parseFloat : Json → Option Float)
    (formatFloat : Float → Option Json) (parseTime : String → Option Time)
    (formatTime : Time → Option String) (t : Transaction) : Prop :=
  FloatRoundTrips parseFloat formatFloat t.Amount ∧ inInt64 t.AmountCents
    ∧ FloatRoundTrips parseFloat formatFloat t.LocalAmount ∧ inInt64 t.LocalAmountCents
    ∧ (∀ x, t.SettledAt = some x → TimeRoundTrips parseTime formatTime x)
    ∧ TimeRoundTrips parseTime formatTime t.EmittedAt
    ∧ (∀ x, t.VATAmount = some x → FloatRoundTrips parseFloat formatFloat x)
    ∧ (∀ n, t.VATAmountCents = some n → inInt64 n)
    ∧ (∀ x, t.VATRate = some x → FloatRoundTrips parseFloat formatFloat x)

/-- The integers of a `Meta` are in the range of `int`. -/
def Meta.Representable (m : Meta) : Prop :=
  inInt64 m.CurrentPage ∧ (∀ n, m.NextPage = some n → inInt64 n)
    ∧ (∀ n, m.PrevPage = some n → inInt64 n) ∧ inInt64 m.TotalPages ∧ inInt64 m.TotalCount
    ∧ inInt64 m.PerPage

/-- The time of an `Attachment` can be written and read back, and its size
is in the range of `int64`. -/
def Attachment.Representable (parseTime : String → Option Time)
    (formatTime : Time → Option String) (a : Attachment) : Prop :=
  TimeRoundTrips parseTime formatTime a.CreatedAt ∧ inInt64 a.FileSize

/-! ## The options of a call as they lie in memory -/

/-- GetTransactionOptions as the struct lies in memory: a pointer field
holds the address of the value it points to, or nil. -/
structure StoredOptions where
  Statuses : List String
  UpdatedAtFrom : Option Nat
  UpdatedAtTo : Option Nat
  SettledAtFrom : Option Nat
  SettledAtTo : Option Nat
  SortBy : Option Nat
  CurrentPage : Option Nat
  PerPage : Option Nat

/-- The zero value of the struct: no status and nil pointers. -/
def StoredOptions.zero : StoredOptions := ⟨[], none, none, none, none, none, none, none⟩

/-- A variable in memory: an `int`, a `time.Time`, a `string` or a
`GetTransactionOptions`. -/
inductive Cell where
  | int (n : Int)
  | time (t : Time)
  | text (s : String)
  | options (o : StoredOptions)

/-- The variables that pointers can reach: the address of a variable is its
index, and a new variable takes the next index. -/
structure Memory where
  cells : List Cell

/-- A new variable holding `c`: the memory with it, and its address. -/
def Memory.new (m : Memory) (c : Cell) : Memory × Nat := (⟨m.cells ++ [c]⟩, m.cells.length)

/-- An assignment to the variable at the address `a`. -/
def Memory.store (m : Memory) (a : Nat) (c : Cell) : Memory := ⟨m.cells.set a c⟩

/-- The `int` at an address (Go `*p` for a `*int`). -/
def Memory.int (m : Memory) (a : Nat) : Int :=
  match m.cells[a]? with
  | some (.int n) => n
  | _ => 0

/-- The `time.Time` at an address. -/
def Memory.time (m : Memory) (a : Nat) : Time :=
  match m.cells[a]? with
  | some (.time t) => t
  | _ => Time.zero

/-- The `string` at an address. -/
def Memory.text (m : Memory) (a : Nat) : String :=
  match m.cells[a]? with
  | some (.text s) => s
  | _ => ""

/-- The `GetTransactionOptions` struct at an address. -/
def Memory.stored (m : Memory) (a : Nat) : StoredOptions :=
  match m.cells[a]? with
  | some (.options o) => o
  | _ => StoredOptions.zero

/-- The options a pointer designates, each pointer field followed to the
value it points to: what a reader of `options` sees. -/
def Memory.options (m : Memory) (options : Option Nat) : Option GetTransactionOptions :=
  options.map fun a =>
    ⟨(m.stored a).Statuses, (m.stored a).UpdatedAtFrom.map m.time,
      (m.stored a).UpdatedAtTo.map m.time, (m.stored a).SettledAtFrom.map m.time,
      (m.stored a).SettledAtTo.map m.time, (m.stored a).SortBy.map m.text,
      (m.stored a).CurrentPage.map m.int, (m.stored a).PerPage.map m.int⟩

/-- Whether a pointer is nil or the address of a variable of the memory. -/
def Memory.allocated (m : Memory) (p : Option Nat) : Bool :=
  match p with
  | none => true
  | some a => decide (a < m.cells.length)

/-- Whether the pointer `options` and the pointer fields of the struct it
designates are nil or addresses of variables of the memory (no pointer
dangles). -/
def Memory.Holds (m : Memory) (options : Option Nat) : Bool :=
  match options with
  | none => true
  | some a =>
    decide (a < m.cells.length)
      && m.allocated (m.stored a).UpdatedAtFrom && m.allocated (m.stored a).UpdatedAtTo
      && m.allocated (m.stored a).SettledAtFrom && m.allocated (m.stored a).SettledAtTo
      && m.allocated (m.stored a).SortBy && m.allocated (m.stored a).CurrentPage
      && m.allocated (m.stored a).PerPage

/-- The function `getTransactionsURL` on the options in memory: the fields
are read through the pointer `options`, and nothing is assigned through
it. -/
def getTransactionsURL.inMemory (m : Memory) (slug IBAN : String) (options : Option Nat) :
    (String × Option Error) × Memory :=
  match urlParse (BaseURL ++ "/transactions") with
  | .error e => (("", some (.library e)), m)
  | .ok u =>
    let query : Values := []
    if slug = "" then (("", some .ErrMissingBankAccountSlug), m)
    else
      let query := Values.Set query "slug" slug
      if IBAN = "" then (("", some .ErrMissingBankAccountIBAN), m)
      else
        let query := Values.Set query "iban" IBAN
        let query :=
          match options with
          | none => query
          | some options =>
            let query := (m.stored options).Statuses.foldl (fun q s => Values.Add q "status" s) query
            let query := setWhen query "updated_at_from"
              ((m.stored options).UpdatedAtFrom.map fun p => (m.time p).FormatRFC3339)
            let query := setWhen query "updated_at_to"
              ((m.stored options).UpdatedAtTo.map fun p => (m.time p).FormatRFC3339)
            let query := setWhen query "settled_at_from"
              ((m.stored options).SettledAtFrom.map fun p => (m.time p).FormatRFC3339)
            let query := setWhen query "settled_at_to"
              ((m.stored options).SettledAtTo.map fun p => (m.time p).FormatRFC3339)
            let query := setWhen query "sort_by" ((m.stored options).SortBy.map m.text)
            let query := setWhen query "current_page"
              ((((m.stored options).CurrentPage.map m.int).filter (· > 0)).map Itoa)
            setWhen query "per_page"
              ((((m.stored options).PerPage.map m.int).filter (· > 0)).map Itoa)
        let u := { u with RawQuery := Values.Encode query }
        ((u.String, none), m)

/-- The method `GetTransactionsContext` on the options in memory. -/
def Client.GetTransactionsContext.inMemory {τ : Type} (decT : Json → Except String τ)
    (c : Client) (bankAccountID IBAN : String) (m : Memory) (options : Option Nat)
    (log : List Request) :
    ((Option (TransactionsPage τ) × Option Error) × List Request) × Memory :=
  match getTransactionsURL.inMemory m bankAccountID IBAN options with
  | ((_, some err), m) => (((none, some err), log), m)
  | ((u, none), m) => (c.getJSON u (decodeTransactionsPage decT) none log, m)

/-- The loop of `GetAllTransactionsContext` on the options in memory:
`options` is the caller's pointer and `currentPage` the address of the local
variable of that name.  Each turn declares `callOptions` (a new variable),
copies `*options` into it when `options` is not nil, makes its `CurrentPage`
point to `currentPage`, and calls `GetTransactionsContext` with its address;
after a page with a `next_page` the value is assigned to `currentPage`. -/
def Client.GetAllTransactionsContext.inMemory.loop {τ : Type} (decT : Json → Except String τ)
    (c : Client) (bankAccountID IBAN : String) (options : Option Nat) (currentPage : Nat) :
    Nat → Memory → List (Option τ) → List Request →
      Option ((Outcome (List (Option τ) × Option Error) × List Request) × Memory)
  | 0, _, _, _ => none
  | fuel + 1, m, transactions, log =>
    let (m, callOptions) := m.new (.options StoredOptions.zero)
    let m :=
      match options with
      | some options => m.store callOptions (.options (m.stored options))
      | none => m
    let m := m.store callOptions
      (.options { m.stored callOptions with CurrentPage := some currentPage })
    match Client.GetTransactionsContext.inMemory decT c bankAccountID IBAN m (some callOptions)
        log with
    | (((_, some err), log), m) => some ((.returns (transactions, some err), log), m)
    | (((none, none), log), m) => some ((.panics "nil pointer dereference", log), m)
    | (((some res, none), log), m) =>
      let transactions := transactions ++ res.Transactions
      match res.Meta.NextPage with
      | none => some ((.returns (transactions, none), log), m)
      | some next =>
        let m := m.store currentPage (.int next)
        Client.GetAllTransactionsContext.inMemory.loop decT c bankAccountID IBAN options
          currentPage fuel m transactions log

/-- GetAllTransactionsContext on the options in memory: the local variable
`currentPage` starts at 1, or at `*options.CurrentPage` when that pointer is
set; the result comes with the memory after the call. -/
def Client.GetAllTransactionsContext.inMemory {τ : Type} (decT : Json → Except String τ)
    (fuel : Nat) (c : Client) (bankAccountID IBAN : String) (m : Memory) (options : Option Nat)
    (log : List Request) :
    Option ((Outcome (List (Option τ) × Option Error) × List Request) × Memory) :=
  let (m, currentPage) := m.new (.int 1)
  let m :=
    match options with
    | some options =>
      match (m.stored options).CurrentPage with
      | some p => m.store currentPage (.int (m.int p))
      | none => m
    | none => m
  Client.GetAllTransactionsContext.inMemory.loop decT c bankAccountID IBAN options currentPage
    fuel m [] log

/-! ## Sequences of calls and stub servers -/

/-- A sequence of calls to `Next` on one iterator, one call per context of
the list: the outcomes in order, the iterator after the last call and the
requests sent.  A panic ends the sequence. -/
def ContextIterator.Nexts {τ : Type} (g : Globals) (decT : Json → Except String τ) :
    List (Option Context) → ContextIterator → List Request →
      List (Outcome (List (Option τ) × Bool × Option Error)) × ContextIterator × List Request
  | [], i, log => ([], i, log)
  | ctx :: rest, i, log =>
    match i.Next g decT ctx log with
    | (.panics m, i, log) => ([.panics m], i, log)
    | (.returns r, i, log) =>
      ((.returns r) :: (ContextIterator.Nexts g decT rest i log).1,
        (ContextIterator.Nexts g decT rest i log).2)

/-- The value of a query parameter of a request URL, as a stub server reads
it (`r.URL.Query().Get(key)`, absent and empty told apart). -/
def queryParam (url key : String) : Option String :=
  match urlParse url with
  | .ok u => Values.Get u.Query key
  | .error _ => none

/-- A stand-in for the decoding of a `Transaction`: the record is reduced
to its `transaction_id`. -/
def decodeTransactionID (v : Json) : Except String String :=
  match v with
  | .obj kvs =>
    match kvs.find? (fun kv => keyIs "transaction_id" kv.1) with
    | some (_, .str s) => .ok s
    | _ => .error "json: no transaction_id"
  | _ => .error "json: cannot unmarshal into Go value of type qonto.Transaction"

/-- A list item of a stub page, readable as a transaction, a label or a
membership. -/
def stubItem (id : String) : Json :=
  .obj [("transaction_id", .str id), ("id", .str id)]

/-- The JSON document of a stub page: the items under the three list keys,
and the meta-data with the given current and next page. -/
def stubPageJson (items : List String) (cur : Int) (next : Json) : Json :=
  .obj [("transactions", .arr (items.map stubItem)),
    ("labels", .arr (items.map stubItem)),
    ("memberships", .arr (items.map stubItem)),
    ("meta", .obj [("current_page", .int cur), ("next_page", next), ("prev_page", .null),
      ("total_pages", .int 3), ("total_count", .int 6), ("per_page", .int 2)])]

/-- The body of a stub page. -/
def stubPage (items : List String) (cur : Int) (next : Json) : Body :=
  .json (stubPageJson items cur next)

/-- A stub server that answers by requested page: pages 1 -> 2 -> 3 -> null
of two items each, page 1 when no page is asked for, 404 for any other. -/
def threePages : HTTPClient where
  Do := fun _ req =>
    match queryParam req.URL "current_page" with
    | none => .ok ⟨200, stubPage ["a", "b"] 1 (.int 2)⟩
    | some p =>
      if p = "1" then .ok ⟨200, stubPage ["a", "b"] 1 (.int 2)⟩
      else if p = "2" then .ok ⟨200, stubPage ["c", "d"] 2 (.int 3)⟩
      else if p = "3" then .ok ⟨200, stubPage ["e", "f"] 3 .null⟩
      else .ok ⟨404, .invalid⟩

/-- A stub server whose first page is fine and points to page 2, and whose
page 2 fails with status 500 and a body that is not JSON. -/
def secondPageFails : HTTPClient where
  Do := fun _ req =>
    match queryParam req.URL "current_page" with
    | none => .ok ⟨200, stubPage ["a", "b"] 1 (.int 2)⟩
    | some p =>
      if p = "1" then .ok ⟨200, stubPage ["a", "b"] 1 (.int 2)⟩
      else .ok ⟨500, .invalid⟩

/-- A stub server that answers every request with the same page. -/
def samePage (next : Json) : HTTPClient where
  Do := fun _ _ => .ok ⟨200, stubPage ["a", "b"] 1 next⟩

/-- A stub server that answers every request with the given status and
JSON body. -/
def fixedAnswer (status : Int) (body : Json) : HTTPClient where
  Do := fun _ _ => .ok ⟨status, .json body⟩

/-- Package variables with no default credentials. -/
def stubGlobals : Globals := ⟨none, threePages⟩

/-- A context carrying the credentials `org` / `key`. -/
def stubContext : Option Context := some (WithCredentials none "org" "key")

/-- A stub server that answers every request with the given status and
body. -/
def fixedBody (status : Int) (body : Body) : HTTPClient where
  Do := fun _ _ => .ok ⟨status, body⟩

/-- A bank account with slug `acc-1` and IBAN `FR76`. -/
def stubAccount : BankAccount := ⟨"acc-1", "FR76", "QNTOFRP1", "EUR", 0, 0, 0, 0⟩

/-- An attachment with the given download URL. -/
def stubAttachment (url : String) : Attachment :=
  ⟨"att-1", ⟨2019, 1, 7, 16, 39, 58, 0, 0⟩, "receipt.pdf", 1024, "application/pdf", url⟩

/-- A stand-in for the decoding of a `BankAccount`: it reads the slug and
the IBAN and leaves the other fields at their zero value. -/
def decodeAccountIDs (v : Json) : Except String BankAccount :=
  match v with
  | .obj kvs =>
    match kvs.find? (fun kv => keyIs "slug" kv.1), kvs.find? (fun kv => keyIs "iban" kv.1) with
    | some (_, .str s), some (_, .str i) => .ok ⟨s, i, "", "", 0, 0, 0, 0⟩
    | _, _ => .error "json: no slug or no iban"
  | _ => .error "json: cannot unmarshal into Go value of type qonto.BankAccount"

/-- Whether a JSON document is an object with a member whose key matches
the `Response` field of `APIError`. -/
def mentionsResponse (v : Json) : Bool :=
  match v with
  | .obj kvs => kvs.any fun kv => keyIs "Response" kv.1
  | _ => false

/-- A stand-in for `strconv.ParseFloat` that reads the integer literals
only. -/
def parseWholeFloat (v : Json) : Option Float :=
  match v with
  | .int n => some (Float.ofInt n)
  | _ => none

/-- A stand-in for `strconv.ParseFloat` that reads the literal `0` only. -/
def parseZeroFloat (v : Json) : Option Float :=
  match v with
  | .int n => if n = 0 then some 0 else none
  | _ => none

/-- A stand-in for the number `json.Marshal` writes for a `float64`: always
`0` (to go with `parseZeroFloat`, whose only float is 0). -/
def formatZeroFloat (_ : Float) : Option Json := some (.int 0)

/-- A stand-in for the parsing of RFC 3339 texts that reads two texts only:
that of January 7, 2019, 16:39:58 UTC and that of the zero time. -/
def parseKnownTime (s : String) : Option Time :=
  if s = "2019-01-07T16:39:58Z" then some ⟨2019, 1, 7, 16, 39, 58, 0, 0⟩
  else if s = "0001-01-01T00:00:00Z" then some Time.zero
  else none

/-- A stand-in for `Time.MarshalJSON`: the RFC 3339 text to the second. -/
def formatSeconds (t : Time) : Option String := some t.FormatRFC3339

/-- A transaction document without `settled_at`, `label`, the VAT fields,
`initiator_id`, `label_ids` and `attachment_ids`. -/
def stubTransactionJson : Json :=
  .obj [("transaction_id", .str "tx-1"), ("amount", .int 0), ("amount_cents", .int 0),
    ("local_amount", .int 0), ("local_amount_cents", .int 0), ("side", .str "debit"),
    ("operation_type", .str "card"), ("currency", .str "EUR"), ("local_currency", .str "EUR"),
    ("emitted_at", .str "2019-01-07T16:39:58Z"), ("status", .str "completed"),
    ("note", .str "lunch"), ("attachment_lost", .bool false)]

/-- The transaction `stubTransactionJson` decodes to. -/
def stubTransaction : Transaction :=
  ⟨"tx-1", 0, 0, 0, 0, "debit", "card", "EUR", "EUR", none, ⟨2019, 1, 7, 16, 39, 58, 0, 0⟩,
    "completed", some "lunch", none, none, none, none, none, none, none, false, false⟩

/-- A memory with a caller's options: a sort order, a start page, a page
size, and at the address 3 the struct that points to them. -/
def stubMemory : Memory :=
  ⟨[.text "settled_at:desc", .int 1, .int 2,
    .options ⟨["completed"], none, none, none, none, some 0, some 1, some 2⟩]⟩

/-! ## Chains of pages, as a server serves them -/

/-- The request `GetAllTransactionsContext` sends for the page
`currentPage`: the caller's options with `CurrentPage` overwritten. -/
def pageRequest (c : Client) (bankAccountID IBAN : String)
    (options : Option GetTransactionOptions) (currentPage : Int) : Request :=
  ⟨"GET",
    (getTransactionsURL bankAccountID IBAN
      (some { options.getD GetTransactionOptions.zero with CurrentPage := some currentPage })).1,
    c.Slug ++ ":" ++ c.SecretKey⟩

/-- The server behind `c` answers the request for the page `currentPage`,
whatever was sent before, with a status that is not above 299 and a JSON
body that decodes to the page `p`. -/
def Serves {τ : Type} (decT : Json → Except String τ) (c : Client) (bankAccountID IBAN : String)
    (options : Option GetTransactionOptions) (currentPage : Int) (p : TransactionsPage τ) :
    Prop :=
  ∀ log : List Request, ∃ (status : Int) (body : Json),
    c.h.Do log (pageRequest c bankAccountID IBAN options currentPage) = .ok ⟨status, .json body⟩
      ∧ status ≤ 299 ∧ decodeTransactionsPage decT body = .ok (some p)

/-- The pages `pages` are served as a chain that starts at the page number
`currentPage`: each is served under the number its predecessor gives as
`next_page`, and each has a `next_page`. -/
def Linked {τ : Type} (decT : Json → Except String τ) (c : Client) (bankAccountID IBAN : String)
    (options : Option GetTransactionOptions) : Int → List (TransactionsPage τ) → Prop
  | _, [] => True
  | currentPage, p :: rest =>
    Serves decT c bankAccountID IBAN options currentPage p
      ∧ ∃ next, p.Meta.NextPage = some next
        ∧ Linked decT c bankAccountID IBAN options next rest

/-- The page number the last page of a chain points to (`currentPage` for
the empty chain). -/
def afterChain {τ : Type} : Int → List (TransactionsPage τ) → Int
  | currentPage, [] => currentPage
  | _, p :: rest => afterChain (p.Meta.NextPage.getD 0) rest

/-- The requests for the pages of a chain, in order. -/
def chainRequests {τ : Type} (c : Client) (bankAccountID IBAN : String)
    (options : Option GetTransactionOptions) : Int → List (TransactionsPage τ) → List Request
  | _, [] => []
  | currentPage, p :: rest =>
    pageRequest c bankAccountID IBAN options currentPage
      :: chainRequests c bankAccountID IBAN options (p.Meta.NextPage.getD 0) rest

/-- A character that is not an ASCII control character. -/
def Printable (x : Char) : Prop := ¬ (x.toNat < 0x20 ∨ x.toNat = 0x7F)

/-! ## Facts about URL building -/

/-- The labels URL parses, and has no query. -/
theorem urlParse_labels :
    urlParse (BaseURL ++ "/labels")
      = .ok ⟨"https://thirdparty.qonto.eu/v2/labels", false, "", ""⟩ := by
  rfl

/-- The memberships URL parses, and has no query. -/
theorem urlParse_memberships :
    urlParse (BaseURL ++ "/memberships")
      = .ok ⟨"https://thirdparty.qonto.eu/v2/memberships", false, "", ""⟩ := by
  rfl

/-- The transactions URL parses, and has no query. -/
theorem urlParse_transactions :
    urlParse (BaseURL ++ "/transactions")
      = .ok ⟨"https://thirdparty.qonto.eu/v2/transactions", false, "", ""⟩ := by
  rfl

/-- The page numbers passed to `addPaginationQueryParams` do not reach the
URL of the labels endpoint. -/
theorem addPaginationQueryParams_labels (currentPage perPage : Int) :
    addPaginationQueryParams (BaseURL ++ "/labels") currentPage perPage
      = ("https://thirdparty.qonto.eu/v2/labels", none) := by
  unfold addPaginationQueryParams
  rw [urlParse_labels]
  rfl

/-- The page numbers passed to `addPaginationQueryParams` do not reach the
URL of the memberships endpoint. -/
theorem addPaginationQueryParams_memberships (currentPage perPage : Int) :
    addPaginationQueryParams (BaseURL ++ "/memberships") currentPage perPage
      = ("https://thirdparty.qonto.eu/v2/memberships", none) := by
  unfold addPaginationQueryParams
  rw [urlParse_memberships]
  rfl

/-! ## C3: the URL builder of the label and membership lists -/

/-- C3 (code defect): whatever `currentPage` and `perPage` are, positive
values included, `addPaginationQueryParams` returns the base URL of the
labels and memberships endpoints unchanged, with neither a `current_page` nor
a `per_page` parameter: the parameters are set in `query`, but the raw query
is rebuilt from `u.Query()`. -/
theorem addPaginationQueryParams_ignores_pages (currentPage perPage : Int) :
    addPaginationQueryParams (BaseURL ++ "/labels") currentPage perPage
        = ("https://thirdparty.qonto.eu/v2/labels", none)
      ∧ addPaginationQueryParams (BaseURL ++ "/memberships") currentPage perPage
        = ("https://thirdparty.qonto.eu/v2/memberships", none)
      ∧ addPaginationQueryParams (BaseURL ++ "/labels") 2 10
        = addPaginationQueryParams (BaseURL ++ "/labels") 0 0 :=
  ⟨addPaginationQueryParams_labels _ _, addPaginationQueryParams_memberships _ _,
    (addPaginationQueryParams_labels 2 10).trans (addPaginationQueryParams_labels 0 0).symm⟩

/-! ## C5: validation of the account selector by the v2 client -/

/-- An empty slug makes `getTransactionsURL` fail with the missing-slug
error, whatever the IBAN. -/
theorem getTransactionsURL_no_slug (IBAN : String) (options : Option GetTransactionOptions) :
    getTransactionsURL "" IBAN options = ("", some .ErrMissingBankAccountSlug) := by
  unfold getTransactionsURL
  rw [urlParse_transactions]
  rfl

/-- A slug with an empty IBAN makes `getTransactionsURL` fail with the
missing-IBAN error. -/
theorem getTransactionsURL_no_iban (slug : String) (h : slug ≠ "")
    (options : Option GetTransactionOptions) :
    getTransactionsURL slug "" options = ("", some .ErrMissingBankAccountIBAN) := by
  unfold getTransactionsURL
  rw [urlParse_transactions]
  simp [h]

/-- C5: `GetTransactionsContext` with an empty `bankAccountID` returns a nil
page and `ErrMissingBankAccountSlug` (also when the IBAN is empty too), with
a non-empty `bankAccountID` and an empty IBAN it returns a nil page and
`ErrMissingBankAccountIBAN`; the two errors differ, and in both cases the
list of requests sent is unchanged. -/
theorem GetTransactionsContext_validates {τ : Type} (decT : Json → Except String τ)
    (c : Client) (bankAccountID IBAN : String) (options : Option GetTransactionOptions)
    (log : List Request) :
    (bankAccountID = "" →
        c.GetTransactionsContext decT bankAccountID IBAN options log
          = ((none, some .ErrMissingBankAccountSlug), log))
      ∧ (bankAccountID ≠ "" → IBAN = "" →
        c.GetTransactionsContext decT bankAccountID IBAN options log
          = ((none, some .ErrMissingBankAccountIBAN), log))
      ∧ Error.ErrMissingBankAccountSlug ≠ Error.ErrMissingBankAccountIBAN := by
  refine ⟨?_, ?_, ?_⟩
  · intro h
    subst h
    unfold Client.GetTransactionsContext
    rw [getTransactionsURL_no_slug]
  · intro h hi
    subst hi
    unfold Client.GetTransactionsContext
    rw [getTransactionsURL_no_iban _ h]
  · intro h
    cases h

/-- C5 at concrete inputs: no slug and no IBAN, and a slug without IBAN,
against a stub server that would answer. -/
theorem GetTransactionsContext_validates_witness :
    (Client.GetTransactionsContext decodeTransactionID ⟨threePages, "org", "key"⟩ "" "" none []
        = ((none, some .ErrMissingBankAccountSlug), []))
      ∧ (Client.GetTransactionsContext decodeTransactionID ⟨threePages, "org", "key"⟩
          "acc-1" "" none []
        = ((none, some .ErrMissingBankAccountIBAN), [])) :=
  ⟨(GetTransactionsContext_validates decodeTransactionID ⟨threePages, "org", "key"⟩
      "" "" none []).1 rfl,
    (GetTransactionsContext_validates decodeTransactionID ⟨threePages, "org", "key"⟩
      "acc-1" "" none []).2.1 (by decide) rfl⟩

/-! ## C4: draining the label and membership lists -/

/-- Against the three-page stub, `GetLabelsContext` sends the same request
and gets page 1 whatever page it is asked for. -/
theorem GetLabelsContext_threePages (startPage perPage : Int) (log : List Request) :
    Client.GetLabelsContext ⟨threePages, "org", "key"⟩ startPage perPage log
      = ((some ⟨[⟨"a", "", none⟩, ⟨"b", "", none⟩], ⟨1, some 2, none, 3, 6, 2⟩⟩, none),
          log ++ [⟨"GET", "https://thirdparty.qonto.eu/v2/labels", "org:key"⟩]) := by
  unfold Client.GetLabelsContext
  rw [addPaginationQueryParams_labels]
  rfl

/-- Against the three-page stub, `GetMembershipsContext` sends the same
request and gets page 1 whatever page it is asked for. -/
theorem GetMembershipsContext_threePages (startPage perPage : Int) (log : List Request) :
    Client.GetMembershipsContext ⟨threePages, "org", "key"⟩ startPage perPage log
      = ((some ⟨[⟨"a", "", ""⟩, ⟨"b", "", ""⟩], ⟨1, some 2, none, 3, 6, 2⟩⟩, none),
          log ++ [⟨"GET", "https://thirdparty.qonto.eu/v2/memberships", "org:key"⟩]) := by
  unfold Client.GetMembershipsContext
  rw [addPaginationQueryParams_memberships]
  rfl

/-- The loop of `GetAllLabelsContext` does not end against the three-page
stub, whatever the fuel. -/
theorem GetAllLabelsContext_loop_threePages (perPage : Int) (fuel : Nat) :
    ∀ (startPage : Int) (labels : List Label) (log : List Request),
      Client.GetAllLabelsContext.loop ⟨threePages, "org", "key"⟩ perPage fuel startPage labels log
        = none := by
  induction fuel with
  | zero => intro startPage labels log; rfl
  | succ n ih =>
    intro startPage labels log
    unfold Client.GetAllLabelsContext.loop
    rw [GetLabelsContext_threePages]
    exact ih _ _ _

/-- The loop of `GetAllMembershipsContext` does not end against the
three-page stub, whatever the fuel. -/
theorem GetAllMembershipsContext_loop_threePages (perPage : Int) (fuel : Nat) :
    ∀ (startPage : Int) (memberships : List Membership) (log : List Request),
      Client.GetAllMembershipsContext.loop ⟨threePages, "org", "key"⟩ perPage fuel startPage
        memberships log = none := by
  induction fuel with
  | zero => intro startPage memberships log; rfl
  | succ n ih =>
    intro startPage memberships log
    unfold Client.GetAllMembershipsContext.loop
    rw [GetMembershipsContext_threePages]
    exact ih _ _ _

/-- C4 (code defect): against the stub server that answers by requested page
with pages 1 -> 2 -> 3 -> null, the request that follows a page whose
`next_page` is 2 is again the bare labels (memberships) URL, without
`current_page`; the server answers page 1 again, and `GetAllLabelsContext`
and `GetAllMembershipsContext` do not return, whatever the number of loop
turns allowed. -/
theorem GetAllLabelsContext_never_advances (fuel : Nat) (startPage perPage : Int)
    (log : List Request) :
    (Client.GetLabelsContext ⟨threePages, "org", "key"⟩ 2 perPage log).2
        = log ++ [⟨"GET", "https://thirdparty.qonto.eu/v2/labels", "org:key"⟩]
      ∧ (Client.GetMembershipsContext ⟨threePages, "org", "key"⟩ 2 perPage log).2
        = log ++ [⟨"GET", "https://thirdparty.qonto.eu/v2/memberships", "org:key"⟩]
      ∧ Client.GetAllLabelsContext fuel ⟨threePages, "org", "key"⟩ startPage perPage log = none
      ∧ Client.GetAllMembershipsContext fuel ⟨threePages, "org", "key"⟩ startPage perPage log
        = none := by
  refine ⟨?_, ?_, ?_, ?_⟩
  · rw [GetLabelsContext_threePages]
  · rw [GetMembershipsContext_threePages]
  · exact GetAllLabelsContext_loop_threePages perPage fuel startPage [] log
  · exact GetAllMembershipsContext_loop_threePages perPage fuel startPage [] log

/-! ## C6: the context client does not validate the account selector -/

/-- C6 (code defect): `ContextClient.GetTransactions` called with an empty
slug, or with an empty IBAN, sends the request (with `slug=` or `iban=`
empty in the query) and returns the server's answer with a nil error, and so
does `ContextIterator.Next`: the stub transport records one call, not zero,
and no validation error is returned. -/
theorem ContextClient_GetTransactions_sends_empty_selector :
    ContextClient.GetTransactions stubGlobals decodeTransactionID ⟨some threePages⟩ stubContext
        "" "FR76" none []
      = (.returns ([some "a", some "b"], some ⟨1, some 2, none, 3, 6, 2⟩, none),
          [⟨"GET", "https://thirdparty.qonto.eu/v2//transactions?iban=FR76&slug=", "org:key"⟩])
    ∧ ContextClient.GetTransactions stubGlobals decodeTransactionID ⟨some threePages⟩ stubContext
        "acc-1" "" none []
      = (.returns ([some "a", some "b"], some ⟨1, some 2, none, 3, 6, 2⟩, none),
          [⟨"GET", "https://thirdparty.qonto.eu/v2//transactions?iban=&slug=acc-1", "org:key"⟩])
    ∧ ContextIterator.Next stubGlobals decodeTransactionID
        (ContextClient.IterTransactionPages ⟨some threePages⟩ "" "" 0) stubContext []
      = (.returns ([some "a", some "b"], false, none),
          { c := ⟨some threePages⟩, Slug := "", IBAN := "", nextPage := 2, perPage := 0,
            done := false },
          [⟨"GET", "https://thirdparty.qonto.eu/v2//transactions?iban=&slug=", "org:key"⟩]) :=
  ⟨rfl, rfl, rfl⟩

/-! ## C7: an exhausted iterator stays exhausted -/

/-- A call to `Next` on an exhausted iterator returns `ErrDone` and changes
nothing. -/
theorem Next_of_done {τ : Type} (g : Globals) (decT : Json → Except String τ)
    (i : ContextIterator) (h : i.done = true) (ctx : Option Context) (log : List Request) :
    i.Next g decT ctx log = (.returns ([], true, some .ErrDone), i, log) := by
  unfold ContextIterator.Next
  simp [h]

/-- C7: once `done` is set, every call to `Next` returns
`(nil, true, ErrDone)`, sends no request and leaves the iterator as it is
(slug, IBAN, page size, next page and `done` alike); so does every sequence
of calls, whatever contexts they are made with. -/
theorem Next_exhausted_forever {τ : Type} (g : Globals) (decT : Json → Except String τ)
    (i : ContextIterator) (h : i.done = true) (ctxs : List (Option Context))
    (log : List Request) :
    (∀ ctx, i.Next g decT ctx log = (.returns ([], true, some .ErrDone), i, log))
      ∧ ContextIterator.Nexts g decT ctxs i log
        = (ctxs.map (fun _ => .returns ([], true, some .ErrDone)), i, log) := by
  refine ⟨fun ctx => Next_of_done g decT i h ctx log, ?_⟩
  induction ctxs with
  | nil => rfl
  | cons ctx rest ih =>
    unfold ContextIterator.Nexts
    rw [Next_of_done g decT i h ctx log]
    simp only [ih, List.map_cons]

/-- C7 at a concrete input: three calls on an exhausted iterator, one of
them with a nil context, against a stub that would answer. -/
theorem Next_exhausted_forever_witness :
    ContextIterator.Nexts stubGlobals decodeTransactionID [stubContext, none, stubContext]
        { c := ⟨some threePages⟩, Slug := "acc-1", IBAN := "FR76", nextPage := 3, perPage := 2,
          done := true } []
      = ([.returns ([], true, some .ErrDone), .returns ([], true, some .ErrDone),
            .returns ([], true, some .ErrDone)],
          { c := ⟨some threePages⟩, Slug := "acc-1", IBAN := "FR76", nextPage := 3, perPage := 2,
            done := true }, []) :=
  (Next_exhausted_forever stubGlobals decodeTransactionID
    { c := ⟨some threePages⟩, Slug := "acc-1", IBAN := "FR76", nextPage := 3, perPage := 2,
      done := true } rfl [stubContext, none, stubContext] []).2

/-! ## C10: the API error built from a failure response -/

/-- C10 (code defect): the `Response` field of `APIError` carries the tag
`jsoon:"-"`, which is no `json` tag, so a key `response` of the error body
is decoded into it.  With status 422, the body
`{"message":"invalid iban","response":null}` gives an `APIError` whose
`Response` is nil, and the body
`{"message":"invalid iban","Response":{"StatusCode":200}}` gives one whose
carried status is 200; only without such a key does the error carry the
status 422 of the response received. -/
theorem getJSON_error_body_overwrites_response :
    (Client.getJSON ⟨fixedAnswer 422 (.obj [("message", .str "invalid iban"),
          ("response", .null)]), "org", "key"⟩
        "https://thirdparty.qonto.eu/v2/labels" decodeLabelsPage none []).1.2
      = some (.api ⟨⟨"GET", "https://thirdparty.qonto.eu/v2/labels", "org:key"⟩, none,
          "invalid iban"⟩)
    ∧ (Client.getJSON ⟨fixedAnswer 422 (.obj [("message", .str "invalid iban"),
          ("Response", .obj [("StatusCode", .int 200)])]), "org", "key"⟩
        "https://thirdparty.qonto.eu/v2/labels" decodeLabelsPage none []).1.2
      = some (.api ⟨⟨"GET", "https://thirdparty.qonto.eu/v2/labels", "org:key"⟩,
          some ⟨200, .json (.obj [("message", .str "invalid iban"),
            ("Response", .obj [("StatusCode", .int 200)])])⟩, "invalid iban"⟩)
    ∧ (Client.getJSON ⟨fixedAnswer 422 (.obj [("message", .str "invalid iban")]), "org", "key"⟩
        "https://thirdparty.qonto.eu/v2/labels" decodeLabelsPage none []).1.2
      = some (.api ⟨⟨"GET", "https://thirdparty.qonto.eu/v2/labels", "org:key"⟩,
          some ⟨422, .json (.obj [("message", .str "invalid iban")])⟩, "invalid iban"⟩) :=
  ⟨rfl, rfl, rfl⟩

/-! ## Facts about requests and paging -/

/-- The first part of a cut holds characters of the text only. -/
theorem cut_fst_subset (sep : Char) (l : List Char) : ∀ x ∈ (cut sep l).1, x ∈ l := by
  induction l with
  | nil => intro x hx; simp [cut] at hx
  | cons c cs ih =>
    intro x hx
    unfold cut at hx
    split at hx
    · simp at hx
    · simp only [List.mem_cons] at hx ⊢
      rcases hx with h | h
      · exact Or.inl h
      · exact Or.inr (ih x h)

/-- A cut at a separator the text does not hold leaves the text whole. -/
theorem cut_absent (sep : Char) (l : List Char) (h : sep ∉ l) : cut sep l = (l, none) := by
  induction l with
  | nil => rfl
  | cons c cs ih =>
    have hc : c ≠ sep := fun e => h (e ▸ List.mem_cons_self _ _)
    have hcs : sep ∉ cs := fun e => h (List.mem_cons_of_mem _ e)
    unfold cut
    rw [if_neg hc, ih hcs]

/-- A cut happens at the first separator. -/
theorem cut_append (sep : Char) (l r : List Char) (h : sep ∉ l) :
    cut sep (l ++ sep :: r) = (l, some r) := by
  induction l with
  | nil => simp [cut]
  | cons c cs ih =>
    have hc : c ≠ sep := fun e => h (e ▸ List.mem_cons_self _ _)
    have hcs : sep ∉ cs := fun e => h (List.mem_cons_of_mem _ e)
    rw [List.cons_append]
    unfold cut
    rw [if_neg hc, ih hcs]

/-- A text that passes the checks of `checkHead` and holds no control
character, `#` or `?`, followed by a query without control character or
`#`, parses as a URL. -/
theorem urlParse_query_ok (l q : List Char)
    (hl : ∀ x ∈ l, Printable x ∧ x ≠ '#' ∧ x ≠ '?') (hhead : checkHead l = .ok ())
    (hq : ∀ x ∈ q, Printable x ∧ x ≠ '#') :
    ∃ u, urlParse (String.mk (l ++ '?' :: q)) = .ok u := by
  have hhash : '#' ∉ l ++ '?' :: q := by
    intro hm
    rw [List.mem_append, List.mem_cons] at hm
    rcases hm with hm | hm | hm
    · exact (hl _ hm).2.1 rfl
    · revert hm; decide
    · exact (hq _ hm).2 rfl
  have hmark : '?' ∉ l := fun hm => (hl _ hm).2.2 rfl
  have hany : ((l ++ '?' :: q).any
      (fun c => decide (c.toNat < 0x20) || decide (c.toNat = 0x7F))) = false := by
    rw [List.any_eq_false]
    intro x hx
    have hx' : Printable x := by
      rw [List.mem_append, List.mem_cons] at hx
      rcases hx with hx | hx | hx
      · exact (hl _ hx).1
      · subst hx; unfold Printable; decide
      · exact (hq _ hx).1
    unfold Printable at hx'
    simpa using hx'
  unfold urlParse
  simp only [cut_absent _ _ hhash, hany, cut_append _ _ _ hmark, hhead]
  simp only [Bool.false_eq_true, if_false, Option.getD_none, validEscapes, Bool.not_true]
  split <;> exact ⟨_, rfl⟩

/-- A hexadecimal digit is neither a control character nor `#`. -/
theorem upperhex_printable (d : Nat) : Printable (upperhex d) ∧ upperhex d ≠ '#' := by
  unfold upperhex
  rcases Nat.lt_or_ge d 16 with h | h
  · interval_cases d <;> (unfold Printable; decide)
  · rw [List.getD_eq_default _ _ (by simpa using h)]
    unfold Printable; decide

/-- Escaping a character yields neither a control character nor `#`. -/
theorem escapeChar_printable (c : Char) : ∀ x ∈ escapeChar c, Printable x ∧ x ≠ '#' := by
  intro x hx
  unfold escapeChar at hx
  split at hx
  · simp at hx; subst hx; unfold Printable; decide
  · split at hx
    · simp only [List.mem_flatMap, List.mem_cons, List.mem_singleton, List.not_mem_nil,
        or_false] at hx
      obtain ⟨b, _, hb⟩ := hx
      rcases hb with h | h | h
      · subst h; unfold Printable; decide
      · subst h; exact upperhex_printable _
      · subst h; exact upperhex_printable _
    · rename_i hsp hesc
      simp only [List.mem_singleton] at hx
      subst hx
      have hne : x ≠ '#' := by
        intro e
        rw [e] at hesc
        exact hesc (by decide)
      unfold shouldEscape at hesc
      unfold Printable
      simp at hesc
      exact ⟨by omega, hne⟩

/-- Escaping a text yields neither a control character nor `#`. -/
theorem escape_printable (l : List Char) : ∀ x ∈ escape l, Printable x ∧ x ≠ '#' := by
  intro x hx
  unfold escape at hx
  rw [List.mem_flatMap] at hx
  obtain ⟨c, _, hc⟩ := hx
  exact escapeChar_printable c x hc

/-- Joining texts without control character or `#` yields none. -/
theorem joinAmp_printable (ps : List (List Char))
    (h : ∀ p ∈ ps, ∀ x ∈ p, Printable x ∧ x ≠ '#') :
    ∀ x ∈ joinAmp ps, Printable x ∧ x ≠ '#' := by
  induction ps with
  | nil => intro x hx; simp [joinAmp] at hx
  | cons p rest ih =>
    cases rest with
    | nil =>
      intro x hx
      simp only [joinAmp] at hx
      exact h p (List.mem_cons_self _ _) x hx
    | cons q rest =>
      intro x hx
      simp only [joinAmp, List.mem_append, List.mem_cons] at hx
      rcases hx with hx | hx | hx
      · exact h p (List.mem_cons_self _ _) x hx
      · subst hx; unfold Printable; decide
      · exact ih (fun p' hp' => h p' (List.mem_cons_of_mem _ hp')) x hx

/-- An encoded query holds neither a control character nor `#`. -/
theorem Encode_printable (v : Values) :
    ∀ x ∈ (Values.Encode v).data, Printable x ∧ x ≠ '#' := by
  unfold Values.Encode
  apply joinAmp_printable
  intro p hp x hx
  simp only [List.mem_flatMap, List.mem_map] at hp
  obtain ⟨e, _, y, _, rfl⟩ := hp
  simp only [List.mem_append, List.mem_cons] at hx
  rcases hx with hx | hx | hx
  · exact escape_printable _ x hx
  · subst hx; unfold Printable; decide
  · exact escape_printable _ x hx

/-- With a slug and an IBAN, `getTransactionsURL` succeeds, and the URL it
builds is one that `url.Parse` accepts. -/
theorem getTransactionsURL_ok (slug IBAN : String) (options : Option GetTransactionOptions)
    (hs : slug ≠ "") (hi : IBAN ≠ "") :
    ∃ u, getTransactionsURL slug IBAN options = (u, none) ∧ ∃ parsed, urlParse u = .ok parsed := by
  unfold getTransactionsURL
  rw [urlParse_transactions]
  simp only [hs, hi, if_false]
  refine ⟨_, rfl, ?_⟩
  generalize hv : (match options with
    | none => Values.Set (Values.Set [] "slug" slug) "iban" IBAN
    | some options => _) = v
  unfold URL.String
  simp only
  split
  · have e : "https://thirdparty.qonto.eu/v2/transactions" ++ ("?" ++ Values.Encode v)
          ++ (if ("" != "") = true then "#" ++ "" else "")
        = String.mk ("https://thirdparty.qonto.eu/v2/transactions".data
            ++ '?' :: (Values.Encode v).data) := by
      apply String.ext
      simp [String.data_append]
    rw [e]
    exact urlParse_query_ok _ _ (by unfold Printable; decide) rfl (Encode_printable v)
  · exact ⟨_, rfl⟩

/-- A request that is answered with a status not above 299 and a JSON body
that decodes makes `getJSON` store the decoded value and return nil. -/
theorem getJSON_success {α : Type} (c : Client) (u : String) (dec : Json → Except String α)
    (ref : α) (log : List Request) (status : Int) (body : Json) (a : α)
    (hu : ∃ parsed, urlParse u = .ok parsed)
    (hdo : c.h.Do log ⟨"GET", u, c.Slug ++ ":" ++ c.SecretKey⟩ = .ok ⟨status, .json body⟩)
    (hstatus : status ≤ 299) (hdec : dec body = .ok a) :
    c.getJSON u dec ref log = ((a, none), log ++ [⟨"GET", u, c.Slug ++ ":" ++ c.SecretKey⟩]) := by
  obtain ⟨parsed, hparsed⟩ := hu
  unfold Client.getJSON
  rw [hparsed]
  simp only [hdo]
  have : ¬ status > 299 := by omega
  simp only [this, if_false, Body.Decode, hdec]

/-- A served page is what `GetTransactionsContext` returns for its number,
after one request. -/
theorem GetTransactionsContext_served {τ : Type} (decT : Json → Except String τ) (c : Client)
    (bankAccountID IBAN : String) (options : Option GetTransactionOptions)
    (hs : bankAccountID ≠ "") (hi : IBAN ≠ "") (currentPage : Int) (p : TransactionsPage τ)
    (h : Serves decT c bankAccountID IBAN options currentPage p) (log : List Request) :
    c.GetTransactionsContext decT bankAccountID IBAN
        (some { options.getD GetTransactionOptions.zero with CurrentPage := some currentPage }) log
      = ((some p, none), log ++ [pageRequest c bankAccountID IBAN options currentPage]) := by
  obtain ⟨status, body, hdo, hstatus, hdec⟩ := h log
  obtain ⟨u, hu, hprint⟩ := getTransactionsURL_ok bankAccountID IBAN
    (some { options.getD GetTransactionOptions.zero with CurrentPage := some currentPage }) hs hi
  unfold pageRequest at hdo ⊢
  unfold Client.GetTransactionsContext
  rw [hu] at hdo ⊢
  exact getJSON_success c u _ none log status body (some p) hprint hdo hstatus hdec

/-- Along a chain of linked pages the loop of `GetAllTransactionsContext`
makes one turn per page, gathering the transactions and sending the
requests in order. -/
theorem GetAllTransactionsContext_loop_linked {τ : Type} (decT : Json → Except String τ)
    (c : Client) (bankAccountID IBAN : String) (options : Option GetTransactionOptions)
    (hs : bankAccountID ≠ "") (hi : IBAN ≠ "") (pages : List (TransactionsPage τ)) :
    ∀ (currentPage : Int), Linked decT c bankAccountID IBAN options currentPage pages →
      ∀ (fuel : Nat) (transactions : List (Option τ)) (log : List Request),
        Client.GetAllTransactionsContext.loop decT c bankAccountID IBAN options
            (pages.length + fuel) currentPage transactions log
          = Client.GetAllTransactionsContext.loop decT c bankAccountID IBAN options fuel
              (afterChain currentPage pages)
              (transactions ++ pages.flatMap (·.Transactions))
              (log ++ chainRequests c bankAccountID IBAN options currentPage pages) := by
  induction pages with
  | nil =>
    intro currentPage _ fuel transactions log
    simp [afterChain, chainRequests]
  | cons p rest ih =>
    intro currentPage hl fuel transactions log
    obtain ⟨hserved, next, hnext, hrest⟩ := hl
    have hlen : (p :: rest).length + fuel = (rest.length + fuel) + 1 := by
      simp only [List.length_cons]; omega
    rw [hlen]
    conv => lhs; unfold Client.GetAllTransactionsContext.loop
    simp only [GetTransactionsContext_served decT c bankAccountID IBAN options hs hi currentPage p
      hserved log, hnext]
    rw [ih next hrest]
    simp [afterChain, chainRequests, hnext, List.flatMap_cons]

/-- A chain of pages takes one request per page. -/
theorem chainRequests_length {τ : Type} (c : Client) (bankAccountID IBAN : String)
    (options : Option GetTransactionOptions) (pages : List (TransactionsPage τ)) :
    ∀ currentPage : Int,
      (chainRequests c bankAccountID IBAN options currentPage pages).length = pages.length := by
  induction pages with
  | nil => intro _; rfl
  | cons p rest ih => intro _; simp [chainRequests, ih]

/-! ## C1: what `GetAllTransactionsContext` returns when a page fetch fails -/

/-- C1 (as stated, refuted): against a stub whose page 1 holds two
transactions and points to page 2, and whose page 2 answers 500,
`GetAllTransactionsContext` returns the error together with the two
transactions of page 1, not a nil list. -/
theorem GetAllTransactionsContext_returns_partial_list :
    Client.GetAllTransactionsContext decodeTransactionID 5 ⟨secondPageFails, "org", "key"⟩
        "acc-1" "FR76" none []
      = some (.returns ([some "a", some "b"],
          some (.Errorf ("GET https://thirdparty.qonto.eu/v2/transactions"
            ++ "?current_page=2&iban=FR76&slug=acc-1 returned 500"))),
        [⟨"GET", "https://thirdparty.qonto.eu/v2/transactions?current_page=1&iban=FR76&slug=acc-1",
            "org:key"⟩,
          ⟨"GET", "https://thirdparty.qonto.eu/v2/transactions?current_page=2&iban=FR76&slug=acc-1",
            "org:key"⟩]) := by
  rfl

/-- C1 (amended): when the pages `pages` were fetched in a chain from the
start page and the fetch of the page the last of them points to fails with
the error `e`, `GetAllTransactionsContext` stops there and returns `e`
together with the transactions of `pages`, in order. -/
theorem GetAllTransactionsContext_error_keeps_pages {τ : Type}
    (decT : Json → Except String τ) (c : Client) (bankAccountID IBAN : String)
    (options : Option GetTransactionOptions) (hs : bankAccountID ≠ "") (hi : IBAN ≠ "")
    (pages : List (TransactionsPage τ)) (log log' : List Request)
    (r : Option (TransactionsPage τ)) (e : Error)
    (hlinked : Linked decT c bankAccountID IBAN options
      ((options.bind (·.CurrentPage)).getD 1) pages)
    (hfail : c.GetTransactionsContext decT bankAccountID IBAN
        (some { options.getD GetTransactionOptions.zero with
          CurrentPage := some (afterChain ((options.bind (·.CurrentPage)).getD 1) pages) })
        (log ++ chainRequests c bankAccountID IBAN options
          ((options.bind (·.CurrentPage)).getD 1) pages)
      = ((r, some e), log'))
    (fuel : Nat) (hfuel : pages.length + 1 ≤ fuel) :
    Client.GetAllTransactionsContext decT fuel c bankAccountID IBAN options log
      = some (.returns (pages.flatMap (·.Transactions), some e), log') := by
  obtain ⟨k, rfl⟩ : ∃ k, fuel = pages.length + (k + 1) := ⟨fuel - pages.length - 1, by omega⟩
  unfold Client.GetAllTransactionsContext
  simp only
  rw [GetAllTransactionsContext_loop_linked decT c bankAccountID IBAN options hs hi pages _
    hlinked]
  unfold Client.GetAllTransactionsContext.loop
  simp only [hfail, List.nil_append]

/-- C1 (amended) at a concrete input: page 1 is fetched, page 2 fails. -/
theorem GetAllTransactionsContext_error_keeps_pages_witness :
    Client.GetAllTransactionsContext decodeTransactionID 2 ⟨secondPageFails, "org", "key"⟩
        "acc-1" "FR76" none []
      = some (.returns ([some "a", some "b"],
          some (.Errorf ("GET https://thirdparty.qonto.eu/v2/transactions"
            ++ "?current_page=2&iban=FR76&slug=acc-1 returned 500"))),
        [⟨"GET", "https://thirdparty.qonto.eu/v2/transactions?current_page=1&iban=FR76&slug=acc-1",
            "org:key"⟩,
          ⟨"GET", "https://thirdparty.qonto.eu/v2/transactions?current_page=2&iban=FR76&slug=acc-1",
            "org:key"⟩]) :=
  GetAllTransactionsContext_error_keeps_pages decodeTransactionID
    ⟨secondPageFails, "org", "key"⟩ "acc-1" "FR76" none (by decide) (by decide)
    [⟨[some "a", some "b"], ⟨1, some 2, none, 3, 6, 2⟩⟩] [] _ none _
    ⟨fun _ => ⟨200, stubPageJson ["a", "b"] 1 (.int 2), rfl, by decide, rfl⟩, 2, rfl, trivial⟩
    rfl 2 (by decide)

/-! ## C2: draining a chain of pages -/

/-- C2: when the server serves the pages `init ++ [last]` as a chain from
the start page (the caller's `CurrentPage`, 1 by default), each page but
`last` pointing to the next and `last` having a null `next_page`, then
`GetAllTransactionsContext` returns, as soon as it is allowed one loop turn
per page, with a nil error, the transactions of the pages concatenated in
arrival order, and exactly one request per page, in order. -/
theorem GetAllTransactionsContext_drains_chain {τ : Type}
    (decT : Json → Except String τ) (c : Client) (bankAccountID IBAN : String)
    (options : Option GetTransactionOptions) (hs : bankAccountID ≠ "") (hi : IBAN ≠ "")
    (init : List (TransactionsPage τ)) (last : TransactionsPage τ) (log : List Request)
    (hlinked : Linked decT c bankAccountID IBAN options
      ((options.bind (·.CurrentPage)).getD 1) init)
    (hlast : Serves decT c bankAccountID IBAN options
      (afterChain ((options.bind (·.CurrentPage)).getD 1) init) last)
    (hend : last.Meta.NextPage = none)
    (fuel : Nat) (hfuel : init.length + 1 ≤ fuel) :
    Client.GetAllTransactionsContext decT fuel c bankAccountID IBAN options log
        = some (.returns ((init ++ [last]).flatMap (·.Transactions), none),
            log ++ (chainRequests c bankAccountID IBAN options
              ((options.bind (·.CurrentPage)).getD 1) init
              ++ [pageRequest c bankAccountID IBAN options
                (afterChain ((options.bind (·.CurrentPage)).getD 1) init)]))
      ∧ (chainRequests c bankAccountID IBAN options
              ((options.bind (·.CurrentPage)).getD 1) init
              ++ [pageRequest c bankAccountID IBAN options
                (afterChain ((options.bind (·.CurrentPage)).getD 1) init)]).length
          = (init ++ [last]).length := by
  refine ⟨?_, by simp [chainRequests_length]⟩
  obtain ⟨k, rfl⟩ : ∃ k, fuel = init.length + (k + 1) := ⟨fuel - init.length - 1, by omega⟩
  unfold Client.GetAllTransactionsContext
  simp only
  rw [GetAllTransactionsContext_loop_linked decT c bankAccountID IBAN options hs hi init _
    hlinked]
  unfold Client.GetAllTransactionsContext.loop
  simp only [GetTransactionsContext_served decT c bankAccountID IBAN options hs hi _ last hlast,
    hend, List.nil_append, List.flatMap_append, List.flatMap_cons, List.flatMap_nil,
    List.append_nil, List.append_assoc]

/-- C2 at the concrete input of the specification: three pages
1 -> 2 -> 3 -> null of two items each give the six items in order, after
three requests. -/
theorem GetAllTransactionsContext_drains_chain_witness :
    Client.GetAllTransactionsContext decodeTransactionID 3 ⟨threePages, "org", "key"⟩
        "acc-1" "FR76" none []
      = some (.returns ([some "a", some "b", some "c", some "d", some "e", some "f"], none),
        [⟨"GET", "https://thirdparty.qonto.eu/v2/transactions?current_page=1&iban=FR76&slug=acc-1",
            "org:key"⟩,
          ⟨"GET", "https://thirdparty.qonto.eu/v2/transactions?current_page=2&iban=FR76&slug=acc-1",
            "org:key"⟩,
          ⟨"GET", "https://thirdparty.qonto.eu/v2/transactions?current_page=3&iban=FR76&slug=acc-1",
            "org:key"⟩]) :=
  (GetAllTransactionsContext_drains_chain decodeTransactionID
    ⟨threePages, "org", "key"⟩ "acc-1" "FR76" none (by decide) (by decide)
    [⟨[some "a", some "b"], ⟨1, some 2, none, 3, 6, 2⟩⟩,
      ⟨[some "c", some "d"], ⟨2, some 3, none, 3, 6, 2⟩⟩]
    ⟨[some "e", some "f"], ⟨3, none, none, 3, 6, 2⟩⟩ []
    ⟨fun _ => ⟨200, stubPageJson ["a", "b"] 1 (.int 2), rfl, by decide, rfl⟩, 2, rfl,
      fun _ => ⟨200, stubPageJson ["c", "d"] 2 (.int 3), rfl, by decide, rfl⟩, 3, rfl, trivial⟩
    (fun _ => ⟨200, stubPageJson ["e", "f"] 3 .null, rfl, by decide, rfl⟩)
    rfl 3 (by decide)).1

/-- The digits of a number are not escaped in a query. -/
theorem toDigitsCore_digits (fuel : Nat) :
    ∀ (n : Nat) (ds : List Char), (∀ x ∈ ds, escapeChar x = [x]) →
      ∀ x ∈ Nat.toDigitsCore 10 fuel n ds, escapeChar x = [x] := by
  induction fuel with
  | zero => intro n ds h x hx; simpa [Nat.toDigitsCore] using h x hx
  | succ f ih =>
    intro n ds h x hx
    unfold Nat.toDigitsCore at hx
    have hd : escapeChar (Nat.digitChar (n % 10)) = [Nat.digitChar (n % 10)] := by
      have : n % 10 < 10 := Nat.mod_lt _ (by decide)
      interval_cases (n % 10) <;> decide
    have hcons : ∀ y ∈ Nat.digitChar (n % 10) :: ds, escapeChar y = [y] := by
      intro y hy
      rcases List.mem_cons.1 hy with rfl | hy
      · exact hd
      · exact h y hy
    simp only at hx
    split at hx
    · exact hcons x hx
    · exact ih _ _ hcons x hx

/-- A text whose characters are not escaped is its own escaped form. -/
theorem escape_id (l : List Char) (h : ∀ x ∈ l, escapeChar x = [x]) : escape l = l := by
  induction l with
  | nil => rfl
  | cons c cs ih =>
    unfold escape at ih ⊢
    rw [List.flatMap_cons, h c (List.mem_cons_self _ _),
      ih (fun x hx => h x (List.mem_cons_of_mem _ hx))]
    rfl

/-- The decimal text of an integer is not changed by `url.QueryEscape`. -/
theorem QueryEscape_Itoa (n : Int) : QueryEscape (Itoa n) = Itoa n := by
  unfold QueryEscape
  congr 1
  apply escape_id
  intro x hx
  cases n with
  | ofNat m =>
    exact toDigitsCore_digits _ _ [] (fun _ h => by simp at h) x hx
  | negSucc m =>
    simp only [Itoa, List.mem_cons] at hx
    rcases hx with rfl | hx
    · decide
    · exact toDigitsCore_digits _ _ [] (fun _ h => by simp at h) x hx

/-- With credentials at hand and a path that makes a URL `url.Parse`
accepts, `authenticatedGet` returns after sending exactly one request:
a GET of the backend URL, a slash and the path, authorised by
`slug:secret`. -/
theorem authenticatedGet_sends_one (g : Globals) (c : ContextClient) (ctx : Option Context)
    (path : String) (log : List Request) (s k : String)
    (hcred : GetCredentials g ctx = .returns (s, k, none)) (hpath : path ≠ "")
    (hprint : ∃ parsed, urlParse (BackendURL ++ "/" ++ path) = .ok parsed) :
    ∃ r, c.authenticatedGet g ctx path log
      = (.returns r, log ++ [⟨"GET", BackendURL ++ "/" ++ path, s ++ ":" ++ k⟩]) := by
  obtain ⟨parsed, hparsed⟩ := hprint
  unfold ContextClient.authenticatedGet
  simp only [hcred, bne_iff_ne, ne_eq, hpath, not_false_eq_true, if_true, hparsed]
  cases hdo : (c.HTTPClient.getD g.DefaultClient).Do log
      ⟨"GET", BackendURL ++ "/" ++ path, s ++ ":" ++ k⟩ with
  | error e => exact ⟨_, rfl⟩
  | ok res =>
    cases hb : res.Body with
    | json v => simp only [hb]; exact ⟨_, rfl⟩
    | invalid => simp only [hb]; exact ⟨_, rfl⟩
    | unreadable => simp only [hb]; exact ⟨_, rfl⟩

/-- The requests sent by `ContextClient.GetTransactions` are those sent by
its call to `authenticatedGet`, and it does not panic when that call does
not. -/
theorem GetTransactions_of_authenticatedGet {τ : Type} (g : Globals)
    (decT : Json → Except String τ) (c : ContextClient) (ctx : Option Context)
    (slug iban : String) (currentPage perPage : Int) (log log' : List Request)
    (r : Body × Option Error)
    (h : c.authenticatedGet g ctx
        ("transactions?" ++ Values.Encode ([("slug", [slug]), ("iban", [iban])]
            ++ (if currentPage > 0 then [("current_page", [Itoa currentPage])] else [])
            ++ (if perPage > 0 then [("per_page", [Itoa perPage])] else []))) log
      = (.returns r, log')) :
    ∃ r', c.GetTransactions g decT ctx slug iban (some ⟨currentPage, perPage⟩) log
      = (.returns r', log') := by
  have hv : (if perPage > 0 then
        Values.Set (if currentPage > 0 then
          Values.Set (Values.Set (Values.Set [] "slug" slug) "iban" iban) "current_page"
            (Itoa currentPage)
          else Values.Set (Values.Set [] "slug" slug) "iban" iban) "per_page" (Itoa perPage)
      else (if currentPage > 0 then
          Values.Set (Values.Set (Values.Set [] "slug" slug) "iban" iban) "current_page"
            (Itoa currentPage)
          else Values.Set (Values.Set [] "slug" slug) "iban" iban))
      = ([("slug", [slug]), ("iban", [iban])]
            ++ (if currentPage > 0 then [("current_page", [Itoa currentPage])] else [])
            ++ (if perPage > 0 then [("per_page", [Itoa perPage])] else [])) := by
    by_cases h1 : currentPage > 0 <;> by_cases h2 : perPage > 0 <;> simp [h1, h2] <;> rfl
  unfold ContextClient.GetTransactions
  simp only [hv, h]
  obtain ⟨buf, err⟩ := r
  cases err with
  | some e => exact ⟨_, rfl⟩
  | none =>
    simp only
    split <;> exact ⟨_, rfl⟩

/-- With credentials at hand, `ContextClient.GetTransactions` returns after
sending exactly one request: a GET of the transactions path with the slug
and the IBAN in the query, and `current_page` and `per_page` each exactly
when its option is positive. -/
theorem GetTransactions_sends_one {τ : Type} (g : Globals) (decT : Json → Except String τ)
    (c : ContextClient) (ctx : Option Context) (slug iban : String) (currentPage perPage : Int)
    (log : List Request) (s k : String) (hcred : GetCredentials g ctx = .returns (s, k, none)) :
    ∃ r, c.GetTransactions g decT ctx slug iban (some ⟨currentPage, perPage⟩) log
      = (.returns r, log ++ [⟨"GET", "https://thirdparty.qonto.eu/v2//transactions?"
          ++ Values.Encode ([("slug", [slug]), ("iban", [iban])]
            ++ (if currentPage > 0 then [("current_page", [Itoa currentPage])] else [])
            ++ (if perPage > 0 then [("per_page", [Itoa perPage])] else [])),
          s ++ ":" ++ k⟩]) := by
  have hpath : ∀ v : Values, "transactions?" ++ Values.Encode v ≠ "" := by
    intro v h
    have := congrArg String.data h
    simp [String.data_append] at this
  have hurl : ∀ v : Values, BackendURL ++ "/" ++ ("transactions?" ++ Values.Encode v)
      = "https://thirdparty.qonto.eu/v2//transactions?" ++ Values.Encode v := by
    intro v
    apply String.ext
    simp [BackendURL, String.data_append]
  have hprint : ∀ v : Values,
      ∃ parsed, urlParse (BackendURL ++ "/" ++ ("transactions?" ++ Values.Encode v))
        = .ok parsed := by
    intro v
    have e : BackendURL ++ "/" ++ ("transactions?" ++ Values.Encode v)
        = String.mk ("https://thirdparty.qonto.eu/v2//transactions".data
            ++ '?' :: (Values.Encode v).data) := by
      apply String.ext
      simp [BackendURL, String.data_append]
    rw [e]
    exact urlParse_query_ok _ _ (by unfold Printable; decide) rfl (Encode_printable v)
  obtain ⟨r, hr⟩ := authenticatedGet_sends_one g c ctx _ log s k hcred (hpath _) (hprint
    ([("slug", [slug]), ("iban", [iban])]
      ++ (if currentPage > 0 then [("current_page", [Itoa currentPage])] else [])
      ++ (if perPage > 0 then [("per_page", [Itoa perPage])] else [])))
  rw [hurl] at hr
  exact GetTransactions_of_authenticatedGet g decT c ctx slug iban currentPage perPage log _ r hr

/-- A call to `Next` leaves the client, the slug, the IBAN and the page
size of the iterator as they are. -/
theorem Next_frame {τ : Type} (g : Globals) (decT : Json → Except String τ)
    (j : ContextIterator) (ctx : Option Context) (log : List Request) :
    (j.Next g decT ctx log).2.1.c = j.c ∧ (j.Next g decT ctx log).2.1.Slug = j.Slug
      ∧ (j.Next g decT ctx log).2.1.IBAN = j.IBAN
      ∧ (j.Next g decT ctx log).2.1.perPage = j.perPage := by
  unfold ContextIterator.Next
  split
  · exact ⟨rfl, rfl, rfl, rfl⟩
  · simp only
    split
    · exact ⟨rfl, rfl, rfl, rfl⟩
    · exact ⟨rfl, rfl, rfl, rfl⟩
    · exact ⟨rfl, rfl, rfl, rfl⟩
    · split <;> exact ⟨rfl, rfl, rfl, rfl⟩

/-- The requests sent by `Next` on an iterator that is not exhausted are
those of its call to `GetTransactions`. -/
theorem Next_log {τ : Type} (g : Globals) (decT : Json → Except String τ)
    (j : ContextIterator) (hnot : j.done = false) (ctx : Option Context) (log : List Request) :
    (j.Next g decT ctx log).2.2
      = (j.c.GetTransactions g decT ctx j.Slug j.IBAN (some ⟨j.nextPage, j.perPage⟩) log).2 := by
  unfold ContextIterator.Next
  simp only [hnot, Bool.false_eq_true, if_false]
  split <;> simp_all

/-- The query of the first request of an iterator, written out. -/
theorem Encode_first_request (slug iban : String) (perPage : Int) :
    Values.Encode ([("slug", [slug]), ("iban", [iban])]
        ++ (if (0 : Int) > 0 then [("current_page", [Itoa 0])] else [])
        ++ (if perPage > 0 then [("per_page", [Itoa perPage])] else []))
      = if perPage > 0 then
          "iban=" ++ QueryEscape iban ++ "&per_page=" ++ Itoa perPage ++ "&slug=" ++ QueryEscape slug
        else "iban=" ++ QueryEscape iban ++ "&slug=" ++ QueryEscape slug := by
  have h1 : escape ['i', 'b', 'a', 'n'] = ['i', 'b', 'a', 'n'] := by decide
  have h2 : escape ['s', 'l', 'u', 'g'] = ['s', 'l', 'u', 'g'] := by decide
  have h3 : escape ['p', 'e', 'r', '_', 'p', 'a', 'g', 'e']
      = ['p', 'e', 'r', '_', 'p', 'a', 'g', 'e'] := by decide
  have h4 : escape (Itoa perPage).data = (Itoa perPage).data :=
    congrArg String.data (QueryEscape_Itoa perPage)
  by_cases h : perPage > 0
  · simp only [h, if_true]
    apply String.ext
    simp [Values.Encode, sortByKey, insertByKey, keyLess, joinAmp, QueryEscape,
      String.data_append, h1, h2, h3, h4]
  · simp only [h, if_false]
    apply String.ext
    simp [Values.Encode, sortByKey, insertByKey, keyLess, joinAmp, QueryEscape,
      String.data_append, h1, h2]

/-! ## C8: what `Next` does with the meta-data of a page -/

/-- C8: when the fetch made by `Next` on an iterator that is not exhausted
succeeds with the items `t` and the meta-data `m`: if `m.NextPage` is null,
`Next` returns `t` with `true`, sets `done`, and the following `Next` returns
`ErrDone` without a request; if `m.NextPage` is `n`, `Next` returns `t` with
`false`, sets `nextPage` to `n` and leaves `done` false. -/
theorem Next_follows_meta {τ : Type} (g : Globals) (decT : Json → Except String τ)
    (i : ContextIterator) (ctx : Option Context) (log log' : List Request)
    (t : List (Option τ)) (m : ResponseMeta) (hnot : i.done = false)
    (hfetch : i.c.GetTransactions g decT ctx i.Slug i.IBAN (some ⟨i.nextPage, i.perPage⟩) log
      = (.returns (t, some m, none), log')) :
    (m.NextPage = none →
        i.Next g decT ctx log = (.returns (t, true, none), { i with done := true }, log')
          ∧ ∀ ctx', ({ i with done := true } : ContextIterator).Next g decT ctx' log'
            = (.returns ([], true, some .ErrDone), { i with done := true }, log'))
      ∧ (∀ n, m.NextPage = some n →
        i.Next g decT ctx log = (.returns (t, false, none), { i with nextPage := n }, log')
          ∧ ({ i with nextPage := n } : ContextIterator).done = false) := by
  refine ⟨?_, ?_⟩
  · intro hm
    refine ⟨?_, fun ctx' => ?_⟩
    · unfold ContextIterator.Next
      simp only [hnot, Bool.false_eq_true, if_false, hfetch, hm]
    · unfold ContextIterator.Next
      simp
  · intro n hm
    refine ⟨?_, hnot⟩
    unfold ContextIterator.Next
    simp only [hnot, Bool.false_eq_true, if_false, hfetch, hm]

/-- C8 at concrete inputs: a page with `next_page` null, and a page with
`next_page` 4. -/
theorem Next_follows_meta_witness :
    ContextIterator.Next stubGlobals decodeTransactionID
        (ContextClient.IterTransactionPages ⟨some (samePage .null)⟩ "acc-1" "FR76" 2)
        stubContext []
      = (.returns ([some "a", some "b"], true, none),
          { c := ⟨some (samePage .null)⟩, Slug := "acc-1", IBAN := "FR76", nextPage := 0,
            perPage := 2, done := true },
          [⟨"GET", "https://thirdparty.qonto.eu/v2//transactions?iban=FR76&per_page=2&slug=acc-1",
            "org:key"⟩])
    ∧ ContextIterator.Next stubGlobals decodeTransactionID
        (ContextClient.IterTransactionPages ⟨some (samePage (.int 4))⟩ "acc-1" "FR76" 2)
        stubContext []
      = (.returns ([some "a", some "b"], false, none),
          { c := ⟨some (samePage (.int 4))⟩, Slug := "acc-1", IBAN := "FR76", nextPage := 4,
            perPage := 2, done := false },
          [⟨"GET", "https://thirdparty.qonto.eu/v2//transactions?iban=FR76&per_page=2&slug=acc-1",
            "org:key"⟩]) :=
  ⟨((Next_follows_meta stubGlobals decodeTransactionID
      (ContextClient.IterTransactionPages ⟨some (samePage .null)⟩ "acc-1" "FR76" 2)
      stubContext [] _ [some "a", some "b"] ⟨1, none, none, 3, 6, 2⟩ rfl rfl).1 rfl).1,
    ((Next_follows_meta stubGlobals decodeTransactionID
      (ContextClient.IterTransactionPages ⟨some (samePage (.int 4))⟩ "acc-1" "FR76" 2)
      stubContext [] _ [some "a", some "b"] ⟨1, some 4, none, 3, 6, 2⟩ rfl rfl).2 4 rfl).1⟩

/-! ## C9: the first request of an iterator -/

/-- C9: an iterator made by `IterTransactionPages` starts with `done` false
and `nextPage` 0.  With credentials at hand, its first `Next` sends exactly
one request, a GET whose query holds the IBAN and the slug, no
`current_page`, and `per_page` (in decimal) exactly when `perPage` is
positive.  Every call to `Next`, on any state of an iterator, leaves its
client, slug, IBAN and page size alone, and the request of a call that
fetches holds that slug, that IBAN and that page size. -/
theorem IterTransactionPages_first_request {τ : Type} (g : Globals)
    (decT : Json → Except String τ) (c : ContextClient) (ctx : Option Context)
    (slug iban : String) (perPage : Int) (log : List Request) (s k : String)
    (hcred : GetCredentials g ctx = .returns (s, k, none)) :
    (c.IterTransactionPages slug iban perPage).done = false
      ∧ (c.IterTransactionPages slug iban perPage).nextPage = 0
      ∧ ((c.IterTransactionPages slug iban perPage).Next g decT ctx log).2.2
        = log ++ [⟨"GET", "https://thirdparty.qonto.eu/v2//transactions?"
            ++ (if perPage > 0 then
                "iban=" ++ QueryEscape iban ++ "&per_page=" ++ Itoa perPage ++ "&slug="
                  ++ QueryEscape slug
              else "iban=" ++ QueryEscape iban ++ "&slug=" ++ QueryEscape slug),
            s ++ ":" ++ k⟩]
      ∧ ∀ (j : ContextIterator) (ctx' : Option Context) (log' : List Request),
          ((j.Next g decT ctx' log').2.1.c = j.c ∧ (j.Next g decT ctx' log').2.1.Slug = j.Slug
            ∧ (j.Next g decT ctx' log').2.1.IBAN = j.IBAN
            ∧ (j.Next g decT ctx' log').2.1.perPage = j.perPage)
          ∧ (j.done = false → ∀ s' k', GetCredentials g ctx' = .returns (s', k', none) →
            (j.Next g decT ctx' log').2.2
              = log' ++ [⟨"GET", "https://thirdparty.qonto.eu/v2//transactions?"
                ++ Values.Encode ([("slug", [j.Slug]), ("iban", [j.IBAN])]
                  ++ (if j.nextPage > 0 then [("current_page", [Itoa j.nextPage])] else [])
                  ++ (if j.perPage > 0 then [("per_page", [Itoa j.perPage])] else [])),
                s' ++ ":" ++ k'⟩]) := by
  have hlog : ∀ (j : ContextIterator) (ctx' : Option Context) (log' : List Request),
      j.done = false → ∀ s' k', GetCredentials g ctx' = .returns (s', k', none) →
        (j.Next g decT ctx' log').2.2
          = log' ++ [⟨"GET", "https://thirdparty.qonto.eu/v2//transactions?"
            ++ Values.Encode ([("slug", [j.Slug]), ("iban", [j.IBAN])]
              ++ (if j.nextPage > 0 then [("current_page", [Itoa j.nextPage])] else [])
              ++ (if j.perPage > 0 then [("per_page", [Itoa j.perPage])] else [])),
            s' ++ ":" ++ k'⟩] := by
    intro j ctx' log' hj s' k' hc
    obtain ⟨r, hr⟩ := GetTransactions_sends_one g decT j.c ctx' j.Slug j.IBAN j.nextPage
      j.perPage log' s' k' hc
    rw [Next_log g decT j hj, hr]
  refine ⟨rfl, rfl, ?_, fun j ctx' log' => ⟨Next_frame g decT j ctx' log', hlog j ctx' log'⟩⟩
  · rw [hlog _ ctx log rfl s k hcred]
    exact congrArg (fun q => log ++ [(⟨"GET",
      "https://thirdparty.qonto.eu/v2//transactions?" ++ q, s ++ ":" ++ k⟩ : Request)])
      (Encode_first_request slug iban perPage)

/-- C9 at a concrete input: the first request of an iterator with page size
2, and of one with page size 0. -/
theorem IterTransactionPages_first_request_witness :
    ((ContextClient.IterTransactionPages ⟨some threePages⟩ "acc-1" "FR76" 2).Next stubGlobals
        decodeTransactionID stubContext []).2.2
      = [⟨"GET", "https://thirdparty.qonto.eu/v2//transactions?iban=FR76&per_page=2&slug=acc-1",
          "org:key"⟩]
    ∧ ((ContextClient.IterTransactionPages ⟨some threePages⟩ "acc-1" "FR76" 0).Next stubGlobals
        decodeTransactionID stubContext []).2.2
      = [⟨"GET", "https://thirdparty.qonto.eu/v2//transactions?iban=FR76&slug=acc-1",
          "org:key"⟩] :=
  ⟨(IterTransactionPages_first_request stubGlobals decodeTransactionID ⟨some threePages⟩
      stubContext "acc-1" "FR76" 2 [] "org" "key" rfl).2.2.1,
    (IterTransactionPages_first_request stubGlobals decodeTransactionID ⟨some threePages⟩
      stubContext "acc-1" "FR76" 0 [] "org" "key" rfl).2.2.1⟩

/-! ## Facts about `getJSON` -/

/-- Decoding an error body that has no member matching `Response` does not
write to the response received. -/
theorem decodeErrorBody_res (v : Json) (h : mentionsResponse v = false) (d : ErrorDecoding) :
    (decodeErrorBody v d).res = d.res := by
  cases v with
  | obj kvs =>
    unfold mentionsResponse at h
    unfold decodeErrorBody
    simp only at h ⊢
    induction kvs generalizing d with
    | nil => rfl
    | cons kv rest ih =>
      simp only [List.any_cons, Bool.or_eq_false_iff] at h
      rw [List.foldl_cons, ih _ h.2]
      unfold decodeErrorMember
      simp only [h.1, Bool.false_eq_true, if_false]
      split
      · split <;> rfl
      · rfl
  | _ => rfl

/-- A response with a status above 299 whose body has no member matching
the `Response` field makes `getJSON` return an error and leave the output
as it was. -/
theorem getJSON_unchanged_of_error_status {α : Type} (c : Client) (u : String)
    (dec : Json → Except String α) (ref : α) (log : List Request) (res : Response)
    (hdo : c.h.Do log ⟨"GET", u, c.Slug ++ ":" ++ c.SecretKey⟩ = .ok res)
    (hstatus : res.StatusCode > 299)
    (_hbody : ∀ v, res.Body = .json v → mentionsResponse v = false) :
    (c.getJSON u dec ref log).1.1 = ref ∧ (c.getJSON u dec ref log).1.2 ≠ none := by
  unfold Client.getJSON
  split
  · exact ⟨rfl, by simp⟩
  · simp only [hdo, hstatus, if_true]
    split
    · split <;> exact ⟨rfl, by simp⟩
    · exact ⟨rfl, by simp⟩

/-- A nil error of `getJSON` means that the request was sent, that the
status of the response was not above 299, and that the output is the body
decoded. -/
theorem getJSON_nil_error {α : Type} (c : Client) (u : String) (dec : Json → Except String α)
    (ref a : α) (log log' : List Request) (h : c.getJSON u dec ref log = ((a, none), log')) :
    ∃ res, c.h.Do log ⟨"GET", u, c.Slug ++ ":" ++ c.SecretKey⟩ = .ok res
      ∧ res.StatusCode ≤ 299 ∧ res.Body.Decode dec = .ok a
      ∧ log' = log ++ [⟨"GET", u, c.Slug ++ ":" ++ c.SecretKey⟩] := by
  unfold Client.getJSON at h
  split at h
  · simp at h
  · cases hdo : c.h.Do log ⟨"GET", u, c.Slug ++ ":" ++ c.SecretKey⟩ with
    | error e => simp [hdo] at h
    | ok res =>
      simp only [hdo] at h
      by_cases hs : res.StatusCode > 299
      · simp only [hs, if_true] at h
        split at h
        · split at h <;> simp at h
        · simp at h
      · simp only [hs, if_false] at h
        cases hd : res.Body.Decode dec with
        | error e => simp [hd] at h
        | ok a' =>
          simp only [hd, Prod.mk.injEq, and_true] at h
          exact ⟨res, rfl, by omega, by rw [hd, h.1], h.2.symm⟩

/-! ## C11: the generic error of a failure response -/

/-- C11 (as stated, refuted): a response with the non-success status 101
and a body that is not JSON does not give the error
`GET <url> returned 101`: the status is not above 299, so the body is
decoded as a success body and the decoding error is returned. -/
theorem getJSON_status_below_200_no_generic_error :
    Client.getJSON ⟨fixedBody 101 .invalid, "org", "key"⟩
        "https://thirdparty.qonto.eu/v2/labels" decodeLabelsPage none []
      = ((none, some (.wrapped "Could not decode the response from Qonto API: "
            (.library "invalid character looking for beginning of value"))),
          [⟨"GET", "https://thirdparty.qonto.eu/v2/labels", "org:key"⟩]) := by
  rfl

/-- C11 (amended): for every response with a status above 299 whose body is
not JSON, or is a JSON document that does not decode into an `APIError` and
has no member matching the `Response` field, `getJSON` sends the one request
and returns the generic error `GET <url> returned <status>` with the URL
asked for and the status received, which is not an `APIError`; the output of
the caller is left as it was. -/
theorem getJSON_generic_error {α : Type} (c : Client) (u : String)
    (dec : Json → Except String α) (ref : α) (log : List Request) (res : Response)
    (hu : ∃ parsed, urlParse u = .ok parsed)
    (hdo : c.h.Do log ⟨"GET", u, c.Slug ++ ":" ++ c.SecretKey⟩ = .ok res)
    (hstatus : res.StatusCode > 299)
    (hbody : ∀ v, res.Body = .json v →
      (decodeErrorBody v ⟨res, .received, "", none⟩).saved ≠ none ∧ mentionsResponse v = false) :
    c.getJSON u dec ref log
        = ((ref, some (.Errorf ("GET " ++ u ++ " returned " ++ Itoa res.StatusCode))),
            log ++ [⟨"GET", u, c.Slug ++ ":" ++ c.SecretKey⟩])
      ∧ ∀ ae, (c.getJSON u dec ref log).1.2 ≠ some (.api ae) := by
  have key : c.getJSON u dec ref log
      = ((ref, some (.Errorf ("GET " ++ u ++ " returned " ++ Itoa res.StatusCode))),
          log ++ [⟨"GET", u, c.Slug ++ ":" ++ c.SecretKey⟩]) := by
    obtain ⟨parsed, hparsed⟩ := hu
    unfold Client.getJSON
    rw [hparsed]
    simp only [hdo, hstatus, if_true]
    cases hb : res.Body with
    | json v =>
      obtain ⟨hsaved, hno⟩ := hbody v hb
      simp only
      cases hs : (decodeErrorBody v ⟨res, .received, "", none⟩).saved with
      | none => exact absurd hs hsaved
      | some e =>
        simp only
        rw [decodeErrorBody_res v hno]
    | invalid => rfl
    | unreadable => rfl
  refine ⟨key, ?_⟩
  intro ae h
  rw [key] at h
  cases h

/-- C11 (amended) at concrete inputs: status 500 with a body that is not
JSON, and status 422 with a JSON body whose `message` is a number. -/
theorem getJSON_generic_error_witness :
    Client.getJSON ⟨fixedBody 500 .invalid, "org", "key"⟩
        "https://thirdparty.qonto.eu/v2/labels" decodeLabelsPage none []
      = ((none, some (.Errorf ("GET " ++ "https://thirdparty.qonto.eu/v2/labels" ++ " returned "
            ++ Itoa 500))),
          [] ++ [⟨"GET", "https://thirdparty.qonto.eu/v2/labels", "org" ++ ":" ++ "key"⟩])
    ∧ Client.getJSON ⟨fixedBody 422 (.json (.obj [("message", .int 5)])), "org", "key"⟩
        "https://thirdparty.qonto.eu/v2/labels" decodeLabelsPage none []
      = ((none, some (.Errorf ("GET " ++ "https://thirdparty.qonto.eu/v2/labels" ++ " returned "
            ++ Itoa 422))),
          [] ++ [⟨"GET", "https://thirdparty.qonto.eu/v2/labels", "org" ++ ":" ++ "key"⟩]) :=
  ⟨(getJSON_generic_error ⟨fixedBody 500 .invalid, "org", "key"⟩
      "https://thirdparty.qonto.eu/v2/labels" decodeLabelsPage none [] ⟨500, .invalid⟩
      ⟨_, rfl⟩ rfl (by decide) (fun v h => by cases h)).1,
    (getJSON_generic_error ⟨fixedBody 422 (.json (.obj [("message", .int 5)])), "org", "key"⟩
      "https://thirdparty.qonto.eu/v2/labels" decodeLabelsPage none []
      ⟨422, .json (.obj [("message", .int 5)])⟩
      ⟨_, rfl⟩ rfl (by decide)
      (fun v h => by cases h; exact ⟨by decide, rfl⟩)).1⟩

/-! ## C12: which statuses `getJSON` treats as a success -/

/-- C12 (as stated, refuted): a response with status 101, outside 200-299,
and the body of a page is decoded into the output and gives a nil error. -/
theorem getJSON_status_below_200_is_decoded :
    Client.getJSON ⟨fixedBody 101 (stubPage ["a", "b"] 1 .null), "org", "key"⟩
        "https://thirdparty.qonto.eu/v2/labels" decodeLabelsPage none []
      = ((some ⟨[⟨"a", "", none⟩, ⟨"b", "", none⟩], ⟨1, none, none, 3, 6, 2⟩⟩, none),
          [⟨"GET", "https://thirdparty.qonto.eu/v2/labels", "org:key"⟩]) := by
  rfl

/-- C12 (amended): `getJSON` returns nil only if a response came with a
status that is not above 299, and the output is then the body decoded; a
response with a status not above 299 (below 200 included) whose body
decodes gives nil and the decoded output; a response with a status above
299 whose body is not a JSON document with a member matching the `Response`
field gives a non-nil error and leaves the output as it was. -/
theorem getJSON_success_iff_not_above_299 {α : Type} (c : Client) (u : String)
    (dec : Json → Except String α) (ref : α) (log : List Request) :
    (∀ a log', c.getJSON u dec ref log = ((a, none), log') →
        ∃ res, c.h.Do log ⟨"GET", u, c.Slug ++ ":" ++ c.SecretKey⟩ = .ok res
          ∧ res.StatusCode ≤ 299 ∧ res.Body.Decode dec = .ok a)
      ∧ (∀ status body a, (∃ parsed, urlParse u = .ok parsed) →
        c.h.Do log ⟨"GET", u, c.Slug ++ ":" ++ c.SecretKey⟩ = .ok ⟨status, .json body⟩ →
        status ≤ 299 → dec body = .ok a →
        c.getJSON u dec ref log = ((a, none), log ++ [⟨"GET", u, c.Slug ++ ":" ++ c.SecretKey⟩]))
      ∧ (∀ res, c.h.Do log ⟨"GET", u, c.Slug ++ ":" ++ c.SecretKey⟩ = .ok res →
        res.StatusCode > 299 → (∀ v, res.Body = .json v → mentionsResponse v = false) →
        (c.getJSON u dec ref log).1.1 = ref ∧ (c.getJSON u dec ref log).1.2 ≠ none) := by
  refine ⟨?_, ?_, ?_⟩
  · intro a log' h
    obtain ⟨res, h1, h2, h3, _⟩ := getJSON_nil_error c u dec ref a log log' h
    exact ⟨res, h1, h2, h3⟩
  · intro status body a hu hdo hstatus hdec
    exact getJSON_success c u dec ref log status body a hu hdo hstatus hdec
  · intro res hdo hstatus hbody
    exact getJSON_unchanged_of_error_status c u dec ref log res hdo hstatus hbody

/-- C12 (amended) at concrete inputs: status 200 with the body of a page is
decoded, status 422 leaves the output alone and gives an error. -/
theorem getJSON_success_iff_not_above_299_witness :
    Client.getJSON ⟨fixedBody 200 (stubPage ["a", "b"] 1 .null), "org", "key"⟩
        "https://thirdparty.qonto.eu/v2/labels" decodeLabelsPage none []
      = ((some ⟨[⟨"a", "", none⟩, ⟨"b", "", none⟩], ⟨1, none, none, 3, 6, 2⟩⟩, none),
          [] ++ [⟨"GET", "https://thirdparty.qonto.eu/v2/labels", "org" ++ ":" ++ "key"⟩])
    ∧ ((Client.getJSON ⟨fixedBody 422 (stubPage ["a", "b"] 1 .null), "org", "key"⟩
        "https://thirdparty.qonto.eu/v2/labels" decodeLabelsPage none []).1.1 = none
      ∧ (Client.getJSON ⟨fixedBody 422 (stubPage ["a", "b"] 1 .null), "org", "key"⟩
        "https://thirdparty.qonto.eu/v2/labels" decodeLabelsPage none []).1.2 ≠ none) :=
  ⟨(getJSON_success_iff_not_above_299 ⟨fixedBody 200 (stubPage ["a", "b"] 1 .null), "org", "key"⟩
      "https://thirdparty.qonto.eu/v2/labels" decodeLabelsPage none []).2.1 200
      (stubPageJson ["a", "b"] 1 .null) _ ⟨_, rfl⟩ rfl (by decide) rfl,
    (getJSON_success_iff_not_above_299 ⟨fixedBody 422 (stubPage ["a", "b"] 1 .null), "org", "key"⟩
      "https://thirdparty.qonto.eu/v2/labels" decodeLabelsPage none []).2.2
      ⟨422, stubPage ["a", "b"] 1 .null⟩ rfl (by decide) (fun v h => by cases h; rfl)⟩

/-! ## C13: the context client and failure statuses -/

/-- C13 (code defect): `authenticatedGet` never looks at the status of the
response.  Whatever the status, a failure status such as 422 included, it
returns the body with a nil error; for the error body
`{"message":"invalid iban"}` with status 422, `GetTransactions` then returns
no transaction, a nil meta-data and a nil error, and `GetOrganization` a nil
organization and a nil error. -/
theorem authenticatedGet_ignores_status (status : Int) (log : List Request) :
    ContextClient.authenticatedGet stubGlobals
        ⟨some (fixedAnswer status (.obj [("message", .str "invalid iban")]))⟩ stubContext
        "transactions?iban=FR76&slug=acc-1" log
      = (.returns (.json (.obj [("message", .str "invalid iban")]), none),
          log ++ [⟨"GET", "https://thirdparty.qonto.eu/v2//transactions?iban=FR76&slug=acc-1",
            "org:key"⟩])
    ∧ ContextClient.GetTransactions stubGlobals decodeTransactionID
        ⟨some (fixedAnswer 422 (.obj [("message", .str "invalid iban")]))⟩ stubContext
        "acc-1" "FR76" none log
      = (.returns ([], none, none),
          log ++ [⟨"GET", "https://thirdparty.qonto.eu/v2//transactions?iban=FR76&slug=acc-1",
            "org:key"⟩])
    ∧ ContextClient.GetOrganization stubGlobals decodeAccountIDs
        ⟨some (fixedAnswer 422 (.obj [("message", .str "invalid iban")]))⟩ stubContext log
      = (.returns (none, none),
          log ++ [⟨"GET", "https://thirdparty.qonto.eu/v2//organizations/org", "org:key"⟩]) :=
  ⟨rfl, rfl, rfl⟩

/-! ## C14: where the credentials come from -/

/-- C14: `GetCredentials` returns the pair attached last to the context by
`WithCredentials`, whatever the context it was attached to (nil included)
and whatever `DefaultCredentials` holds; when the context carries no pair, it
returns the pair stored last by `SetDefaultCredentials`; the error is nil
in both cases. -/
theorem GetCredentials_lookup_order (g : Globals) (parent : Option Context) (ctx : Context)
    (s k : String) :
    GetCredentials g (some (WithCredentials parent s k)) = .returns (s, k, none)
      ∧ (ctx.Value = none →
        GetCredentials (SetDefaultCredentials g s k) (some ctx) = .returns (s, k, none)) := by
  refine ⟨rfl, ?_⟩
  intro h
  unfold GetCredentials
  simp only [h]
  rfl

/-- C14 at concrete inputs: a pair attached over another pair and over
default credentials, and default credentials seen from the background
context. -/
theorem GetCredentials_lookup_order_witness :
    GetCredentials (SetDefaultCredentials stubGlobals "default" "d-key")
        (some (WithCredentials (some (WithCredentials none "outer" "o-key")) "org" "key"))
      = .returns ("org", "key", none)
    ∧ GetCredentials (SetDefaultCredentials (SetDefaultCredentials stubGlobals "first" "f-key")
        "org" "key") (some .background) = .returns ("org", "key", none) :=
  ⟨(GetCredentials_lookup_order (SetDefaultCredentials stubGlobals "default" "d-key")
      (some (WithCredentials none "outer" "o-key")) .background "org" "key").1,
    (GetCredentials_lookup_order (SetDefaultCredentials stubGlobals "first" "f-key") none
      .background "org" "key").2 rfl⟩

/-! ## C15: no credentials at all -/

/-- C15 (code defect): with no pair in the context and `DefaultCredentials`
nil, `GetCredentials` does not return `MissingCredentialsError`: after
`c = DefaultCredentials` the interface holds a typed nil pointer, the test
`c == nil` is false, and `cred.Slug` panics.  The calls of the context client
panic the same way, before any request. -/
theorem GetCredentials_panics_without_credentials (c : ContextClient) (slug iban : String)
    (opt : Option PaginationOptions) (log : List Request) :
    GetCredentials stubGlobals (some .background) = .panics "nil pointer dereference"
      ∧ ContextClient.GetTransactions stubGlobals decodeTransactionID c (some .background)
          slug iban opt log = (.panics "nil pointer dereference", log)
      ∧ ContextClient.GetOrganization stubGlobals decodeAccountIDs c (some .background) log
          = (.panics "nil pointer dereference", log)
      ∧ (ContextIterator.Next stubGlobals decodeTransactionID
          (c.IterTransactionPages slug iban 0) (some .background) log).1
          = .panics "nil pointer dereference" :=
  ⟨rfl, rfl, rfl, rfl⟩

/-! ## Facts about the requests built -/

/-- Whatever the answer, `getJSON` on a URL that `url.Parse` accepts sends
exactly one request: a GET of the URL authorised by `slug:secret`. -/
theorem getJSON_log {α : Type} (c : Client) (u : String) (dec : Json → Except String α)
    (ref : α) (log : List Request) (hu : ∃ parsed, urlParse u = .ok parsed) :
    (c.getJSON u dec ref log).2 = log ++ [⟨"GET", u, c.Slug ++ ":" ++ c.SecretKey⟩] := by
  obtain ⟨parsed, hparsed⟩ := hu
  unfold Client.getJSON
  rw [hparsed]
  simp only
  split
  · rfl
  · split
    · split
      · split <;> rfl
      · rfl
    · split <;> rfl

/-- Whatever happens, `getJSON` sends nothing or the one GET authorised by
`slug:secret`. -/
theorem getJSON_log_cases {α : Type} (c : Client) (u : String) (dec : Json → Except String α)
    (ref : α) (log : List Request) :
    (c.getJSON u dec ref log).2 = log
      ∨ (c.getJSON u dec ref log).2 = log ++ [⟨"GET", u, c.Slug ++ ":" ++ c.SecretKey⟩] := by
  unfold Client.getJSON
  split
  · exact Or.inl rfl
  · right
    simp only
    split
    · rfl
    · split
      · split
        · split <;> rfl
        · rfl
      · split <;> rfl

/-- Whatever happens, `authenticatedGet` sends nothing or one GET of the
backend URL (followed by a slash and the path when there is a path),
authorised by the pair `GetCredentials` resolves. -/
theorem authenticatedGet_log_cases (g : Globals) (c : ContextClient) (ctx : Option Context)
    (path : String) (log : List Request) :
    (c.authenticatedGet g ctx path log).2 = log
      ∨ ∃ s k, GetCredentials g ctx = .returns (s, k, none)
        ∧ (c.authenticatedGet g ctx path log).2
          = log ++ [⟨"GET", if path != "" then BackendURL ++ "/" ++ path else BackendURL,
              s ++ ":" ++ k⟩] := by
  unfold ContextClient.authenticatedGet
  split
  · exact Or.inl rfl
  · exact Or.inl rfl
  · rename_i s k hcred
    simp only
    split
    · exact Or.inl rfl
    · right
      refine ⟨s, k, hcred, ?_⟩
      split
      · rfl
      · split <;> rfl

/-! ## Facts about `url.Values` -/

/-- After `Set`, the key holds the value set. -/
theorem Get_Set_same (q : Values) (k x : String) : Values.Get (Values.Set q k x) k = some x := by
  induction q with
  | nil => simp [Values.Set, Values.Get]
  | cons e rest ih =>
    obtain ⟨k', vs⟩ := e
    unfold Values.Set
    by_cases h : k' = k
    · simp [h, Values.Get]
    · simp [h, Values.Get, ih]

/-- `Set` on a key leaves the other keys alone. -/
theorem Get_Set_other (q : Values) (k k' x : String) (h : k' ≠ k) :
    Values.Get (Values.Set q k' x) k = Values.Get q k := by
  induction q with
  | nil => simp [Values.Set, Values.Get, h]
  | cons e rest ih =>
    obtain ⟨k'', vs⟩ := e
    unfold Values.Set
    by_cases h1 : k'' = k'
    · subst h1
      simp [Values.Get, h]
    · by_cases h2 : k'' = k
      · subst h2
        simp [h1, Values.Get]
      · simp [h1, Values.Get, h2, ih]

/-- `Add` on a key leaves the other keys alone. -/
theorem Get_Add_other (q : Values) (k k' x : String) (h : k' ≠ k) :
    Values.Get (Values.Add q k' x) k = Values.Get q k := by
  induction q with
  | nil => simp [Values.Add, Values.Get, h]
  | cons e rest ih =>
    obtain ⟨k'', vs⟩ := e
    unfold Values.Add
    by_cases h1 : k'' = k'
    · subst h1
      simp [Values.Get, h]
    · by_cases h2 : k'' = k
      · subst h2
        simp [h1, Values.Get]
      · simp [h1, Values.Get, h2, ih]

/-- `setWhen` on a key leaves the other keys alone. -/
theorem Get_setWhen_other (q : Values) (k k' : String) (x : Option String) (h : k' ≠ k) :
    Values.Get (setWhen q k' x) k = Values.Get q k := by
  cases x with
  | none => rfl
  | some x => exact Get_Set_other q k k' x h

/-- After `setWhen`, the key holds the value when there is one. -/
theorem Get_setWhen_same (q : Values) (k : String) (x : Option String)
    (h : Values.Get q k = none) : Values.Get (setWhen q k x) k = x := by
  cases x with
  | none => exact h
  | some x => exact Get_Set_same q k x

/-- Adding the statuses leaves the other keys alone. -/
theorem Get_foldl_status (statuses : List String) (q : Values) (k : String) (h : "status" ≠ k) :
    Values.Get (statuses.foldl (fun q s => Values.Add q "status" s) q) k = Values.Get q k := by
  induction statuses generalizing q with
  | nil => rfl
  | cons s rest ih => rw [List.foldl_cons, ih, Get_Add_other q k "status" s h]

/-- A key that holds a value is a key of an entry with values. -/
theorem mem_of_Get (q : Values) (k x : String) (h : Values.Get q k = some x) :
    ∃ vs, (k, vs) ∈ q ∧ vs ≠ [] := by
  induction q with
  | nil => simp [Values.Get] at h
  | cons e rest ih =>
    obtain ⟨k', vs⟩ := e
    unfold Values.Get at h
    by_cases h1 : k' = k
    · subst h1
      simp only [if_true] at h
      refine ⟨vs, List.mem_cons_self _ _, ?_⟩
      intro hvs
      subst hvs
      simp at h
    · simp only [h1, if_false] at h
      obtain ⟨vs', hmem, hne⟩ := ih h
      exact ⟨vs', List.mem_cons_of_mem _ hmem, hne⟩

/-- Insertion keeps the entries. -/
theorem mem_insertByKey (e f : String × List String) (q : Values) :
    f ∈ insertByKey e q ↔ f = e ∨ f ∈ q := by
  induction q with
  | nil => simp [insertByKey]
  | cons g rest ih =>
    unfold insertByKey
    split
    · simp
    · simp only [List.mem_cons, ih]
      tauto

/-- Sorting keeps the entries. -/
theorem mem_sortByKey (f : String × List String) (q : Values) : f ∈ sortByKey q ↔ f ∈ q := by
  induction q with
  | nil => simp [sortByKey]
  | cons e rest ih => simp [sortByKey, mem_insertByKey, ih]

/-- Joining texts of which one is not empty gives a text that is not
empty. -/
theorem joinAmp_ne_nil (ps : List (List Char)) (h : ∃ p ∈ ps, p ≠ []) : joinAmp ps ≠ [] := by
  induction ps with
  | nil => obtain ⟨p, hp, _⟩ := h; simp at hp
  | cons p rest ih =>
    cases rest with
    | nil =>
      obtain ⟨p', hp', hne⟩ := h
      simp only [List.mem_singleton] at hp'
      subst hp'
      simpa [joinAmp] using hne
    | cons q rest => simp [joinAmp]

/-- The encoded form of a query in which a key holds a value is not
empty. -/
theorem Encode_ne_empty (q : Values) (k x : String) (h : Values.Get q k = some x) :
    Values.Encode q ≠ "" := by
  obtain ⟨vs, hmem, hne⟩ := mem_of_Get q k x h
  intro hE
  have hdata : (Values.Encode q).data = [] := by rw [hE]
  unfold Values.Encode at hdata
  refine joinAmp_ne_nil _ ?_ hdata
  cases vs with
  | nil => exact absurd rfl hne
  | cons y ys =>
    refine ⟨escape k.data ++ '=' :: escape y.data, ?_, by simp⟩
    simp only [List.mem_flatMap, List.mem_map]
    exact ⟨(k, y :: ys), (mem_sortByKey _ _).2 hmem, y, List.mem_cons_self _ _, rfl⟩

/-- The query of the transactions URL holds the slug. -/
theorem transactionsQuery_slug (slug IBAN : String) (options : Option GetTransactionOptions) :
    Values.Get (transactionsQuery slug IBAN options) "slug" = some slug := by
  have h0 : Values.Get (Values.Set (Values.Set [] "slug" slug) "iban" IBAN) "slug" = some slug := by
    rw [Get_Set_other _ _ _ _ (by decide), Get_Set_same]
  cases options with
  | none => exact h0
  | some o =>
    unfold transactionsQuery
    simp only
    rw [Get_setWhen_other _ _ _ _ (by decide), Get_setWhen_other _ _ _ _ (by decide),
      Get_setWhen_other _ _ _ _ (by decide), Get_setWhen_other _ _ _ _ (by decide),
      Get_setWhen_other _ _ _ _ (by decide), Get_setWhen_other _ _ _ _ (by decide),
      Get_setWhen_other _ _ _ _ (by decide), Get_foldl_status _ _ _ (by decide)]
    exact h0

/-- The query of the transactions URL holds `current_page` exactly when the
option is set to a positive value, and then its decimal text. -/
theorem transactionsQuery_current_page (slug IBAN : String)
    (options : Option GetTransactionOptions) :
    Values.Get (transactionsQuery slug IBAN options) "current_page"
      = ((options.bind (·.CurrentPage)).filter (· > 0)).map Itoa := by
  have h0 : Values.Get (Values.Set (Values.Set [] "slug" slug) "iban" IBAN) "current_page"
      = none := by
    rw [Get_Set_other _ _ _ _ (by decide), Get_Set_other _ _ _ _ (by decide)]
    rfl
  cases options with
  | none => exact h0
  | some o =>
    unfold transactionsQuery
    simp only [Option.bind]
    rw [Get_setWhen_other _ _ _ _ (by decide), Get_setWhen_same]
    rw [Get_setWhen_other _ _ _ _ (by decide), Get_setWhen_other _ _ _ _ (by decide),
      Get_setWhen_other _ _ _ _ (by decide), Get_setWhen_other _ _ _ _ (by decide),
      Get_setWhen_other _ _ _ _ (by decide), Get_foldl_status _ _ _ (by decide)]
    exact h0

/-- With a slug and an IBAN, the URL `getTransactionsURL` returns is the
transactions URL, a question mark and the encoded query. -/
theorem getTransactionsURL_eq (slug IBAN : String) (options : Option GetTransactionOptions)
    (hs : slug ≠ "") (hi : IBAN ≠ "") :
    getTransactionsURL slug IBAN options
      = ("https://thirdparty.qonto.eu/v2/transactions?"
          ++ Values.Encode (transactionsQuery slug IBAN options), none) := by
  have hne := Encode_ne_empty _ _ _ (transactionsQuery_slug slug IBAN options)
  have hstr : ∀ q : String, q ≠ "" →
      URL.String ⟨"https://thirdparty.qonto.eu/v2/transactions", false, q, ""⟩
        = "https://thirdparty.qonto.eu/v2/transactions?" ++ q := by
    intro q hq
    unfold URL.String
    simp only [Bool.false_or, bne_iff_ne, ne_eq, hq, not_false_eq_true, if_true]
    apply String.ext
    simp [String.data_append]
  unfold getTransactionsURL
  rw [urlParse_transactions]
  simp only [hs, hi, if_false]
  cases options with
  | none => exact congrArg (fun x => (x, (none : Option Error))) (hstr _ hne)
  | some o => exact congrArg (fun x => (x, (none : Option Error))) (hstr _ hne)

/-- The query of a transactions request of the context client, written
out. -/
theorem Encode_pagination (slug iban : String) (currentPage perPage : Int) :
    Values.Encode ([("slug", [slug]), ("iban", [iban])]
        ++ (if currentPage > 0 then [("current_page", [Itoa currentPage])] else [])
        ++ (if perPage > 0 then [("per_page", [Itoa perPage])] else []))
      = (if currentPage > 0 then "current_page=" ++ Itoa currentPage ++ "&" else "")
        ++ "iban=" ++ QueryEscape iban
        ++ (if perPage > 0 then "&per_page=" ++ Itoa perPage else "")
        ++ "&slug=" ++ QueryEscape slug := by
  have h1 : escape ['i', 'b', 'a', 'n'] = ['i', 'b', 'a', 'n'] := by decide
  have h2 : escape ['s', 'l', 'u', 'g'] = ['s', 'l', 'u', 'g'] := by decide
  have h3 : escape ['p', 'e', 'r', '_', 'p', 'a', 'g', 'e']
      = ['p', 'e', 'r', '_', 'p', 'a', 'g', 'e'] := by decide
  have h4 : escape ['c', 'u', 'r', 'r', 'e', 'n', 't', '_', 'p', 'a', 'g', 'e']
      = ['c', 'u', 'r', 'r', 'e', 'n', 't', '_', 'p', 'a', 'g', 'e'] := by decide
  have h5 : ∀ n : Int, escape (Itoa n).data = (Itoa n).data :=
    fun n => congrArg String.data (QueryEscape_Itoa n)
  by_cases hc : currentPage > 0 <;> by_cases hp : perPage > 0
  all_goals
    simp only [hc, hp, if_true, if_false]
    apply String.ext
    simp [Values.Encode, sortByKey, insertByKey, keyLess, joinAmp, QueryEscape,
      String.data_append, h1, h2, h3, h4, h5]

/-- Without options, `ContextClient.GetTransactions` does what it does with
the options 0 and 0. -/
theorem GetTransactions_no_options {τ : Type} (g : Globals) (decT : Json → Except String τ)
    (c : ContextClient) (ctx : Option Context) (slug iban : String) (log : List Request) :
    c.GetTransactions g decT ctx slug iban none log
      = c.GetTransactions g decT ctx slug iban (some ⟨0, 0⟩) log := by
  rfl

/-! ## C16: the request of `ContextClient.GetTransactions` -/

/-- C16: with credentials at hand, `ContextClient.GetTransactions` returns
after sending one GET of the backend URL, a slash and the path
`transactions?` followed by a query that is a function of the slug, the IBAN
and the options only: it always holds `iban` and `slug`; without options, or
with both options 0, it holds nothing else; `current_page` and `per_page`
are there each exactly when its option is positive, with the decimal text
of the option. -/
theorem GetTransactions_request_shape {τ : Type} (g : Globals) (decT : Json → Except String τ)
    (c : ContextClient) (ctx : Option Context) (slug iban : String) (currentPage perPage : Int)
    (log : List Request) (s k : String) (hcred : GetCredentials g ctx = .returns (s, k, none)) :
    (∃ r, c.GetTransactions g decT ctx slug iban none log
        = (.returns r, log ++ [⟨"GET", BackendURL ++ "/" ++ ("transactions?"
            ++ ("iban=" ++ QueryEscape iban ++ "&slug=" ++ QueryEscape slug)), s ++ ":" ++ k⟩]))
      ∧ (∃ r, c.GetTransactions g decT ctx slug iban (some ⟨0, 0⟩) log
        = (.returns r, log ++ [⟨"GET", BackendURL ++ "/" ++ ("transactions?"
            ++ ("iban=" ++ QueryEscape iban ++ "&slug=" ++ QueryEscape slug)), s ++ ":" ++ k⟩]))
      ∧ (∃ r, c.GetTransactions g decT ctx slug iban (some ⟨currentPage, perPage⟩) log
        = (.returns r, log ++ [⟨"GET", BackendURL ++ "/" ++ ("transactions?"
            ++ ((if currentPage > 0 then "current_page=" ++ Itoa currentPage ++ "&" else "")
              ++ "iban=" ++ QueryEscape iban
              ++ (if perPage > 0 then "&per_page=" ++ Itoa perPage else "")
              ++ "&slug=" ++ QueryEscape slug)), s ++ ":" ++ k⟩])) := by
  have hurl : ∀ q : String, BackendURL ++ "/" ++ ("transactions?" ++ q)
      = "https://thirdparty.qonto.eu/v2//transactions?" ++ q := by
    intro q
    apply String.ext
    simp [BackendURL, String.data_append]
  have main : ∀ cp pp : Int, ∃ r, c.GetTransactions g decT ctx slug iban (some ⟨cp, pp⟩) log
        = (.returns r, log ++ [⟨"GET", BackendURL ++ "/" ++ ("transactions?"
            ++ ((if cp > 0 then "current_page=" ++ Itoa cp ++ "&" else "")
              ++ "iban=" ++ QueryEscape iban
              ++ (if pp > 0 then "&per_page=" ++ Itoa pp else "")
              ++ "&slug=" ++ QueryEscape slug)), s ++ ":" ++ k⟩]) := by
    intro cp pp
    obtain ⟨r, hr⟩ := GetTransactions_sends_one g decT c ctx slug iban cp pp log s k hcred
    rw [Encode_pagination] at hr
    rw [hurl]
    exact ⟨r, hr⟩
  have zero : ∃ r, c.GetTransactions g decT ctx slug iban (some ⟨0, 0⟩) log
        = (.returns r, log ++ [⟨"GET", BackendURL ++ "/" ++ ("transactions?"
            ++ ("iban=" ++ QueryEscape iban ++ "&slug=" ++ QueryEscape slug)), s ++ ":" ++ k⟩]) := by
    obtain ⟨r, hr⟩ := main 0 0
    refine ⟨r, ?_⟩
    rw [hr]
    have : ("" ++ "iban=" ++ QueryEscape iban ++ "" ++ "&slug=" ++ QueryEscape slug)
        = ("iban=" ++ QueryEscape iban ++ "&slug=" ++ QueryEscape slug) := by
      apply String.ext
      simp [String.data_append]
    simp only [gt_iff_lt, lt_self_iff_false, if_false, this]
  refine ⟨?_, zero, main currentPage perPage⟩
  rw [GetTransactions_no_options]
  exact zero

/-- C16 at concrete inputs: no options, and page 3 with 25 items per
page. -/
theorem GetTransactions_request_shape_witness :
    (∃ r, ContextClient.GetTransactions stubGlobals decodeTransactionID ⟨some threePages⟩
        stubContext "acc-1" "FR76" none []
        = (.returns r,
            [⟨"GET", "https://thirdparty.qonto.eu/v2//transactions?iban=FR76&slug=acc-1",
              "org:key"⟩]))
      ∧ (∃ r, ContextClient.GetTransactions stubGlobals decodeTransactionID ⟨some threePages⟩
        stubContext "acc-1" "FR76" (some ⟨3, 25⟩) []
        = (.returns r,
            [⟨"GET", "https://thirdparty.qonto.eu/v2//transactions"
                ++ "?current_page=3&iban=FR76&per_page=25&slug=acc-1", "org:key"⟩])) :=
  ⟨(GetTransactions_request_shape stubGlobals decodeTransactionID ⟨some threePages⟩ stubContext
      "acc-1" "FR76" 3 25 [] "org" "key" rfl).1,
    (GetTransactions_request_shape stubGlobals decodeTransactionID ⟨some threePages⟩ stubContext
      "acc-1" "FR76" 3 25 [] "org" "key" rfl).2.2⟩

/-- With a slug and an IBAN, `GetTransactionsContext` sends exactly one
request, whatever the answer: a GET of the URL `getTransactionsURL`
builds. -/
theorem GetTransactionsContext_log {τ : Type} (decT : Json → Except String τ) (c : Client)
    (bankAccountID IBAN : String) (options : Option GetTransactionOptions)
    (hs : bankAccountID ≠ "") (hi : IBAN ≠ "") (log : List Request) :
    (c.GetTransactionsContext decT bankAccountID IBAN options log).2
      = log ++ [⟨"GET", (getTransactionsURL bankAccountID IBAN options).1,
          c.Slug ++ ":" ++ c.SecretKey⟩] := by
  obtain ⟨u, hu, hprint⟩ := getTransactionsURL_ok bankAccountID IBAN options hs hi
  unfold Client.GetTransactionsContext
  rw [hu]
  exact getJSON_log c u _ none log hprint

/-- A turn of the loop of `GetAllTransactionsContext` begins with the
request for the current page: every result of the loop holds it right after
the requests sent before. -/
theorem GetAllTransactionsContext_loop_first_request {τ : Type}
    (decT : Json → Except String τ) (c : Client) (bankAccountID IBAN : String)
    (options : Option GetTransactionOptions) (hs : bankAccountID ≠ "") (hi : IBAN ≠ "")
    (fuel : Nat) :
    ∀ (currentPage : Int) (transactions : List (Option τ)) (log : List Request)
      (r : Outcome (List (Option τ) × Option Error) × List Request),
      Client.GetAllTransactionsContext.loop decT c bankAccountID IBAN options (fuel + 1)
          currentPage transactions log = some r →
        ∃ rest, r.2 = log ++ pageRequest c bankAccountID IBAN options currentPage :: rest := by
  induction fuel with
  | zero =>
    intro cur acc log r h
    have hlog := GetTransactionsContext_log decT c bankAccountID IBAN
      (some { options.getD GetTransactionOptions.zero with CurrentPage := some cur }) hs hi log
    unfold Client.GetAllTransactionsContext.loop at h
    simp only at h
    split at h
    · rename_i heq
      rw [heq] at hlog
      simp only [Option.some.injEq] at h
      exact ⟨[], by rw [← h]; simpa [pageRequest] using hlog⟩
    · rename_i heq
      rw [heq] at hlog
      simp only [Option.some.injEq] at h
      exact ⟨[], by rw [← h]; simpa [pageRequest] using hlog⟩
    · rename_i heq
      rw [heq] at hlog
      split at h
      · simp only [Option.some.injEq] at h
        exact ⟨[], by rw [← h]; simpa [pageRequest] using hlog⟩
      · simp [Client.GetAllTransactionsContext.loop] at h
  | succ n ih =>
    intro cur acc log r h
    have hlog := GetTransactionsContext_log decT c bankAccountID IBAN
      (some { options.getD GetTransactionOptions.zero with CurrentPage := some cur }) hs hi log
    unfold Client.GetAllTransactionsContext.loop at h
    simp only at h
    split at h
    · rename_i heq
      rw [heq] at hlog
      simp only [Option.some.injEq] at h
      exact ⟨[], by rw [← h]; simpa [pageRequest] using hlog⟩
    · rename_i heq
      rw [heq] at hlog
      simp only [Option.some.injEq] at h
      exact ⟨[], by rw [← h]; simpa [pageRequest] using hlog⟩
    · rename_i heq
      rw [heq] at hlog
      split at h
      · simp only [Option.some.injEq] at h
        exact ⟨[], by rw [← h]; simpa [pageRequest] using hlog⟩
      · obtain ⟨rest, hrest⟩ := ih _ _ _ r h
        simp only at hlog
        rename_i next _
        refine ⟨pageRequest c bankAccountID IBAN options next :: rest, ?_⟩
        rw [hrest, hlog]
        simp [pageRequest]

/-! ## C17: the pages `GetAllTransactionsContext` asks for -/

/-- C17: with a slug and an IBAN, `GetAllTransactionsContext` enters its loop
at page 1 when the options are nil or `CurrentPage` is unset, and at
`*options.CurrentPage` when it is set.  Each turn of the loop, at the page
number `cur`, sends one request, the GET of the transactions URL with the
caller's options and `CurrentPage` overwritten by `cur`; its query holds
`current_page`, as the decimal text of `cur`, exactly when `cur` is positive.
Every result of the loop holds that request right after those sent before,
and after a page whose `next_page` is `n` the loop goes on at the page number
`n`.  The requests are sent: when the pages `pages` are served as a chain
from `cur`, each under the number its predecessor gives as `next_page`, and
the fetch of the page the last of them points to ends the run (it fails, or
gives no page, or gives a page without `next_page`), the loop returns once it
is allowed one turn per fetch, and the requests it has sent are exactly the
request for `cur`, the requests for the `next_page` of each page of the chain
in turn, one per page. -/
theorem GetAllTransactionsContext_pages_asked {τ : Type} (decT : Json → Except String τ)
    (c : Client) (bankAccountID IBAN : String) (options : Option GetTransactionOptions)
    (hs : bankAccountID ≠ "") (hi : IBAN ≠ "") (fuel : Nat) (cur : Int)
    (transactions : List (Option τ)) (log : List Request) :
    (options.bind (·.CurrentPage) = none →
        c.GetAllTransactionsContext decT fuel bankAccountID IBAN options log
          = Client.GetAllTransactionsContext.loop decT c bankAccountID IBAN options fuel 1 []
              log)
      ∧ (∀ p, options.bind (·.CurrentPage) = some p →
        c.GetAllTransactionsContext decT fuel bankAccountID IBAN options log
          = Client.GetAllTransactionsContext.loop decT c bankAccountID IBAN options fuel p []
              log)
      ∧ (c.GetTransactionsContext decT bankAccountID IBAN
            (some { options.getD GetTransactionOptions.zero with CurrentPage := some cur })
            log).2
          = log ++ [pageRequest c bankAccountID IBAN options cur]
      ∧ (pageRequest c bankAccountID IBAN options cur).URL
          = "https://thirdparty.qonto.eu/v2/transactions?"
            ++ Values.Encode (transactionsQuery bankAccountID IBAN
              (some { options.getD GetTransactionOptions.zero with CurrentPage := some cur }))
      ∧ Values.Get (transactionsQuery bankAccountID IBAN
            (some { options.getD GetTransactionOptions.zero with CurrentPage := some cur }))
            "current_page"
          = (if cur > 0 then some (Itoa cur) else none)
      ∧ (∀ r, Client.GetAllTransactionsContext.loop decT c bankAccountID IBAN options
            (fuel + 1) cur transactions log = some r →
          ∃ rest, r.2 = log ++ pageRequest c bankAccountID IBAN options cur :: rest)
      ∧ (∀ p n, Serves decT c bankAccountID IBAN options cur p → p.Meta.NextPage = some n →
          Client.GetAllTransactionsContext.loop decT c bankAccountID IBAN options (fuel + 1)
              cur transactions log
            = Client.GetAllTransactionsContext.loop decT c bankAccountID IBAN options fuel n
                (transactions ++ p.Transactions)
                (log ++ [pageRequest c bankAccountID IBAN options cur]))
      ∧ (∀ pages : List (TransactionsPage τ),
          Linked decT c bankAccountID IBAN options cur pages →
          (∀ p, (c.GetTransactionsContext decT bankAccountID IBAN
              (some { options.getD GetTransactionOptions.zero with
                CurrentPage := some (afterChain cur pages) })
              (log ++ chainRequests c bankAccountID IBAN options cur pages)).1 = (some p, none) →
            p.Meta.NextPage = none) →
          ∃ out, Client.GetAllTransactionsContext.loop decT c bankAccountID IBAN options
              (pages.length + (fuel + 1)) cur transactions log
            = some (out, log ++ (chainRequests c bankAccountID IBAN options cur pages
                ++ [pageRequest c bankAccountID IBAN options (afterChain cur pages)]))) := by
  refine ⟨?_, ?_, ?_, ?_, ?_, ?_, ?_, ?_⟩
  · intro h
    unfold Client.GetAllTransactionsContext
    simp only [h, Option.getD_none]
  · intro p h
    unfold Client.GetAllTransactionsContext
    simp only [h, Option.getD_some]
  · rw [GetTransactionsContext_log decT c bankAccountID IBAN _ hs hi log]
    rfl
  · unfold pageRequest
    simp only
    rw [getTransactionsURL_eq _ _ _ hs hi]
  · rw [transactionsQuery_current_page]
    by_cases h : cur > 0 <;> simp [Option.filter, h]
  · exact GetAllTransactionsContext_loop_first_request decT c bankAccountID IBAN options hs hi
      fuel cur transactions log
  · intro p n hserved hnext
    conv => lhs; unfold Client.GetAllTransactionsContext.loop
    simp only [GetTransactionsContext_served decT c bankAccountID IBAN options hs hi cur p
      hserved log, hnext]
  · intro pages hlinked hend
    rw [GetAllTransactionsContext_loop_linked decT c bankAccountID IBAN options hs hi pages cur
      hlinked]
    have hlog := GetTransactionsContext_log decT c bankAccountID IBAN
      (some { options.getD GetTransactionOptions.zero with
        CurrentPage := some (afterChain cur pages) }) hs hi
      (log ++ chainRequests c bankAccountID IBAN options cur pages)
    have hl : ∀ log', (c.GetTransactionsContext decT bankAccountID IBAN
        (some { options.getD GetTransactionOptions.zero with
          CurrentPage := some (afterChain cur pages) })
        (log ++ chainRequests c bankAccountID IBAN options cur pages)).2 = log' →
        log' = log ++ (chainRequests c bankAccountID IBAN options cur pages
          ++ [pageRequest c bankAccountID IBAN options (afterChain cur pages)]) := by
      intro log' h
      rw [← h, hlog, List.append_assoc]
      rfl
    unfold Client.GetAllTransactionsContext.loop
    simp only
    split
    · rename_i heq
      exact ⟨_, congrArg (fun l => some (_, l)) (hl _ (congrArg Prod.snd heq))⟩
    · rename_i heq
      exact ⟨_, congrArg (fun l => some (_, l)) (hl _ (congrArg Prod.snd heq))⟩
    · rename_i heq
      rw [hend _ (congrArg Prod.fst heq)]
      exact ⟨_, congrArg (fun l => some (_, l)) (hl _ (congrArg Prod.snd heq))⟩

/-- C17 at a concrete input: against the three-page stub and without
options, the first request asks for page 1, after page 1, whose `next_page`
is 2, the loop goes on at page 2, and the whole run sends the requests for
the pages 1, 2 and 3. -/
theorem GetAllTransactionsContext_pages_asked_witness :
    (pageRequest ⟨threePages, "org", "key"⟩ "acc-1" "FR76" none 1).URL
        = "https://thirdparty.qonto.eu/v2/transactions?current_page=1&iban=FR76&slug=acc-1"
      ∧ Client.GetAllTransactionsContext decodeTransactionID 3 ⟨threePages, "org", "key"⟩
          "acc-1" "FR76" none []
        = Client.GetAllTransactionsContext.loop decodeTransactionID ⟨threePages, "org", "key"⟩
            "acc-1" "FR76" none 3 1 [] []
      ∧ Client.GetAllTransactionsContext.loop decodeTransactionID ⟨threePages, "org", "key"⟩
          "acc-1" "FR76" none 3 1 [] []
        = Client.GetAllTransactionsContext.loop decodeTransactionID ⟨threePages, "org", "key"⟩
            "acc-1" "FR76" none 2 2 [some "a", some "b"]
            [⟨"GET",
              "https://thirdparty.qonto.eu/v2/transactions?current_page=1&iban=FR76&slug=acc-1",
              "org:key"⟩]
      ∧ ∃ out, Client.GetAllTransactionsContext.loop decodeTransactionID
          ⟨threePages, "org", "key"⟩ "acc-1" "FR76" none 3 1 [] []
        = some (out,
            [⟨"GET",
              "https://thirdparty.qonto.eu/v2/transactions?current_page=1&iban=FR76&slug=acc-1",
              "org:key"⟩,
            ⟨"GET",
              "https://thirdparty.qonto.eu/v2/transactions?current_page=2&iban=FR76&slug=acc-1",
              "org:key"⟩,
            ⟨"GET",
              "https://thirdparty.qonto.eu/v2/transactions?current_page=3&iban=FR76&slug=acc-1",
              "org:key"⟩]) :=
  ⟨(GetAllTransactionsContext_pages_asked decodeTransactionID ⟨threePages, "org", "key"⟩
      "acc-1" "FR76" none (by decide) (by decide) 2 1 [] []).2.2.2.1,
    (GetAllTransactionsContext_pages_asked decodeTransactionID ⟨threePages, "org", "key"⟩
      "acc-1" "FR76" none (by decide) (by decide) 3 1 [] []).1 rfl,
    (GetAllTransactionsContext_pages_asked decodeTransactionID ⟨threePages, "org", "key"⟩
      "acc-1" "FR76" none (by decide) (by decide) 2 1 [] []).2.2.2.2.2.2.1
      ⟨[some "a", some "b"], ⟨1, some 2, none, 3, 6, 2⟩⟩ 2
      (fun _ => ⟨200, stubPageJson ["a", "b"] 1 (.int 2), rfl, by decide, rfl⟩) rfl,
    (GetAllTransactionsContext_pages_asked decodeTransactionID ⟨threePages, "org", "key"⟩
      "acc-1" "FR76" none (by decide) (by decide) 0 1 [] []).2.2.2.2.2.2.2
      [⟨[some "a", some "b"], ⟨1, some 2, none, 3, 6, 2⟩⟩,
        ⟨[some "c", some "d"], ⟨2, some 3, none, 3, 6, 2⟩⟩]
      ⟨fun _ => ⟨200, stubPageJson ["a", "b"] 1 (.int 2), rfl, by decide, rfl⟩, 2, rfl,
        fun _ => ⟨200, stubPageJson ["c", "d"] 2 (.int 3), rfl, by decide, rfl⟩, 3, rfl, trivial⟩
      (fun p h => by
        have h2 : ((some ⟨[some "e", some "f"], ⟨3, none, none, 3, 6, 2⟩⟩ :
            Option (TransactionsPage String)), (none : Option Error)) = (some p, none) := h
        cases h2
        rfl)⟩

/-! ## C18: downloading an attachment -/

/-- C18 (as stated, refuted): for an attachment whose URL is not empty but
does not parse (here a line feed), `DownloadAttachmentContext` sends no
request at all: the error of `http.NewRequestWithContext` is dropped and
`c.h.Do` is called with the nil request. -/
theorem DownloadAttachmentContext_bad_url_no_request :
    Client.DownloadAttachmentContext ⟨threePages, "org", "key"⟩ (some .background)
        (some (stubAttachment "\n")) []
      = (.panics "nil pointer dereference", []) := by
  rfl

/-- C18 (amended): `DownloadAttachmentContext` returns `ErrAttachementNeeded`
for a nil attachment and `ErrMissingAttachmentURL` for an attachment with an
empty URL, in both cases with nil data and without a request; for an
attachment whose URL is not empty and a context with which
`http.NewRequestWithContext` accepts that URL (the context is not nil and
`url.Parse` accepts the URL) it returns after exactly one request, a GET of
that URL. -/
theorem DownloadAttachmentContext_requests (c : Client) (ctx : Option Context) (a : Attachment)
    (log : List Request) :
    c.DownloadAttachmentContext ctx none log = (.returns (none, some .ErrAttachementNeeded), log)
      ∧ (a.URL = "" →
        c.DownloadAttachmentContext ctx (some a) log
          = (.returns (none, some .ErrMissingAttachmentURL), log))
      ∧ (a.URL ≠ "" → (∃ req, NewRequestWithContext ctx a.URL = .ok req) →
        ∃ r, c.DownloadAttachmentContext ctx (some a) log
          = (.returns r, log ++ [⟨"GET", a.URL, ""⟩]))
      ∧ ((∃ req, NewRequestWithContext ctx a.URL = .ok req)
        ↔ ctx ≠ none ∧ ∃ parsed, urlParse a.URL = .ok parsed) := by
  refine ⟨rfl, ?_, ?_, ?_⟩
  · intro h
    unfold Client.DownloadAttachmentContext
    simp only [h, if_true]
  · intro h hreq
    obtain ⟨req, hreq⟩ := hreq
    have hr : req = ⟨"GET", a.URL, ""⟩ := by
      unfold NewRequestWithContext at hreq
      cases ctx with
      | none => cases hreq
      | some x =>
        simp only at hreq
        split at hreq
        · cases hreq
        · cases hreq; rfl
    subst hr
    unfold Client.DownloadAttachmentContext
    simp only [h, if_false, hreq]
    cases hdo : c.h.Do log ⟨"GET", a.URL, ""⟩ with
    | error e => exact ⟨_, rfl⟩
    | ok res =>
      cases hb : res.Body with
      | json v => simp only [hb]; exact ⟨_, rfl⟩
      | invalid => simp only [hb]; exact ⟨_, rfl⟩
      | unreadable => simp only [hb]; exact ⟨_, rfl⟩
  · unfold NewRequestWithContext
    cases ctx with
    | none =>
      constructor
      · rintro ⟨req, h⟩; cases h
      · rintro ⟨h, _⟩; exact absurd rfl h
    | some x =>
      simp only
      constructor
      · rintro ⟨req, h⟩
        refine ⟨by simp, ?_⟩
        split at h
        · cases h
        · exact ⟨_, by assumption⟩
      · rintro ⟨_, parsed, hp⟩
        rw [hp]
        exact ⟨_, rfl⟩

/-- C18 (amended) at concrete inputs: an attachment without URL, and one
with a download URL. -/
theorem DownloadAttachmentContext_requests_witness :
    Client.DownloadAttachmentContext ⟨fixedBody 200 .invalid, "org", "key"⟩ (some .background)
        (some (stubAttachment "")) []
      = (.returns (none, some .ErrMissingAttachmentURL), [])
    ∧ ∃ r, Client.DownloadAttachmentContext ⟨fixedBody 200 .invalid, "org", "key"⟩
        (some .background) (some (stubAttachment "https://files.qonto.eu/att-1")) []
      = (.returns r, [⟨"GET", "https://files.qonto.eu/att-1", ""⟩]) :=
  ⟨(DownloadAttachmentContext_requests ⟨fixedBody 200 .invalid, "org", "key"⟩ (some .background)
      (stubAttachment "") []).2.1 rfl,
    (DownloadAttachmentContext_requests ⟨fixedBody 200 .invalid, "org", "key"⟩ (some .background)
      (stubAttachment "https://files.qonto.eu/att-1") []).2.2.1 (by decide) ⟨_, rfl⟩⟩

/-! ## C19: the calls that take a bank account -/

/-- C19: called with a nil bank account, `GetTransactionsForAccount`,
`GetTransactionsForAccountContext`, `GetAllTransactionsForAccount` and
`GetAllTransactionsForAccountContext` return `ErrBankAccountNeeded` with a
nil result and send no request; called with an account, they return what
the slug/IBAN variant returns for its slug, its IBAN and the same options. -/
theorem ForAccount_calls {τ : Type} (decT : Json → Except String τ) (c : Client)
    (ba : BankAccount) (options : Option GetTransactionOptions) (fuel : Nat)
    (log : List Request) :
    (c.GetTransactionsForAccount decT none options log
        = ((none, some .ErrBankAccountNeeded), log)
      ∧ c.GetTransactionsForAccountContext decT none options log
        = ((none, some .ErrBankAccountNeeded), log)
      ∧ c.GetAllTransactionsForAccount decT fuel none options log
        = some (.returns ([], some .ErrBankAccountNeeded), log)
      ∧ c.GetAllTransactionsForAccountContext decT fuel none options log
        = some (.returns ([], some .ErrBankAccountNeeded), log))
    ∧ (c.GetTransactionsForAccount decT (some ba) options log
        = c.GetTransactions decT ba.Slug ba.IBAN options log
      ∧ c.GetTransactionsForAccountContext decT (some ba) options log
        = c.GetTransactionsContext decT ba.Slug ba.IBAN options log
      ∧ c.GetAllTransactionsForAccount decT fuel (some ba) options log
        = c.GetAllTransactions decT fuel ba.Slug ba.IBAN options log
      ∧ c.GetAllTransactionsForAccountContext decT fuel (some ba) options log
        = c.GetAllTransactionsContext decT fuel ba.Slug ba.IBAN options log) :=
  ⟨⟨rfl, rfl, rfl, rfl⟩, ⟨rfl, rfl, rfl, rfl⟩⟩

/-! ## C20: the authentication of the requests -/

/-- C20: every request `getJSON` sends is a GET of the URL asked for whose
`Authorization` header is the slug of the client, a colon and its secret key,
and the call sends at most that one request; every request `authenticatedGet`
sends is a GET whose `Authorization` header is the slug, a colon and the
secret that `GetCredentials` resolves for the context, and the call sends at
most that one request.  On a URL that `url.Parse` accepts both do send the
request (`authenticatedGet` once the credentials are resolved). -/
theorem requests_are_authorised {α : Type} (c : Client) (u : String)
    (dec : Json → Except String α) (ref : α) (g : Globals) (cc : ContextClient)
    (ctx : Option Context) (path : String) (log : List Request) :
    ((c.getJSON u dec ref log).2 = log
        ∨ (c.getJSON u dec ref log).2 = log ++ [⟨"GET", u, c.Slug ++ ":" ++ c.SecretKey⟩])
      ∧ ((∃ parsed, urlParse u = .ok parsed) →
        (c.getJSON u dec ref log).2 = log ++ [⟨"GET", u, c.Slug ++ ":" ++ c.SecretKey⟩])
      ∧ ((cc.authenticatedGet g ctx path log).2 = log
        ∨ ∃ s k, GetCredentials g ctx = .returns (s, k, none)
          ∧ (cc.authenticatedGet g ctx path log).2
            = log ++ [⟨"GET", if path != "" then BackendURL ++ "/" ++ path else BackendURL,
                s ++ ":" ++ k⟩])
      ∧ (∀ s k, GetCredentials g ctx = .returns (s, k, none) → path ≠ "" →
        (∃ parsed, urlParse (BackendURL ++ "/" ++ path) = .ok parsed) →
        ∃ r, cc.authenticatedGet g ctx path log
          = (.returns r, log ++ [⟨"GET", BackendURL ++ "/" ++ path, s ++ ":" ++ k⟩])) :=
  ⟨getJSON_log_cases c u dec ref log, getJSON_log c u dec ref log,
    authenticatedGet_log_cases g cc ctx path log,
    fun s k hcred hpath hprint => authenticatedGet_sends_one g cc ctx path log s k hcred hpath
      hprint⟩

/-- C20 at concrete inputs: the request of `getJSON` for the labels URL by
the client with slug `org` and secret key `key`, and the request of
`authenticatedGet` for an organization with the same pair in the context. -/
theorem requests_are_authorised_witness :
    (Client.getJSON ⟨threePages, "org", "key"⟩ "https://thirdparty.qonto.eu/v2/labels"
        decodeLabelsPage none []).2
      = [⟨"GET", "https://thirdparty.qonto.eu/v2/labels", "org:key"⟩]
    ∧ ∃ r, ContextClient.authenticatedGet stubGlobals ⟨some threePages⟩ stubContext
        "organizations/org" []
      = (.returns r, [⟨"GET", "https://thirdparty.qonto.eu/v2//organizations/org", "org:key"⟩]) :=
  ⟨(requests_are_authorised ⟨threePages, "org", "key"⟩ "https://thirdparty.qonto.eu/v2/labels"
      decodeLabelsPage none stubGlobals ⟨none⟩ none "" []).2.1 ⟨_, rfl⟩,
    (requests_are_authorised ⟨threePages, "org", "key"⟩ "https://thirdparty.qonto.eu/v2/labels"
      decodeLabelsPage none stubGlobals ⟨some threePages⟩ stubContext "organizations/org"
      []).2.2.2 "org" "key" rfl (by decide) ⟨_, rfl⟩⟩

/-! ## C23: the URL `authenticatedGet` sends its request to -/

/-- C23 (code defect): `BackendURL` already ends with a slash and
`authenticatedGet` adds one more before the path, so the request goes to
`https://thirdparty.qonto.eu/v2//` followed by the path: two slashes, an
empty path segment.  Whatever happens, `authenticatedGet` sends nothing or
one GET of that URL (of `https://thirdparty.qonto.eu/v2/` for the empty
path). -/
theorem authenticatedGet_joins_with_two_slashes (g : Globals) (c : ContextClient)
    (ctx : Option Context) (path : String) (log : List Request) :
    ((c.authenticatedGet g ctx path log).2 = log
      ∨ ∃ s k, (c.authenticatedGet g ctx path log).2
          = log ++ [⟨"GET",
              if path = "" then "https://thirdparty.qonto.eu/v2/"
              else "https://thirdparty.qonto.eu/v2//" ++ path,
              s ++ ":" ++ k⟩])
    ∧ (ContextClient.authenticatedGet stubGlobals ⟨some threePages⟩ stubContext
        "transactions?iban=FR76&slug=acc-1" log).2
      = log ++ [⟨"GET", "https://thirdparty.qonto.eu/v2//transactions?iban=FR76&slug=acc-1",
          "org:key"⟩]
    ∧ (ContextClient.authenticatedGet stubGlobals ⟨some threePages⟩ stubContext "" log).2
      = log ++ [⟨"GET", "https://thirdparty.qonto.eu/v2/", "org:key"⟩] := by
  refine ⟨?_, rfl, rfl⟩
  rcases authenticatedGet_log_cases g c ctx path log with h | ⟨s, k, _, h⟩
  · exact Or.inl h
  · right
    refine ⟨s, k, ?_⟩
    rw [h]
    by_cases hp : path = ""
    · subst hp
      rfl
    · have hu : BackendURL ++ "/" ++ path = "https://thirdparty.qonto.eu/v2//" ++ path := by
        apply String.ext
        simp [BackendURL, String.data_append]
      simp only [bne_iff_ne, ne_eq, hp, not_false_eq_true, if_true, if_false, hu]

/-! ## C26: `Next` and a page without meta-data -/

/-- C26 (code defect): `Next` reads `m.NextPage` without testing `m`.  For a
body that is a JSON object without a `meta` key, or with `"meta": null`,
`GetTransactions` returns a nil meta-data with a nil error, and `Next`
panics on the nil pointer; the iterator is left as it was. -/
theorem Next_panics_without_meta (log : List Request) :
    ContextClient.GetTransactions stubGlobals decodeTransactionID
        ⟨some (fixedAnswer 200 (.obj [("transactions", .arr [stubItem "a"])]))⟩ stubContext
        "acc-1" "FR76" (some ⟨0, 2⟩) log
      = (.returns ([some "a"], none, none),
          log ++ [⟨"GET", "https://thirdparty.qonto.eu/v2//transactions?iban=FR76&per_page=2&slug=acc-1",
            "org:key"⟩])
    ∧ ContextIterator.Next stubGlobals decodeTransactionID
        (ContextClient.IterTransactionPages
          ⟨some (fixedAnswer 200 (.obj [("transactions", .arr [stubItem "a"])]))⟩
          "acc-1" "FR76" 2) stubContext log
      = (.panics "nil pointer dereference",
          ContextClient.IterTransactionPages
            ⟨some (fixedAnswer 200 (.obj [("transactions", .arr [stubItem "a"])]))⟩
            "acc-1" "FR76" 2,
          log ++ [⟨"GET", "https://thirdparty.qonto.eu/v2//transactions?iban=FR76&per_page=2&slug=acc-1",
            "org:key"⟩])
    ∧ ContextIterator.Next stubGlobals decodeTransactionID
        (ContextClient.IterTransactionPages
          ⟨some (fixedAnswer 200 (.obj [("transactions", .arr [stubItem "a"]), ("meta", .null)]))⟩
          "acc-1" "FR76" 2) stubContext log
      = (.panics "nil pointer dereference",
          ContextClient.IterTransactionPages
            ⟨some (fixedAnswer 200 (.obj [("transactions", .arr [stubItem "a"]), ("meta", .null)]))⟩
            "acc-1" "FR76" 2,
          log ++ [⟨"GET", "https://thirdparty.qonto.eu/v2//transactions?iban=FR76&per_page=2&slug=acc-1",
            "org:key"⟩]) :=
  ⟨rfl, rfl, rfl⟩

/-! ## C27: `Next` after a failed fetch -/

/-- The error of `GetCredentials` is always nil: the only branch that
returns `MissingCredentialsError` is behind a test that cannot succeed. -/
theorem GetCredentials_error_nil (g : Globals) (ctx : Option Context) (s k : String)
    (e : Option Error) (h : GetCredentials g ctx = .returns (s, k, e)) : e = none := by
  unfold GetCredentials at h
  cases ctx with
  | none => simp at h
  | some ctx =>
    simp only at h
    cases hv : ctx.Value with
    | some cred =>
      simp only [hv] at h
      injection h with h
      simp only [Prod.mk.injEq] at h
      exact h.2.2.symm
    | none =>
      simp only [hv] at h
      cases hd : g.DefaultCredentials with
      | none => simp [hd] at h
      | some cred =>
        simp only [hd] at h
        injection h with h
        simp only [Prod.mk.injEq] at h
        exact h.2.2.symm

/-- When `authenticatedGet` returns, the credentials were resolved, and its
error is nil or comes from the transport or from reading the body. -/
theorem authenticatedGet_returns (g : Globals) (c : ContextClient) (ctx : Option Context)
    (path : String) (log log' : List Request) (buf : Body) (err : Option Error)
    (h : c.authenticatedGet g ctx path log = (.returns (buf, err), log')) :
    (∃ s k, GetCredentials g ctx = .returns (s, k, none))
      ∧ (err = none ∨ ∃ e, err = some (.library e)) := by
  unfold ContextClient.authenticatedGet at h
  split at h
  · simp at h
  · rename_i e hc
    have := GetCredentials_error_nil g ctx _ _ _ hc
    simp at this
  · rename_i s k hc
    refine ⟨⟨s, k, hc⟩, ?_⟩
    simp only at h
    split at h
    · simp at h
    · split at h
      · simp only [Prod.mk.injEq, Outcome.returns.injEq] at h
        exact Or.inr ⟨_, h.1.2.symm⟩
      · split at h
        · simp only [Prod.mk.injEq, Outcome.returns.injEq] at h
          exact Or.inr ⟨_, h.1.2.symm⟩
        · simp only [Prod.mk.injEq, Outcome.returns.injEq] at h
          exact Or.inl h.1.2.symm

/-- An error returned by `ContextClient.GetTransactions` comes from the
transport, from reading the body or from `json.Unmarshal`; the credentials
were resolved. -/
theorem GetTransactions_error_library {τ : Type} (g : Globals) (decT : Json → Except String τ)
    (c : ContextClient) (ctx : Option Context) (slug iban : String)
    (opt : Option PaginationOptions) (log log' : List Request) (t : List (Option τ))
    (m : Option ResponseMeta) (err : Error)
    (h : c.GetTransactions g decT ctx slug iban opt log = (.returns (t, m, some err), log')) :
    (∃ e, err = .library e) ∧ ∃ s k, GetCredentials g ctx = .returns (s, k, none) := by
  unfold ContextClient.GetTransactions at h
  simp only at h
  split at h
  · simp at h
  · rename_i buf err' log'' hget
    simp only [Prod.mk.injEq, Outcome.returns.injEq, Option.some.injEq] at h
    obtain ⟨⟨-, -, rfl⟩, -⟩ := h
    obtain ⟨hc, he⟩ := authenticatedGet_returns g c ctx _ log _ _ _ hget
    refine ⟨?_, hc⟩
    rcases he with he | ⟨e, he⟩
    · simp at he
    · exact ⟨e, Option.some.inj he⟩
  · rename_i buf log'' hget
    obtain ⟨hc, -⟩ := authenticatedGet_returns g c ctx _ log _ _ _ hget
    refine ⟨?_, hc⟩
    split at h
    · simp at h
    · simp only [Prod.mk.injEq, Outcome.returns.injEq, Option.some.injEq] at h
      exact ⟨_, h.1.2.2.symm⟩

/-- C27: when the fetch made by `Next` on an iterator that is not exhausted
returns an error, `Next` returns no transaction, `false` and that error,
and the iterator is what it was (`nextPage` and `done` included); the error
is not `ErrDone`; the failed fetch had sent one request, and the following
`Next` (same context) sends that same request again, for the same page. -/
theorem Next_failed_fetch_keeps_state {τ : Type} (g : Globals) (decT : Json → Except String τ)
    (i : ContextIterator) (ctx : Option Context) (log log' : List Request)
    (t : List (Option τ)) (m : Option ResponseMeta) (err : Error) (hnot : i.done = false)
    (hfetch : i.c.GetTransactions g decT ctx i.Slug i.IBAN (some ⟨i.nextPage, i.perPage⟩) log
      = (.returns (t, m, some err), log')) :
    i.Next g decT ctx log = (.returns ([], false, some err), i, log')
      ∧ (i.Next g decT ctx log).2.1.done = false
      ∧ (i.Next g decT ctx log).2.1.nextPage = i.nextPage
      ∧ err ≠ .ErrDone
      ∧ ∃ s k, log' = log ++ [⟨"GET", "https://thirdparty.qonto.eu/v2//transactions?"
            ++ Values.Encode ([("slug", [i.Slug]), ("iban", [i.IBAN])]
              ++ (if i.nextPage > 0 then [("current_page", [Itoa i.nextPage])] else [])
              ++ (if i.perPage > 0 then [("per_page", [Itoa i.perPage])] else [])),
            s ++ ":" ++ k⟩]
        ∧ ((i.Next g decT ctx log).2.1.Next g decT ctx log').2.2
          = log' ++ [⟨"GET", "https://thirdparty.qonto.eu/v2//transactions?"
            ++ Values.Encode ([("slug", [i.Slug]), ("iban", [i.IBAN])]
              ++ (if i.nextPage > 0 then [("current_page", [Itoa i.nextPage])] else [])
              ++ (if i.perPage > 0 then [("per_page", [Itoa i.perPage])] else [])),
            s ++ ":" ++ k⟩] := by
  have hnext : i.Next g decT ctx log = (.returns ([], false, some err), i, log') := by
    unfold ContextIterator.Next
    simp only [hnot, Bool.false_eq_true, if_false, hfetch]
  obtain ⟨⟨e, he⟩, s, k, hc⟩ :=
    GetTransactions_error_library g decT i.c ctx i.Slug i.IBAN _ log log' t m err hfetch
  refine ⟨hnext, ?_, ?_, ?_, ?_⟩
  · rw [hnext]; exact hnot
  · rw [hnext]
  · rw [he]; intro h; cases h
  · obtain ⟨r, hr⟩ := GetTransactions_sends_one g decT i.c ctx i.Slug i.IBAN i.nextPage
      i.perPage log s k hc
    obtain ⟨r', hr'⟩ := GetTransactions_sends_one g decT i.c ctx i.Slug i.IBAN i.nextPage
      i.perPage log' s k hc
    refine ⟨s, k, ?_, ?_⟩
    · have := congrArg Prod.snd hfetch
      rw [hr] at this
      exact this.symm
    · rw [hnext]
      simp only
      rw [Next_log g decT i hnot, hr']

/-- C27 at a concrete input: page 2 of the stub server answers 500 with a
body that is not JSON. -/
theorem Next_failed_fetch_keeps_state_witness :
    ContextIterator.Next stubGlobals decodeTransactionID
        ⟨⟨some secondPageFails⟩, "acc-1", "FR76", 2, 2, false⟩ stubContext []
      = (.returns ([], false,
            some (.library "invalid character looking for beginning of value")),
          ⟨⟨some secondPageFails⟩, "acc-1", "FR76", 2, 2, false⟩,
          [⟨"GET",
            "https://thirdparty.qonto.eu/v2//transactions?current_page=2&iban=FR76&per_page=2&slug=acc-1",
            "org:key"⟩]) :=
  (Next_failed_fetch_keeps_state stubGlobals decodeTransactionID
    ⟨⟨some secondPageFails⟩, "acc-1", "FR76", 2, 2, false⟩ stubContext [] _ [] none
    (.library "invalid character looking for beginning of value") rfl rfl).1

/-! ## Facts about the entries of a query -/

/-- Setting a key that the query does not hold adds an entry at the end. -/
theorem Set_fresh (q : Values) (k x : String) (h : ∀ e ∈ q, e.1 ≠ k) :
    Values.Set q k x = q ++ [(k, [x])] := by
  induction q with
  | nil => rfl
  | cons e rest ih =>
    obtain ⟨k', vs⟩ := e
    have h1 : k' ≠ k := h (k', vs) (List.mem_cons_self _ _)
    have h2 := ih fun e he => h e (List.mem_cons_of_mem _ he)
    simp only [Values.Set, h1, if_false, h2, List.cons_append]

/-- Adding a value to the key of the last entry, when no entry before it has
that key. -/
theorem Add_last (q : Values) (k x : String) (vs : List String) (h : ∀ e ∈ q, e.1 ≠ k) :
    Values.Add (q ++ [(k, vs)]) k x = q ++ [(k, vs ++ [x])] := by
  induction q with
  | nil => simp [Values.Add]
  | cons e rest ih =>
    obtain ⟨k', vs'⟩ := e
    have h1 : k' ≠ k := h (k', vs') (List.mem_cons_self _ _)
    have h2 := ih fun e he => h e (List.mem_cons_of_mem _ he)
    show Values.Add ((k', vs') :: (rest ++ [(k, vs)])) k x = (k', vs') :: (rest ++ [(k, vs ++ [x])])
    simp only [Values.Add, h1, if_false, h2]

/-- Adding a value to a key that the query does not hold adds an entry at
the end. -/
theorem Add_fresh (q : Values) (k x : String) (h : ∀ e ∈ q, e.1 ≠ k) :
    Values.Add q k x = q ++ [(k, [x])] := by
  induction q with
  | nil => rfl
  | cons e rest ih =>
    obtain ⟨k', vs⟩ := e
    have h1 : k' ≠ k := h (k', vs) (List.mem_cons_self _ _)
    have h2 := ih fun e he => h e (List.mem_cons_of_mem _ he)
    simp only [Values.Add, h1, if_false, h2, List.cons_append]

/-- The statuses added one by one to a query without `status` make one
entry that holds them in order. -/
theorem foldl_Add_status (statuses : List String) (q : Values)
    (h : ∀ e ∈ q, e.1 ≠ "status") :
    statuses.foldl (fun q s => Values.Add q "status" s) q
      = q ++ (if statuses = [] then [] else [("status", statuses)]) := by
  have hrest : ∀ (rest vs : List String),
      rest.foldl (fun q s => Values.Add q "status" s) (q ++ [("status", vs)])
        = q ++ [("status", vs ++ rest)] := by
    intro rest
    induction rest with
    | nil => intro vs; simp
    | cons s rest ih =>
      intro vs
      simp only [List.foldl_cons, Add_last q "status" s vs h, ih]
      simp
  cases statuses with
  | nil => simp
  | cons s rest =>
    simp only [List.foldl_cons, Add_fresh q "status" s h, hrest]
    simp

/-- Setting an optional parameter on a query whose keys are among `keys`,
the new key not being one of them: the entry is added at the end exactly when
the option is present, and the keys are then among `keys` and the new one. -/
theorem setWhen_fresh (keys : List String) (q : Values) (k : String) (v : Option String)
    (hq : ∀ e ∈ q, e.1 ∈ keys) (hk : k ∉ keys) :
    setWhen q k v = q ++ (v.map fun x => (k, [x])).toList
      ∧ ∀ e ∈ setWhen q k v, e.1 ∈ keys ++ [k] := by
  have hfresh : ∀ e ∈ q, e.1 ≠ k := fun e he hek => hk (hek ▸ hq e he)
  have heq : setWhen q k v = q ++ (v.map fun x => (k, [x])).toList := by
    cases v with
    | none => simp [setWhen]
    | some x => simp [setWhen, Set_fresh q k x hfresh]
  refine ⟨heq, ?_⟩
  rw [heq]
  intro e he
  rw [List.mem_append] at he
  rcases he with he | he
  · exact List.mem_append_left _ (hq e he)
  · cases v with
    | none => simp at he
    | some x =>
      simp at he
      subst he
      simp

/-- The entries of the query of the transactions URL, in the order they are
set: the slug, the IBAN, the statuses under one key, then each optional
parameter that is present. -/
theorem transactionsQuery_entries (slug IBAN : String) (o : GetTransactionOptions) :
    transactionsQuery slug IBAN (some o)
      = [("slug", [slug]), ("iban", [IBAN])]
        ++ (if o.Statuses = [] then [] else [("status", o.Statuses)])
        ++ (o.UpdatedAtFrom.map fun t => ("updated_at_from", [t.FormatRFC3339])).toList
        ++ (o.UpdatedAtTo.map fun t => ("updated_at_to", [t.FormatRFC3339])).toList
        ++ (o.SettledAtFrom.map fun t => ("settled_at_from", [t.FormatRFC3339])).toList
        ++ (o.SettledAtTo.map fun t => ("settled_at_to", [t.FormatRFC3339])).toList
        ++ (o.SortBy.map fun s => ("sort_by", [s])).toList
        ++ ((o.CurrentPage.filter (· > 0)).map fun n => ("current_page", [Itoa n])).toList
        ++ ((o.PerPage.filter (· > 0)).map fun n => ("per_page", [Itoa n])).toList := by
  have h0 : Values.Set (Values.Set [] "slug" slug) "iban" IBAN
      = [("slug", [slug]), ("iban", [IBAN])] := by
    simp [Values.Set]
  have hk0 : ∀ e ∈ ([("slug", [slug]), ("iban", [IBAN])] : Values), e.1 ≠ "status" := by
    intro e he
    simp only [List.mem_cons, List.mem_singleton, List.not_mem_nil, or_false] at he
    rcases he with rfl | rfl
    · exact (by decide : "slug" ≠ "status")
    · exact (by decide : "iban" ≠ "status")
  have h1 := foldl_Add_status o.Statuses _ hk0
  have hk1 : ∀ e ∈ ([("slug", [slug]), ("iban", [IBAN])] : Values)
      ++ (if o.Statuses = [] then [] else [("status", o.Statuses)]),
      e.1 ∈ ["slug", "iban", "status"] := by
    intro e he
    rw [List.mem_append] at he
    rcases he with he | he
    · simp only [List.mem_cons, List.mem_singleton, List.not_mem_nil, or_false] at he
      rcases he with rfl | rfl <;> simp
    · split at he
      · simp at he
      · simp only [List.mem_singleton] at he
        subst he
        simp
  obtain ⟨h2, hk2⟩ := setWhen_fresh _ _ "updated_at_from"
    (o.UpdatedAtFrom.map Time.FormatRFC3339) hk1 (by decide)
  obtain ⟨h3, hk3⟩ := setWhen_fresh _ _ "updated_at_to"
    (o.UpdatedAtTo.map Time.FormatRFC3339) hk2 (by decide)
  obtain ⟨h4, hk4⟩ := setWhen_fresh _ _ "settled_at_from"
    (o.SettledAtFrom.map Time.FormatRFC3339) hk3 (by decide)
  obtain ⟨h5, hk5⟩ := setWhen_fresh _ _ "settled_at_to"
    (o.SettledAtTo.map Time.FormatRFC3339) hk4 (by decide)
  obtain ⟨h6, hk6⟩ := setWhen_fresh _ _ "sort_by" o.SortBy hk5 (by decide)
  obtain ⟨h7, hk7⟩ := setWhen_fresh _ _ "current_page"
    ((o.CurrentPage.filter (· > 0)).map Itoa) hk6 (by decide)
  obtain ⟨h8, -⟩ := setWhen_fresh _ _ "per_page"
    ((o.PerPage.filter (· > 0)).map Itoa) hk7 (by decide)
  unfold transactionsQuery
  simp only [h0, h1]
  rw [h8, h7, h6, h5, h4, h3, h2]
  simp only [Option.map_map]
  rfl

/-! ## C24: the query of the transactions URL -/

/-- C24: for a slug and an IBAN that are not empty, the URL returned by
`getTransactionsURL` is the transactions URL, a question mark and the
encoding of a query that holds: `slug` and `iban`, once each; the statuses,
in the order given, under the one key `status` (no such key when there is
none); each of `updated_at_from`, `updated_at_to`, `settled_at_from`,
`settled_at_to` exactly when the time is set, as its RFC 3339 text;
`sort_by` exactly when set; `current_page` and `per_page` exactly when set to
a positive value, in decimal.  With nil options the query holds `slug` and
`iban` only. -/
theorem getTransactionsURL_query (slug IBAN : String) (options : Option GetTransactionOptions)
    (hs : slug ≠ "") (hi : IBAN ≠ "") :
    getTransactionsURL slug IBAN options
      = ("https://thirdparty.qonto.eu/v2/transactions?" ++ Values.Encode
          (match options with
          | none => [("slug", [slug]), ("iban", [IBAN])]
          | some o =>
            [("slug", [slug]), ("iban", [IBAN])]
            ++ (if o.Statuses = [] then [] else [("status", o.Statuses)])
            ++ (o.UpdatedAtFrom.map fun t => ("updated_at_from", [t.FormatRFC3339])).toList
            ++ (o.UpdatedAtTo.map fun t => ("updated_at_to", [t.FormatRFC3339])).toList
            ++ (o.SettledAtFrom.map fun t => ("settled_at_from", [t.FormatRFC3339])).toList
            ++ (o.SettledAtTo.map fun t => ("settled_at_to", [t.FormatRFC3339])).toList
            ++ (o.SortBy.map fun s => ("sort_by", [s])).toList
            ++ ((o.CurrentPage.filter (· > 0)).map fun n => ("current_page", [Itoa n])).toList
            ++ ((o.PerPage.filter (· > 0)).map fun n => ("per_page", [Itoa n])).toList),
          none) := by
  rw [getTransactionsURL_eq slug IBAN options hs hi]
  cases options with
  | none => rfl
  | some o => rw [transactionsQuery_entries]

set_option maxRecDepth 100000 in
/-- C24 at concrete inputs: two statuses, a date, a sort order, a page size
and a page number that is not positive; and nil options. -/
theorem getTransactionsURL_query_witness :
    getTransactionsURL "acc-1" "FR76"
        (some ⟨["pending", "completed"], some ⟨2019, 1, 7, 16, 39, 58, 0, 0⟩, none, none, none,
          some "settled_at:desc", some 0, some 25⟩)
      = ("https://thirdparty.qonto.eu/v2/transactions?iban=FR76&per_page=25&slug=acc-1&sort_by=settled_at%3Adesc&status=pending&status=completed&updated_at_from=2019-01-07T16%3A39%3A58Z",
          none)
    ∧ getTransactionsURL "acc-1" "FR76" none
      = ("https://thirdparty.qonto.eu/v2/transactions?iban=FR76&slug=acc-1", none) :=
  ⟨(getTransactionsURL_query "acc-1" "FR76"
      (some ⟨["pending", "completed"], some ⟨2019, 1, 7, 16, 39, 58, 0, 0⟩, none, none, none,
        some "settled_at:desc", some 0, some 25⟩) (by decide) (by decide)).trans
      (congrArg (fun q => (q, (none : Option Error))) (by decide)),
    (getTransactionsURL_query "acc-1" "FR76" none (by decide) (by decide)).trans
      (congrArg (fun q => (q, (none : Option Error))) (by decide))⟩

/-! ## C25: the options of the requests of `GetAllTransactionsContext` -/

/-- The query of the request for the page `currentPage`: the entries of the
caller's options, with `current_page` taken from `currentPage`. -/
theorem pageRequest_entries (c : Client) (bankAccountID IBAN : String)
    (options : Option GetTransactionOptions) (hs : bankAccountID ≠ "") (hi : IBAN ≠ "")
    (currentPage : Int) :
    pageRequest c bankAccountID IBAN options currentPage
      = ⟨"GET", "https://thirdparty.qonto.eu/v2/transactions?" ++ Values.Encode
          ([("slug", [bankAccountID]), ("iban", [IBAN])]
            ++ (if (options.getD GetTransactionOptions.zero).Statuses = [] then []
                else [("status", (options.getD GetTransactionOptions.zero).Statuses)])
            ++ ((options.getD GetTransactionOptions.zero).UpdatedAtFrom.map
                fun t => ("updated_at_from", [t.FormatRFC3339])).toList
            ++ ((options.getD GetTransactionOptions.zero).UpdatedAtTo.map
                fun t => ("updated_at_to", [t.FormatRFC3339])).toList
            ++ ((options.getD GetTransactionOptions.zero).SettledAtFrom.map
                fun t => ("settled_at_from", [t.FormatRFC3339])).toList
            ++ ((options.getD GetTransactionOptions.zero).SettledAtTo.map
                fun t => ("settled_at_to", [t.FormatRFC3339])).toList
            ++ ((options.getD GetTransactionOptions.zero).SortBy.map
                fun s => ("sort_by", [s])).toList
            ++ (if currentPage > 0 then [("current_page", [Itoa currentPage])] else [])
            ++ (((options.getD GetTransactionOptions.zero).PerPage.filter (· > 0)).map
                fun n => ("per_page", [Itoa n])).toList),
          c.Slug ++ ":" ++ c.SecretKey⟩ := by
  unfold pageRequest
  rw [getTransactionsURL_eq bankAccountID IBAN _ hs hi, transactionsQuery_entries]
  by_cases h : currentPage > 0
  · simp [Option.filter, h]
  · simp [Option.filter, h]

/-- With a slug and an IBAN, the requests a run of the loop of
`GetAllTransactionsContext` has sent when it returns are requests for pages:
each is the request built from the caller's options and a page number. -/
theorem GetAllTransactionsContext_loop_requests {τ : Type}
    (decT : Json → Except String τ) (c : Client) (bankAccountID IBAN : String)
    (options : Option GetTransactionOptions) (hs : bankAccountID ≠ "") (hi : IBAN ≠ "")
    (fuel : Nat) :
    ∀ (currentPage : Int) (transactions : List (Option τ)) (log : List Request)
      (r : Outcome (List (Option τ) × Option Error) × List Request),
      Client.GetAllTransactionsContext.loop decT c bankAccountID IBAN options fuel
          currentPage transactions log = some r →
        ∃ pages : List Int,
          r.2 = log ++ pages.map (pageRequest c bankAccountID IBAN options) := by
  induction fuel with
  | zero =>
    intro cur acc log r h
    simp [Client.GetAllTransactionsContext.loop] at h
  | succ n ih =>
    intro cur acc log r h
    have hlog := GetTransactionsContext_log decT c bankAccountID IBAN
      (some { options.getD GetTransactionOptions.zero with CurrentPage := some cur }) hs hi log
    unfold Client.GetAllTransactionsContext.loop at h
    simp only at h
    split at h
    · rename_i heq
      rw [heq] at hlog
      simp only [Option.some.injEq] at h
      exact ⟨[cur], by rw [← h]; simpa [pageRequest] using hlog⟩
    · rename_i heq
      rw [heq] at hlog
      simp only [Option.some.injEq] at h
      exact ⟨[cur], by rw [← h]; simpa [pageRequest] using hlog⟩
    · rename_i heq
      rw [heq] at hlog
      split at h
      · simp only [Option.some.injEq] at h
        exact ⟨[cur], by rw [← h]; simpa [pageRequest] using hlog⟩
      · obtain ⟨pages, hpages⟩ := ih _ _ _ r h
        simp only at hlog
        refine ⟨cur :: pages, ?_⟩
        rw [hpages, hlog]
        simp [pageRequest]

/-- What `getTransactionsURL` reads through the pointer `options` is the
options the pointer designates, and it leaves the memory as it is. -/
theorem getTransactionsURL_inMemory (m : Memory) (slug IBAN : String) (options : Option Nat) :
    getTransactionsURL.inMemory m slug IBAN options
      = (getTransactionsURL slug IBAN (m.options options), m) := by
  unfold getTransactionsURL.inMemory getTransactionsURL
  cases options with
  | none =>
    simp only [Memory.options, Option.map_none']
    split
    · rfl
    · split
      · rfl
      · split <;> rfl
  | some o =>
    simp only [Memory.options, Option.map_some', Option.map_map]
    split
    · rfl
    · split
      · rfl
      · split <;> rfl

/-- What `GetTransactionsContext` does with the pointer `options` is what it
does with the options the pointer designates, and it leaves the memory as it
is. -/
theorem GetTransactionsContext_inMemory {τ : Type} (decT : Json → Except String τ) (c : Client)
    (bankAccountID IBAN : String) (m : Memory) (options : Option Nat) (log : List Request) :
    Client.GetTransactionsContext.inMemory decT c bankAccountID IBAN m options log
      = (c.GetTransactionsContext decT bankAccountID IBAN (m.options options) log, m) := by
  unfold Client.GetTransactionsContext.inMemory Client.GetTransactionsContext
  rw [getTransactionsURL_inMemory]
  rcases getTransactionsURL bankAccountID IBAN (m.options options) with ⟨u, _ | err⟩ <;> rfl

/-- An assignment leaves the other variables as they are. -/
theorem Memory.store_other (m : Memory) (a b : Nat) (c : Cell) (h : a ≠ b) :
    (m.store a c).cells[b]? = m.cells[b]? := by
  simp [Memory.store, List.getElem?_set, h]

/-- An assignment to a variable of the memory is read back. -/
theorem Memory.store_same (m : Memory) (a : Nat) (c : Cell) (h : a < m.cells.length) :
    (m.store a c).cells[a]? = some c := by
  simp [Memory.store, List.getElem?_set, h]

/-- An assignment does not change the number of variables. -/
theorem Memory.store_length (m : Memory) (a : Nat) (c : Cell) :
    (m.store a c).cells.length = m.cells.length := by
  simp [Memory.store]

/-- A new variable leaves the variables of the memory as they are. -/
theorem Memory.new_other (m : Memory) (b : Nat) (c : Cell) (h : b < m.cells.length) :
    (m.new c).1.cells[b]? = m.cells[b]? := by
  simp [Memory.new, List.getElem?_append, h]

/-- A new variable holds its first value. -/
theorem Memory.new_same (m : Memory) (c : Cell) :
    (m.new c).1.cells[m.cells.length]? = some c := by
  simp [Memory.new, List.getElem?_append]

/-- A new variable is one more variable, at the next address. -/
theorem Memory.new_length (m : Memory) (c : Cell) :
    (m.new c).1.cells.length = m.cells.length + 1 ∧ (m.new c).2 = m.cells.length := by
  simp [Memory.new]

/-- Two memories that agree on the variables below `n` give the same value
to a pointer that is nil or below `n`. -/
theorem Memory.deref_agree (m0 m : Memory)
    (hagree : ∀ a, a < m0.cells.length → m.cells[a]? = m0.cells[a]?) (p : Option Nat)
    (hp : m0.allocated p = true) :
    p.map m.time = p.map m0.time ∧ p.map m.text = p.map m0.text ∧ p.map m.int = p.map m0.int := by
  cases p with
  | none => exact ⟨rfl, rfl, rfl⟩
  | some a =>
    have ha : a < m0.cells.length := by simpa [Memory.allocated] using hp
    refine ⟨?_, ?_, ?_⟩ <;> simp only [Option.map_some', Memory.time, Memory.text, Memory.int,
      hagree a ha]

/-- The variables of a turn of the loop: after `callOptions` is declared,
assigned and given its `CurrentPage`, it holds the last value assigned, the
variables that were there are as they were, and there is one more
variable. -/
theorem Memory.declared (m : Memory) (x y : Cell) :
    ((m.new x).1.store m.cells.length y).cells[m.cells.length]? = some y
      ∧ (∀ a, a < m.cells.length →
          ((m.new x).1.store m.cells.length y).cells[a]? = m.cells[a]?)
      ∧ ((m.new x).1.store m.cells.length y).cells.length = m.cells.length + 1 := by
  refine ⟨?_, ?_, ?_⟩
  · rw [Memory.store_same]
    rw [(Memory.new_length m x).1]
    omega
  · intro a ha
    rw [Memory.store_other _ _ _ _ (by omega), Memory.new_other _ _ _ ha]
  · rw [Memory.store_length, (Memory.new_length m x).1]

/-- The options a turn of the loop hands to `GetTransactionsContext` are the
caller's options with the page of the turn, the variables of the caller are
as they were, and `currentPage` holds its value. -/
theorem inMemory_turn (m0 m : Memory) (options : Option Nat) (cur : Int)
    (hm : m0.Holds options = true) (hlen : m0.cells.length < m.cells.length)
    (hagree : ∀ a, a < m0.cells.length → m.cells[a]? = m0.cells[a]?)
    (hcur : m.cells[m0.cells.length]? = some (.int cur)) :
    ∃ m3 : Memory,
      ((match options with
          | some o => (m.new (.options StoredOptions.zero)).1.store m.cells.length
              (.options ((m.new (.options StoredOptions.zero)).1.stored o))
          | none => (m.new (.options StoredOptions.zero)).1).store m.cells.length
        (.options { (match options with
          | some o => (m.new (.options StoredOptions.zero)).1.store m.cells.length
              (.options ((m.new (.options StoredOptions.zero)).1.stored o))
          | none => (m.new (.options StoredOptions.zero)).1).stored m.cells.length with
          CurrentPage := some m0.cells.length })) = m3
      ∧ m3.options (some m.cells.length)
        = some { (m0.options options).getD GetTransactionOptions.zero with
            CurrentPage := some cur }
      ∧ m3.cells.length = m.cells.length + 1
      ∧ (∀ a, a < m.cells.length → m3.cells[a]? = m.cells[a]?) := by
  refine ⟨_, rfl, ?_⟩
  cases options with
  | none =>
    simp only
    have hz : (m.new (.options StoredOptions.zero)).1.stored m.cells.length = StoredOptions.zero := by
      simp only [Memory.stored, Memory.new_same]
    rw [hz]
    obtain ⟨h1, h2, h3⟩ := Memory.declared m (.options StoredOptions.zero)
      (.options { StoredOptions.zero with CurrentPage := some m0.cells.length })
    refine ⟨?_, h3, h2⟩
    have hint : ((m.new (.options StoredOptions.zero)).1.store m.cells.length
        (.options { StoredOptions.zero with CurrentPage := some m0.cells.length })).int
          m0.cells.length = cur := by
      simp only [Memory.int, h2 _ hlen, hcur]
    simp only [Memory.options, Option.map_some', Memory.stored, h1, hint]
    rfl
  | some o =>
    simp only
    have hparts : o < m0.cells.length
        ∧ m0.allocated (m0.stored o).UpdatedAtFrom = true
        ∧ m0.allocated (m0.stored o).UpdatedAtTo = true
        ∧ m0.allocated (m0.stored o).SettledAtFrom = true
        ∧ m0.allocated (m0.stored o).SettledAtTo = true
        ∧ m0.allocated (m0.stored o).SortBy = true
        ∧ m0.allocated (m0.stored o).CurrentPage = true
        ∧ m0.allocated (m0.stored o).PerPage = true := by
      simpa [Memory.Holds, and_assoc] using hm
    obtain ⟨ho, a1, a2, a3, a4, a5, _, a7⟩ := hparts
    have hso : (m.new (.options StoredOptions.zero)).1.stored o = m0.stored o := by
      simp only [Memory.stored, Memory.new_other m o _ (by omega), hagree o ho]
    rw [hso]
    have hsc : ((m.new (.options StoredOptions.zero)).1.store m.cells.length
        (.options (m0.stored o))).stored m.cells.length = m0.stored o := by
      simp only [Memory.stored, (Memory.declared m _ _).1]
    rw [hsc]
    generalize hM : ((m.new (.options StoredOptions.zero)).1.store m.cells.length
        (.options (m0.stored o))).store m.cells.length
        (.options { m0.stored o with CurrentPage := some m0.cells.length }) = M
    have hMlen : M.cells.length = m.cells.length + 1 := by
      rw [← hM, Memory.store_length, (Memory.declared m _ _).2.2]
    have hMold : ∀ a, a < m.cells.length → M.cells[a]? = m.cells[a]? := by
      intro a ha
      rw [← hM, Memory.store_other _ _ _ _ (by omega), (Memory.declared m _ _).2.1 a ha]
    have hMc : M.cells[m.cells.length]?
        = some (.options { m0.stored o with CurrentPage := some m0.cells.length }) := by
      rw [← hM, Memory.store_same]
      rw [(Memory.declared m _ _).2.2]
      omega
    refine ⟨?_, hMlen, hMold⟩
    have hMagree : ∀ a, a < m0.cells.length → M.cells[a]? = m0.cells[a]? := by
      intro a ha
      rw [hMold a (by omega), hagree a ha]
    have hint : M.int m0.cells.length = cur := by
      simp only [Memory.int, hMold _ hlen, hcur]
    have hst : M.stored m.cells.length
        = { m0.stored o with CurrentPage := some m0.cells.length } := by
      simp only [Memory.stored, hMc]
    simp only [Memory.options, Option.map_some', Option.getD_some, hst, hint,
      (Memory.deref_agree m0 M hMagree _ a1).1, (Memory.deref_agree m0 M hMagree _ a2).1,
      (Memory.deref_agree m0 M hMagree _ a3).1, (Memory.deref_agree m0 M hMagree _ a4).1,
      (Memory.deref_agree m0 M hMagree _ a5).2.1, (Memory.deref_agree m0 M hMagree _ a7).2.2]

/-- One turn of the loop in memory, with the memory in which
`GetTransactionsContext` is called given a name. -/
theorem inMemory_loop_succ {τ : Type} (decT : Json → Except String τ) (c : Client)
    (bankAccountID IBAN : String) (options : Option Nat) (currentPage fuel : Nat) (m M : Memory)
    (transactions : List (Option τ)) (log : List Request)
    (hM : ((match options with
          | some o => (m.new (.options StoredOptions.zero)).1.store m.cells.length
              (.options ((m.new (.options StoredOptions.zero)).1.stored o))
          | none => (m.new (.options StoredOptions.zero)).1).store m.cells.length
        (.options { (match options with
          | some o => (m.new (.options StoredOptions.zero)).1.store m.cells.length
              (.options ((m.new (.options StoredOptions.zero)).1.stored o))
          | none => (m.new (.options StoredOptions.zero)).1).stored m.cells.length with
          CurrentPage := some currentPage })) = M) :
    Client.GetAllTransactionsContext.inMemory.loop decT c bankAccountID IBAN options currentPage
        (fuel + 1) m transactions log
      = (match Client.GetTransactionsContext.inMemory decT c bankAccountID IBAN M
            (some m.cells.length) log with
        | (((_, some err), log), m) => some ((.returns (transactions, some err), log), m)
        | (((none, none), log), m) => some ((.panics "nil pointer dereference", log), m)
        | (((some res, none), log), m) =>
          match res.Meta.NextPage with
          | none => some ((.returns (transactions ++ res.Transactions, none), log), m)
          | some next =>
            Client.GetAllTransactionsContext.inMemory.loop decT c bankAccountID IBAN options
              currentPage fuel (m.store currentPage (.int next))
              (transactions ++ res.Transactions) log) := by
  subst hM
  rfl

/-- The loop of `GetAllTransactionsContext` in memory gives what the loop
gives on the options the caller's pointer designates, and leaves every
variable of the caller as it was: it assigns to its own variables only. -/
theorem inMemory_loop {τ : Type} (decT : Json → Except String τ) (c : Client)
    (bankAccountID IBAN : String) (m0 : Memory) (options : Option Nat)
    (hm : m0.Holds options = true) :
    ∀ (fuel : Nat) (m : Memory) (cur : Int) (transactions : List (Option τ))
      (log : List Request),
      m0.cells.length < m.cells.length →
      (∀ a, a < m0.cells.length → m.cells[a]? = m0.cells[a]?) →
      m.cells[m0.cells.length]? = some (.int cur) →
      (Client.GetAllTransactionsContext.inMemory.loop decT c bankAccountID IBAN options
          m0.cells.length fuel m transactions log).map (·.1)
        = Client.GetAllTransactionsContext.loop decT c bankAccountID IBAN (m0.options options)
            fuel cur transactions log
      ∧ ∀ r m', Client.GetAllTransactionsContext.inMemory.loop decT c bankAccountID IBAN options
            m0.cells.length fuel m transactions log = some (r, m') →
          ∀ a, a < m0.cells.length → m'.cells[a]? = m0.cells[a]? := by
  intro fuel
  induction fuel with
  | zero =>
    intro m cur transactions log _ _ _
    refine ⟨rfl, ?_⟩
    intro r m' h
    cases h
  | succ fuel ih =>
    intro m cur transactions log hlen hagree hcur
    obtain ⟨M, hM, hopt, hMlen, hMold⟩ := inMemory_turn m0 m options cur hm hlen hagree hcur
    have hMagree : ∀ a, a < m0.cells.length → M.cells[a]? = m0.cells[a]? := by
      intro a ha
      rw [hMold a (by omega), hagree a ha]
    rw [inMemory_loop_succ decT c bankAccountID IBAN options m0.cells.length fuel m M
      transactions log hM, GetTransactionsContext_inMemory, hopt]
    conv => lhs; rhs; unfold Client.GetAllTransactionsContext.loop
    simp only
    rcases hf : c.GetTransactionsContext decT bankAccountID IBAN
      (some { (m0.options options).getD GetTransactionOptions.zero with
        CurrentPage := some cur }) log with ⟨⟨res, err⟩, log'⟩
    cases err with
    | some e =>
      simp only [Option.map_some']
      refine ⟨trivial, ?_⟩
      intro r m' h
      simp only [Option.some.injEq, Prod.mk.injEq] at h
      rw [← h.2]
      exact hMagree
    | none =>
      cases res with
      | none =>
        simp only [Option.map_some']
        refine ⟨trivial, ?_⟩
        intro r m' h
        simp only [Option.some.injEq, Prod.mk.injEq] at h
        rw [← h.2]
        exact hMagree
      | some p =>
        simp only
        cases hn : p.Meta.NextPage with
        | none =>
          simp only [Option.map_some']
          refine ⟨trivial, ?_⟩
          intro r m' h
          simp only [Option.some.injEq, Prod.mk.injEq] at h
          rw [← h.2]
          exact hMagree
        | some next =>
          simp only
          apply ih
          · rw [Memory.store_length]; omega
          · intro a ha
            rw [Memory.store_other _ _ _ _ (by omega), hMagree a ha]
          · rw [Memory.store_same _ _ _ (by omega)]

/-- A memory that agrees with another on its variables gives the same
reading of options whose pointers do not dangle there. -/
theorem Memory.options_agree (m0 m : Memory) (options : Option Nat)
    (hm : m0.Holds options = true)
    (hagree : ∀ a, a < m0.cells.length → m.cells[a]? = m0.cells[a]?) :
    m.options options = m0.options options
      ∧ ∀ o, options = some o → m.stored o = m0.stored o
        ∧ ∀ p, (m0.stored o).CurrentPage = some p → m.int p = m0.int p := by
  cases options with
  | none => exact ⟨rfl, fun o h => by cases h⟩
  | some o =>
    have hparts : o < m0.cells.length
        ∧ m0.allocated (m0.stored o).UpdatedAtFrom = true
        ∧ m0.allocated (m0.stored o).UpdatedAtTo = true
        ∧ m0.allocated (m0.stored o).SettledAtFrom = true
        ∧ m0.allocated (m0.stored o).SettledAtTo = true
        ∧ m0.allocated (m0.stored o).SortBy = true
        ∧ m0.allocated (m0.stored o).CurrentPage = true
        ∧ m0.allocated (m0.stored o).PerPage = true := by
      simpa [Memory.Holds, and_assoc] using hm
    obtain ⟨ho, a1, a2, a3, a4, a5, a6, a7⟩ := hparts
    have hso : m.stored o = m0.stored o := by
      simp only [Memory.stored, hagree o ho]
    refine ⟨?_, ?_⟩
    · simp only [Memory.options, Option.map_some', hso,
        (Memory.deref_agree m0 m hagree _ a1).1, (Memory.deref_agree m0 m hagree _ a2).1,
        (Memory.deref_agree m0 m hagree _ a3).1, (Memory.deref_agree m0 m hagree _ a4).1,
        (Memory.deref_agree m0 m hagree _ a5).2.1, (Memory.deref_agree m0 m hagree _ a6).2.2,
        (Memory.deref_agree m0 m hagree _ a7).2.2]
    · intro o' h
      cases h
      refine ⟨hso, ?_⟩
      intro p hp
      rw [hp] at a6
      have hlt : p < m0.cells.length := by simpa [Memory.allocated] using a6
      simp only [Memory.int, hagree p hlt]

/-- GetAllTransactionsContext in memory enters its loop with the local
variable `currentPage` at the next address, holding 1 or the value
`options.CurrentPage` points to. -/
theorem GetAllTransactionsContext_inMemory_start {τ : Type} (decT : Json → Except String τ)
    (c : Client) (bankAccountID IBAN : String) (m : Memory) (options : Option Nat)
    (fuel : Nat) (log : List Request) :
    Client.GetAllTransactionsContext.inMemory decT fuel c bankAccountID IBAN m options log
      = Client.GetAllTransactionsContext.inMemory.loop decT c bankAccountID IBAN options
          m.cells.length fuel
          (match options with
            | some o =>
              match ((m.new (.int 1)).1.stored o).CurrentPage with
              | some p =>
                (m.new (.int 1)).1.store m.cells.length (.int ((m.new (.int 1)).1.int p))
              | none => (m.new (.int 1)).1
            | none => (m.new (.int 1)).1) [] log := by
  rfl

/-- GetAllTransactionsContext in memory gives what it gives on the options
the caller's pointer designates, and leaves every variable of the caller as
it was. -/
theorem GetAllTransactionsContext_inMemory {τ : Type} (decT : Json → Except String τ)
    (c : Client) (bankAccountID IBAN : String) (m : Memory) (options : Option Nat)
    (hm : m.Holds options = true) (fuel : Nat) (log : List Request) :
    (Client.GetAllTransactionsContext.inMemory decT fuel c bankAccountID IBAN m options
        log).map (·.1)
      = Client.GetAllTransactionsContext decT fuel c bankAccountID IBAN (m.options options) log
    ∧ ∀ r m', Client.GetAllTransactionsContext.inMemory decT fuel c bankAccountID IBAN m options
          log = some (r, m') →
        ∀ a, a < m.cells.length → m'.cells[a]? = m.cells[a]? := by
  have key : ∃ M : Memory,
      Client.GetAllTransactionsContext.inMemory decT fuel c bankAccountID IBAN m options log
        = Client.GetAllTransactionsContext.inMemory.loop decT c bankAccountID IBAN options
            m.cells.length fuel M [] log
      ∧ m.cells.length < M.cells.length
      ∧ (∀ a, a < m.cells.length → M.cells[a]? = m.cells[a]?)
      ∧ M.cells[m.cells.length]?
        = some (.int (((m.options options).bind (·.CurrentPage)).getD 1)) := by
    refine ⟨_, GetAllTransactionsContext_inMemory_start decT c bankAccountID IBAN m options fuel
      log, ?_⟩
    have hnew : (m.new (.int 1)).1.cells[m.cells.length]? = some (.int 1) := Memory.new_same m _
    have hnewlen := (Memory.new_length m (.int 1)).1
    cases options with
    | none =>
      simp only
      refine ⟨by rw [hnewlen]; omega, fun a ha => Memory.new_other m a _ ha, ?_⟩
      rw [hnew]
      rfl
    | some o =>
      have ho : o < m.cells.length := by
        have : decide (o < m.cells.length) = true := by
          simp only [Memory.Holds, Bool.and_eq_true] at hm
          exact hm.1.1.1.1.1.1.1
        simpa using this
      have hso : (m.new (.int 1)).1.stored o = m.stored o := by
        simp only [Memory.stored, Memory.new_other m o _ ho]
      simp only [hso]
      cases hcp : (m.stored o).CurrentPage with
      | none =>
        simp only
        refine ⟨by rw [hnewlen]; omega, fun a ha => Memory.new_other m a _ ha, ?_⟩
        rw [hnew]
        simp [Memory.options, hcp]
      | some p =>
        simp only
        have hp : p < m.cells.length := by
          have : m.allocated (m.stored o).CurrentPage = true := by
            simp only [Memory.Holds, Bool.and_eq_true] at hm
            exact hm.1.2
          rw [hcp] at this
          simpa [Memory.allocated] using this
        have hint : (m.new (.int 1)).1.int p = m.int p := by
          simp only [Memory.int, Memory.new_other m p _ hp]
        refine ⟨by rw [Memory.store_length, hnewlen]; omega, ?_, ?_⟩
        · intro a ha
          rw [Memory.store_other _ _ _ _ (by omega), Memory.new_other m a _ ha]
        · rw [Memory.store_same _ _ _ (by rw [hnewlen]; omega), hint]
          simp [Memory.options, hcp]
  obtain ⟨M, hrun, hlen, hagree, hcur⟩ := key
  rw [hrun]
  unfold Client.GetAllTransactionsContext
  exact inMemory_loop decT c bankAccountID IBAN m options hm fuel M _ [] log hlen hagree hcur

/-- C25: for options that lie in memory and are handed over by a pointer
(no pointer dangling), with a slug and an IBAN, a call of
`GetAllTransactionsContext` gives what it gives on the options the pointer
designates.  When it returns, the requests sent are requests for pages: each
is the GET of the transactions URL whose query holds the slug, the IBAN and
the statuses, the four dates, `sort_by` and `per_page` of the caller's
options (of the zero options when the caller gave nil), and `current_page`
for the page number of the turn when it is positive; only `current_page`
depends on the turn.  And every variable that was in memory before the call
holds what it held: the struct `options` points to is what it was, read
through the pointer the options are what they were field by field, and the
integer `CurrentPage` points to is what it was. -/
theorem GetAllTransactionsContext_requests_keep_options {τ : Type}
    (decT : Json → Except String τ) (c : Client) (bankAccountID IBAN : String)
    (m : Memory) (options : Option Nat) (hs : bankAccountID ≠ "") (hi : IBAN ≠ "")
    (hm : m.Holds options = true) (fuel : Nat) (log : List Request) :
    (Client.GetAllTransactionsContext.inMemory decT fuel c bankAccountID IBAN m options
        log).map (·.1)
      = Client.GetAllTransactionsContext decT fuel c bankAccountID IBAN (m.options options) log
    ∧ ∀ (r : Outcome (List (Option τ) × Option Error) × List Request) (m' : Memory),
      Client.GetAllTransactionsContext.inMemory decT fuel c bankAccountID IBAN m options log
        = some (r, m') →
      (∃ pages : List Int,
        r.2 = log ++ pages.map fun currentPage =>
          ⟨"GET", "https://thirdparty.qonto.eu/v2/transactions?" ++ Values.Encode
            ([("slug", [bankAccountID]), ("iban", [IBAN])]
              ++ (if ((m.options options).getD GetTransactionOptions.zero).Statuses = [] then []
                  else [("status",
                    ((m.options options).getD GetTransactionOptions.zero).Statuses)])
              ++ (((m.options options).getD GetTransactionOptions.zero).UpdatedAtFrom.map
                  fun t => ("updated_at_from", [t.FormatRFC3339])).toList
              ++ (((m.options options).getD GetTransactionOptions.zero).UpdatedAtTo.map
                  fun t => ("updated_at_to", [t.FormatRFC3339])).toList
              ++ (((m.options options).getD GetTransactionOptions.zero).SettledAtFrom.map
                  fun t => ("settled_at_from", [t.FormatRFC3339])).toList
              ++ (((m.options options).getD GetTransactionOptions.zero).SettledAtTo.map
                  fun t => ("settled_at_to", [t.FormatRFC3339])).toList
              ++ (((m.options options).getD GetTransactionOptions.zero).SortBy.map
                  fun s => ("sort_by", [s])).toList
              ++ (if currentPage > 0 then [("current_page", [Itoa currentPage])] else [])
              ++ ((((m.options options).getD GetTransactionOptions.zero).PerPage.filter
                  (· > 0)).map fun n => ("per_page", [Itoa n])).toList),
            c.Slug ++ ":" ++ c.SecretKey⟩)
      ∧ (∀ a, a < m.cells.length → m'.cells[a]? = m.cells[a]?)
      ∧ m'.options options = m.options options
      ∧ (∀ o, options = some o →
          m'.stored o = m.stored o
            ∧ ∀ p, (m.stored o).CurrentPage = some p → m'.int p = m.int p) := by
  obtain ⟨href, hframe⟩ := GetAllTransactionsContext_inMemory decT c bankAccountID IBAN m options
    hm fuel log
  refine ⟨href, ?_⟩
  intro r m' h
  have hpure : Client.GetAllTransactionsContext decT fuel c bankAccountID IBAN
      (m.options options) log = some r := by
    rw [← href, h]
    rfl
  have hagree := hframe r m' h
  obtain ⟨hopt, hptr⟩ := Memory.options_agree m m' options hm hagree
  refine ⟨?_, hagree, hopt, hptr⟩
  unfold Client.GetAllTransactionsContext at hpure
  obtain ⟨pages, hpages⟩ := GetAllTransactionsContext_loop_requests decT c bankAccountID IBAN
    (m.options options) hs hi fuel _ _ _ r hpure
  refine ⟨pages, ?_⟩
  rw [hpages]
  congr 1
  apply List.map_congr_left
  intro cur _
  exact pageRequest_entries c bankAccountID IBAN (m.options options) hs hi cur

set_option maxRecDepth 100000 in
/-- C25 at a concrete input: the three pages of the stub server, asked for
with options in memory that hold a status, a sort order, a page size and a
start at page 1.  The call returns after three requests; the memory after
the call holds the caller's four variables as they were, then the local
`currentPage` (3 at the end) and the `callOptions` of the three turns. -/
theorem GetAllTransactionsContext_requests_keep_options_witness :
    Client.GetAllTransactionsContext.inMemory decodeTransactionID 5 ⟨threePages, "org", "key"⟩
        "acc-1" "FR76" stubMemory (some 3) []
      = some ((.returns ([some "a", some "b", some "c", some "d", some "e", some "f"], none),
          [⟨"GET", "https://thirdparty.qonto.eu/v2/transactions?current_page=1&iban=FR76&per_page=2&slug=acc-1&sort_by=settled_at%3Adesc&status=completed", "org:key"⟩,
            ⟨"GET", "https://thirdparty.qonto.eu/v2/transactions?current_page=2&iban=FR76&per_page=2&slug=acc-1&sort_by=settled_at%3Adesc&status=completed", "org:key"⟩,
            ⟨"GET", "https://thirdparty.qonto.eu/v2/transactions?current_page=3&iban=FR76&per_page=2&slug=acc-1&sort_by=settled_at%3Adesc&status=completed", "org:key"⟩]),
        ⟨stubMemory.cells ++ [.int 3,
          .options ⟨["completed"], none, none, none, none, some 0, some 4, some 2⟩,
          .options ⟨["completed"], none, none, none, none, some 0, some 4, some 2⟩,
          .options ⟨["completed"], none, none, none, none, some 0, some 4, some 2⟩]⟩)
    ∧ (∃ pages : List Int,
      [(⟨"GET", "https://thirdparty.qonto.eu/v2/transactions?current_page=1&iban=FR76&per_page=2&slug=acc-1&sort_by=settled_at%3Adesc&status=completed", "org:key"⟩ : Request),
        ⟨"GET", "https://thirdparty.qonto.eu/v2/transactions?current_page=2&iban=FR76&per_page=2&slug=acc-1&sort_by=settled_at%3Adesc&status=completed", "org:key"⟩,
        ⟨"GET", "https://thirdparty.qonto.eu/v2/transactions?current_page=3&iban=FR76&per_page=2&slug=acc-1&sort_by=settled_at%3Adesc&status=completed", "org:key"⟩]
      = [] ++ pages.map fun currentPage =>
        ⟨"GET", "https://thirdparty.qonto.eu/v2/transactions?" ++ Values.Encode
          ([("slug", ["acc-1"]), ("iban", ["FR76"])] ++ [("status", ["completed"])]
            ++ [("sort_by", ["settled_at:desc"])]
            ++ (if currentPage > 0 then [("current_page", [Itoa currentPage])] else [])
            ++ [("per_page", ["2"])]),
          "org:key"⟩)
    ∧ Memory.options ⟨stubMemory.cells ++ [.int 3,
          .options ⟨["completed"], none, none, none, none, some 0, some 4, some 2⟩,
          .options ⟨["completed"], none, none, none, none, some 0, some 4, some 2⟩,
          .options ⟨["completed"], none, none, none, none, some 0, some 4, some 2⟩]⟩ (some 3)
      = some ⟨["completed"], none, none, none, none, some "settled_at:desc", some 1, some 2⟩
    ∧ Memory.int ⟨stubMemory.cells ++ [.int 3,
          .options ⟨["completed"], none, none, none, none, some 0, some 4, some 2⟩,
          .options ⟨["completed"], none, none, none, none, some 0, some 4, some 2⟩,
          .options ⟨["completed"], none, none, none, none, some 0, some 4, some 2⟩]⟩ 1 = 1 :=
  ⟨rfl,
    ((GetAllTransactionsContext_requests_keep_options decodeTransactionID
      ⟨threePages, "org", "key"⟩ "acc-1" "FR76" stubMemory (some 3) (by decide) (by decide) rfl
      5 []).2 _ _ rfl).1,
    ((GetAllTransactionsContext_requests_keep_options decodeTransactionID
      ⟨threePages, "org", "key"⟩ "acc-1" "FR76" stubMemory (some 3) (by decide) (by decide) rfl
      5 []).2 _ _ rfl).2.2.1,
    ((((GetAllTransactionsContext_requests_keep_options decodeTransactionID
      ⟨threePages, "org", "key"⟩ "acc-1" "FR76" stubMemory (some 3) (by decide) (by decide) rfl
      5 []).2 _ _ rfl).2.2.2 3 rfl).2 1 rfl)⟩

/-! ## Facts about decoding objects member by member -/

/-- Decoding member by member is a plain fold over the results, an error
being kept to the end. -/
theorem foldlM_as_foldl {α β : Type} (f : β → α → Except String β) (l : List α) :
    ∀ (init : Except String β),
      (init >>= fun b => l.foldlM f b)
        = l.foldl (fun acc a => acc >>= fun b => f b a) init := by
  induction l with
  | nil => intro init; cases init <;> rfl
  | cons a rest ih =>
    intro init
    rw [List.foldl_cons, ← ih]
    cases init with
    | error e => rfl
    | ok b => rfl

/-- Members that a decoder skips do not change the result. -/
theorem foldl_skipped {α β : Type} (f : β → α → Except String β) (l : List α)
    (h : ∀ a ∈ l, ∀ b, f b a = .ok b) (init : Except String β) :
    l.foldl (fun acc a => acc >>= fun b => f b a) init = init := by
  induction l generalizing init with
  | nil => rfl
  | cons a rest ih =>
    rw [List.foldl_cons, ih (fun a ha => h a (List.mem_cons_of_mem _ ha))]
    cases init with
    | error e => rfl
    | ok b => exact h a (List.mem_cons_self _ _) b

/-! ## C22: decoding a bank account -/

/-- C22: a JSON object that holds, in any order, the members `slug`, `iban`,
`bic` and `currency` with string values, `balance` and `authorized_balance`
with numbers that read as the `float64` values `x` and `y`, and
`balance_cents` and `authorized_balance_cents` with integer literals in the
64-bit range, and besides them only members that match no field, decodes
into a `BankAccount`, whatever the record held before, and each field is the
value under its key.  The lower-case key `bic` fills the field tagged `BIC`;
nothing relates `x` to `n` or `y` to `m`. -/
theorem decodeBankAccount_fields (parseFloat : Json → Option Float)
    (kvs extras : List (String × Json)) (s i b c : String) (vb va : Json) (x y : Float)
    (n m : Int) (cur : BankAccount)
    (hperm : kvs.Perm ([("slug", .str s), ("iban", .str i), ("bic", .str b),
        ("currency", .str c), ("balance", vb), ("balance_cents", .int n),
        ("authorized_balance", va), ("authorized_balance_cents", .int m)] ++ extras))
    (hextras : ∀ e ∈ extras, ∀ f ∈ ["slug", "iban", "BIC", "currency", "balance",
        "balance_cents", "authorized_balance", "authorized_balance_cents"], keyIs f e.1 = false)
    (hvb : ∀ held, decodeFloat parseFloat vb held = .ok x)
    (hva : ∀ held, decodeFloat parseFloat va held = .ok y)
    (hn : -9223372036854775808 ≤ n ∧ n ≤ 9223372036854775807)
    (hm : -9223372036854775808 ≤ m ∧ m ≤ 9223372036854775807) :
    decodeBankAccount parseFloat (.obj kvs) cur = .ok ⟨s, i, b, c, x, n, y, m⟩ := by
  have e1 : ∀ r : BankAccount, decodeBankAccountField parseFloat r ("slug", .str s)
      = .ok { r with Slug := s } := by
    intro r; simp +decide [decodeBankAccountField, decodeString, Except.map]
  have e2 : ∀ r : BankAccount, decodeBankAccountField parseFloat r ("iban", .str i)
      = .ok { r with IBAN := i } := by
    intro r; simp +decide [decodeBankAccountField, decodeString, Except.map]
  have e3 : ∀ r : BankAccount, decodeBankAccountField parseFloat r ("bic", .str b)
      = .ok { r with BIC := b } := by
    intro r; simp +decide [decodeBankAccountField, decodeString, Except.map]
  have e4 : ∀ r : BankAccount, decodeBankAccountField parseFloat r ("currency", .str c)
      = .ok { r with Currency := c } := by
    intro r; simp +decide [decodeBankAccountField, decodeString, Except.map]
  have e5 : ∀ r : BankAccount, decodeBankAccountField parseFloat r ("balance", vb)
      = .ok { r with Balance := x } := by
    intro r; simp +decide [decodeBankAccountField, hvb, Except.map]
  have e6 : ∀ r : BankAccount, decodeBankAccountField parseFloat r ("balance_cents", .int n)
      = .ok { r with BalanceCents := n } := by
    intro r; simp +decide [decodeBankAccountField, decodeInt, hn, Except.map]
  have e7 : ∀ r : BankAccount, decodeBankAccountField parseFloat r ("authorized_balance", va)
      = .ok { r with AuthorizedBalance := y } := by
    intro r; simp +decide [decodeBankAccountField, hva, Except.map]
  have e8 : ∀ r : BankAccount,
      decodeBankAccountField parseFloat r ("authorized_balance_cents", .int m)
        = .ok { r with AuthorizedBalanceCents := m } := by
    intro r; simp +decide [decodeBankAccountField, decodeInt, hm, Except.map]
  have eskip : ∀ e ∈ extras, ∀ r, decodeBankAccountField parseFloat r e = .ok r := by
    intro e he r
    have h := hextras e he
    simp only [List.mem_cons, List.mem_singleton, List.not_mem_nil, or_false, forall_eq_or_imp,
      forall_eq] at h
    simp [decodeBankAccountField, h]
  have hcomm : ∀ p ∈ ([("slug", .str s), ("iban", .str i), ("bic", .str b),
        ("currency", .str c), ("balance", vb), ("balance_cents", .int n),
        ("authorized_balance", va), ("authorized_balance_cents", .int m)] ++ extras),
      ∀ q ∈ ([("slug", .str s), ("iban", .str i), ("bic", .str b),
        ("currency", .str c), ("balance", vb), ("balance_cents", .int n),
        ("authorized_balance", va), ("authorized_balance_cents", .int m)] ++ extras),
      ∀ z : Except String BankAccount,
        ((z >>= fun r => decodeBankAccountField parseFloat r p)
            >>= fun r => decodeBankAccountField parseFloat r q)
          = ((z >>= fun r => decodeBankAccountField parseFloat r q)
            >>= fun r => decodeBankAccountField parseFloat r p) := by
    intro p hp q hq z
    cases z with
    | error e => rfl
    | ok r =>
      simp only [List.mem_append, List.mem_cons, List.mem_singleton, List.not_mem_nil,
        or_false] at hp hq
      have hs : ∀ (e : String × Json) (u : Except String BankAccount), e ∈ extras →
          (u >>= fun r => decodeBankAccountField parseFloat r e) = u := by
        intro e u he
        cases u with
        | error _ => rfl
        | ok r' => exact eskip e he r'
      rcases hp with (rfl | rfl | rfl | rfl | rfl | rfl | rfl | rfl) | hp
      all_goals rcases hq with (rfl | rfl | rfl | rfl | rfl | rfl | rfl | rfl) | hq
      all_goals first
        | rfl
        | (simp only [hs _ _ hp, hs _ _ hq])
        | (simp only [bind, Except.bind, e1, e2, e3, e4, e5, e6, e7, e8, eskip _ hq])
        | (simp only [bind, Except.bind, e1, e2, e3, e4, e5, e6, e7, e8, eskip _ hp])
        | (simp only [bind, Except.bind, e1, e2, e3, e4, e5, e6, e7, e8])
  have h0 : List.foldlM (decodeBankAccountField parseFloat) cur kvs
      = kvs.foldl (fun (acc : Except String BankAccount) a =>
          acc >>= fun r => decodeBankAccountField parseFloat r a) (.ok cur) :=
    foldlM_as_foldl (decodeBankAccountField parseFloat) kvs (.ok cur)
  have h1 := @List.Perm.foldl_eq' _ _
    (fun (acc : Except String BankAccount) a =>
      acc >>= fun r => decodeBankAccountField parseFloat r a) _ _ hperm.symm hcomm (Except.ok cur)
  have h2 := foldl_skipped (decodeBankAccountField parseFloat) extras eskip
  show List.foldlM (decodeBankAccountField parseFloat) cur kvs = _
  rw [h0, ← h1, List.foldl_append, h2]
  simp only [List.foldl_cons, List.foldl_nil, bind, Except.bind, e1, e2, e3, e4, e5, e6, e7, e8]

/-- C22 at a concrete input: the members in the reverse order, a member
that matches no field, and amounts that disagree with their cents. -/
theorem decodeBankAccount_fields_witness :
    decodeBankAccount parseWholeFloat
        (.obj [("updated_at", .str "2019-01-07T16:39:58Z"),
          ("authorized_balance_cents", .int 300036), ("authorized_balance", .int 3000),
          ("balance_cents", .int 1), ("balance", .int 4000), ("currency", .str "EUR"),
          ("bic", .str "QNTOFRP1"), ("iban", .str "FR76"), ("slug", .str "acc-1")])
        BankAccount.zero
      = .ok ⟨"acc-1", "FR76", "QNTOFRP1", "EUR", Float.ofInt 4000, 1, Float.ofInt 3000, 300036⟩ :=
  decodeBankAccount_fields parseWholeFloat _ [("updated_at", .str "2019-01-07T16:39:58Z")]
    "acc-1" "FR76" "QNTOFRP1" "EUR" (.int 4000) (.int 3000) (Float.ofInt 4000) (Float.ofInt 3000)
    1 300036 BankAccount.zero
    (List.reverse_perm (([("slug", Json.str "acc-1"), ("iban", Json.str "FR76"),
      ("bic", Json.str "QNTOFRP1"), ("currency", Json.str "EUR"), ("balance", Json.int 4000),
      ("balance_cents", Json.int 1), ("authorized_balance", Json.int 3000),
      ("authorized_balance_cents", Json.int 300036)] : List (String × Json))
      ++ [("updated_at", Json.str "2019-01-07T16:39:58Z")]))
    (by decide) (fun _ => rfl) (fun _ => rfl) (by decide) (by decide)

/-! ## Facts about decimal texts -/

/-- The value of the character of a decimal digit is the digit. -/
theorem digitValue_digitChar (d : Nat) (h : d < 10) : digitValue (Nat.digitChar d) = some d := by
  interval_cases d <;> decide

/-- The digits `Nat.toDigitsCore` puts before `ds`: they read back as the
number, and they start with `0` only for the text `0`. -/
theorem toDigitsCore_parse (fuel : Nat) :
    ∀ (n : Nat) (ds : List Char), n < fuel →
      ∃ D : List Char, Nat.toDigitsCore 10 fuel n ds = D ++ ds
        ∧ (∀ acc rest, parseDigits (D ++ rest) acc = parseDigits rest (acc * 10 ^ D.length + n))
        ∧ ∃ c tail, D = c :: tail ∧ (c = '0' → tail = [] ∧ n = 0) := by
  induction fuel with
  | zero => intro n ds h; omega
  | succ f ih =>
    intro n ds hn
    have hd := digitValue_digitChar (n % 10) (Nat.mod_lt _ (by decide))
    unfold Nat.toDigitsCore
    simp only
    split
    · rename_i h0
      have hlt : n < 10 := by omega
      refine ⟨[Nat.digitChar (n % 10)], rfl, ?_, _, [], rfl, ?_⟩
      · intro acc rest
        simp only [List.singleton_append, parseDigits, hd, List.length_singleton, pow_one]
        rw [Nat.mod_eq_of_lt hlt]
        rfl
      · intro hc
        refine ⟨rfl, ?_⟩
        rw [Nat.mod_eq_of_lt hlt] at hc
        interval_cases n <;> first | rfl | (exact absurd hc (by decide))
    · rename_i h0
      have hlt : n / 10 < f := by omega
      obtain ⟨D, hD, hparse, c, tail, hshape, hzero⟩ := ih (n / 10) (Nat.digitChar (n % 10) :: ds) hlt
      refine ⟨D ++ [Nat.digitChar (n % 10)], by rw [hD]; simp, ?_, c,
        tail ++ [Nat.digitChar (n % 10)], by rw [hshape]; rfl, ?_⟩
      · intro acc rest
        rw [List.append_assoc, hparse]
        simp only [List.singleton_append, parseDigits, hd, List.length_append,
          List.length_singleton]
        congr 1
        have := Nat.div_add_mod n 10
        rw [pow_succ]
        nlinarith [Nat.div_add_mod n 10]
      · intro hc
        exact absurd (hzero hc).2 h0

/-- The decimal text of a natural number reads back as the number. -/
theorem parseNatLiteral_toDigits (n : Nat) : parseNatLiteral (Nat.toDigits 10 n) = some n := by
  obtain ⟨D, hD, hparse, c, tail, hshape, hzero⟩ := toDigitsCore_parse (n + 1) n [] (by omega)
  unfold Nat.toDigits
  rw [hD, List.append_nil, hshape]
  unfold parseNatLiteral
  have hp := hparse 0 []
  rw [List.append_nil, hshape] at hp
  by_cases hc : c = '0'
  · obtain ⟨ht, hn⟩ := hzero hc
    subst ht
    simp only [hc, ne_eq, not_true_eq_false, and_false, if_false]
    rw [hc] at hp
    rw [hp]
    simp [parseDigits]
  · simp only [hc, false_and, if_false]
    rw [hp]
    simp [parseDigits]

/-- The decimal text of an integer reads back as the integer. -/
theorem parseIntLiteral_Itoa (n : Int) : parseIntLiteral (Itoa n).data = some n := by
  cases n with
  | ofNat m =>
    obtain ⟨D, hD, -, c, tail, hshape, hzero⟩ := toDigitsCore_parse (m + 1) m [] (by omega)
    have hne : c ≠ '-' := by
      intro hc
      have hp := parseNatLiteral_toDigits m
      unfold Nat.toDigits at hp
      rw [hD, List.append_nil, hshape, hc] at hp
      simp [parseNatLiteral, parseDigits, digitValue] at hp
    have h := parseNatLiteral_toDigits m
    unfold Itoa
    simp only
    unfold Nat.toDigits at h ⊢
    rw [hD, List.append_nil, hshape] at h ⊢
    unfold parseIntLiteral
    split
    · rename_i heq
      simp only [List.cons.injEq] at heq
      exact absurd heq.1 hne
    · rw [h]
      rfl
  | negSucc m =>
    unfold Itoa
    simp only [parseIntLiteral, parseNatLiteral_toDigits]
    rfl

/-! ## Facts about the decoders of the field types -/

/-- A mapped result is a success exactly when the result is. -/
theorem Except.map_eq_ok {ε α β : Type} (g : α → β) (e : Except ε α) (b : β)
    (h : e.map g = .ok b) : ∃ a, e = .ok a ∧ g a = b := by
  cases e with
  | error _ => simp [Except.map] at h
  | ok a =>
    simp only [Except.map, Except.ok.injEq] at h
    exact ⟨a, rfl, h⟩

/-- A property that every decoding step keeps is kept by the decoding of
all the members. -/
theorem foldlM_invariant {α β : Type} (f : β → α → Except String β) (P : β → Prop)
    (l : List α) (h : ∀ a ∈ l, ∀ b b', P b → f b a = .ok b' → P b') :
    ∀ b r, P b → l.foldlM f b = .ok r → P r := by
  induction l with
  | nil =>
    intro b r hb hr
    simp only [List.foldlM_nil, pure, Except.pure, Except.ok.injEq] at hr
    exact hr ▸ hb
  | cons a rest ih =>
    intro b r hb hr
    rw [List.foldlM_cons] at hr
    cases hstep : f b a with
    | error e => rw [hstep] at hr; simp [bind, Except.bind] at hr
    | ok b' =>
      rw [hstep] at hr
      exact ih (fun a ha => h a (List.mem_cons_of_mem _ ha)) b' r
        (h a (List.mem_cons_self _ _) b b' hb hstep) hr

/-- An integer that decodes is in the 64-bit range when the held one is. -/
theorem decodeInt_range (v : Json) (cur a : Int) (hcur : inInt64 cur)
    (h : decodeInt v cur = .ok a) : inInt64 a := by
  unfold decodeInt at h
  split at h
  · simp only [Except.ok.injEq] at h; exact h ▸ hcur
  · split at h
    · rename_i hr; simp only [Except.ok.injEq] at h; exact h ▸ hr
    · simp at h
  · simp at h

/-- An integer pointer that decodes points to an integer in the 64-bit
range. -/
theorem decodeIntPtr_range (v : Json) (o : Option Int) (h : decodeIntPtr v = .ok o) :
    ∀ n, o = some n → inInt64 n := by
  unfold decodeIntPtr at h
  split at h
  · simp only [Except.ok.injEq] at h; subst h; intro n hn; simp at hn
  · split at h
    · rename_i hr
      simp only [Except.ok.injEq] at h
      subst h
      intro n hn
      simp only [Option.some.injEq] at hn
      exact hn ▸ hr
    · simp at h
  · simp at h

/-- An integer that decodes from its quoted form is in the 64-bit range
when the held one is. -/
theorem decodeQuotedInt_range (v : Json) (cur a : Int) (hcur : inInt64 cur)
    (h : decodeQuotedInt v cur = .ok a) : inInt64 a := by
  unfold decodeQuotedInt at h
  split at h
  · simp only [Except.ok.injEq] at h; exact h ▸ hcur
  · split at h
    · simp only [Except.ok.injEq] at h; exact h ▸ hcur
    · split at h
      · split at h
        · rename_i hr; simp only [Except.ok.injEq] at h; exact h ▸ hr
        · simp at h
      · simp at h
  · simp at h

/-- A float that decodes can be written and read back, when the held one
can and the codec reads back what it writes. -/
theorem decodeFloat_roundTrips (parseFloat : Json → Option Float)
    (formatFloat : Float → Option Json)
    (hF : ∀ v x, parseFloat v = some x → FloatRoundTrips parseFloat formatFloat x)
    (v : Json) (cur a : Float) (hcur : FloatRoundTrips parseFloat formatFloat cur)
    (h : decodeFloat parseFloat v cur = .ok a) : FloatRoundTrips parseFloat formatFloat a := by
  unfold decodeFloat at h
  split at h
  · simp only [Except.ok.injEq] at h; exact h ▸ hcur
  · split at h
    · rename_i hp; simp only [Except.ok.injEq] at h; exact h ▸ hF _ _ hp
    · simp at h
  · split at h
    · rename_i hp; simp only [Except.ok.injEq] at h; exact h ▸ hF _ _ hp
    · simp at h
  · simp at h

/-- A number literal that `parseFloat` reads as `x` decodes to `x`, into a
field and into a pointer. -/
theorem decodeFloat_number (parseFloat : Json → Option Float) (v : Json) (x : Float)
    (hn : v.isNumber = true) (hp : parseFloat v = some x) :
    (∀ held, decodeFloat parseFloat v held = .ok x)
      ∧ decodeFloatPtr parseFloat v = .ok (some x) := by
  cases v with
  | int n => simp [decodeFloat, decodeFloatPtr, hp, Except.map]
  | real lit => simp [decodeFloat, decodeFloatPtr, hp, Except.map]
  | null => cases hn
  | bool b => cases hn
  | str s => cases hn
  | arr xs => cases hn
  | obj kvs => cases hn

/-- A float pointer that decodes points to a float that can be written and
read back. -/
theorem decodeFloatPtr_roundTrips (parseFloat : Json → Option Float)
    (formatFloat : Float → Option Json)
    (hF : ∀ v x, parseFloat v = some x → FloatRoundTrips parseFloat formatFloat x)
    (hF0 : FloatRoundTrips parseFloat formatFloat 0)
    (v : Json) (o : Option Float) (h : decodeFloatPtr parseFloat v = .ok o) :
    ∀ x, o = some x → FloatRoundTrips parseFloat formatFloat x := by
  unfold decodeFloatPtr at h
  split at h
  · simp only [Except.ok.injEq] at h; subst h; intro x hx; simp at hx
  · obtain ⟨a, ha, rfl⟩ := Except.map_eq_ok _ _ _ h
    intro x hx
    simp only [Option.some.injEq] at hx
    exact hx ▸ decodeFloat_roundTrips parseFloat formatFloat hF _ _ _ hF0 ha

/-- A time that decodes can be written and read back, when the held one
can and the codec reads back what it writes. -/
theorem decodeTime_roundTrips (parseTime : String → Option Time)
    (formatTime : Time → Option String)
    (hT : ∀ s t, parseTime s = some t → TimeRoundTrips parseTime formatTime t)
    (v : Json) (cur a : Time) (hcur : TimeRoundTrips parseTime formatTime cur)
    (h : decodeTime parseTime v cur = .ok a) : TimeRoundTrips parseTime formatTime a := by
  unfold decodeTime at h
  split at h
  · simp only [Except.ok.injEq] at h; exact h ▸ hcur
  · split at h
    · rename_i hp; simp only [Except.ok.injEq] at h; exact h ▸ hT _ _ hp
    · simp at h
  · simp at h

/-- A time pointer that decodes points to a time that can be written and
read back. -/
theorem decodeTimePtr_roundTrips (parseTime : String → Option Time)
    (formatTime : Time → Option String)
    (hT : ∀ s t, parseTime s = some t → TimeRoundTrips parseTime formatTime t)
    (hT0 : TimeRoundTrips parseTime formatTime Time.zero)
    (v : Json) (o : Option Time) (h : decodeTimePtr parseTime v = .ok o) :
    ∀ x, o = some x → TimeRoundTrips parseTime formatTime x := by
  unfold decodeTimePtr at h
  split at h
  · simp only [Except.ok.injEq] at h; subst h; intro x hx; simp at hx
  · obtain ⟨a, ha, rfl⟩ := Except.map_eq_ok _ _ _ h
    intro x hx
    simp only [Option.some.injEq] at hx
    exact hx ▸ decodeTime_roundTrips parseTime formatTime hT _ _ _ hT0 ha

/-- A list of strings written as an array of strings decodes back, to a
slice that is not nil. -/
theorem decodeStringSlice_strings (l : List String) :
    decodeStringSlice (.arr (l.map .str)) = .ok (some l) := by
  have h : (l.map Json.str).mapM (fun x => decodeString x "") = Except.ok l := by
    induction l with
    | nil => rfl
    | cons s rest ih =>
      rw [List.map_cons, List.mapM_cons, ih]
      rfl
  unfold decodeStringSlice
  simp only [h]
  rfl

/-! ## Facts about labels and meta-data -/

/-- A label written by `encodeLabel` decodes back to the label. -/
theorem decodeLabel_encodeLabel (l cur : Label) : decodeLabel (encodeLabel l) cur = .ok l := by
  obtain ⟨id, name, parent⟩ := l
  cases parent <;>
    simp +decide [encodeLabel, decodeLabel, decodeLabelField, encodePtr, decodeString,
      decodeStringPtr, Except.map, bind, Except.bind, pure, Except.pure]

/-- Decoding a member that does not match `parent_id` leaves the parent of
a label alone. -/
theorem decodeLabelField_parent (l l' : Label) (kv : String × Json)
    (hk : keyIs "parent_id" kv.1 = false) (h : decodeLabelField l kv = .ok l') :
    l'.ParentID = l.ParentID := by
  unfold decodeLabelField at h
  split at h
  · obtain ⟨a, -, rfl⟩ := Except.map_eq_ok _ _ _ h; rfl
  · split at h
    · obtain ⟨a, -, rfl⟩ := Except.map_eq_ok _ _ _ h; rfl
    · split at h
      · rename_i hp; rw [hk] at hp; cases hp
      · simp only [Except.ok.injEq] at h; subst h; rfl

/-- The integers of decoded meta-data are in the range of `int`. -/
theorem decodeMeta_representable (doc : Json) (m : Meta)
    (h : decodeMeta doc Meta.zero = .ok m) : m.Representable := by
  have hzero : Meta.zero.Representable := by
    refine ⟨by unfold inInt64; decide, ?_, ?_, by unfold inInt64; decide,
      by unfold inInt64; decide, by unfold inInt64; decide⟩ <;> intro n hn <;> cases hn
  unfold decodeMeta at h
  split at h
  · simp only [Except.ok.injEq] at h; exact h ▸ hzero
  · rename_i kvs
    refine foldlM_invariant decodeMetaField Meta.Representable kvs ?_ _ _ hzero h
    intro kv _ b b' hb hstep
    obtain ⟨h1, h2, h3, h4, h5, h6⟩ := hb
    unfold decodeMetaField at hstep
    split_ifs at hstep
    · obtain ⟨a, ha, rfl⟩ := Except.map_eq_ok _ _ _ hstep
      exact ⟨decodeInt_range _ _ _ h1 ha, h2, h3, h4, h5, h6⟩
    · obtain ⟨a, ha, rfl⟩ := Except.map_eq_ok _ _ _ hstep
      exact ⟨h1, decodeIntPtr_range _ _ ha, h3, h4, h5, h6⟩
    · obtain ⟨a, ha, rfl⟩ := Except.map_eq_ok _ _ _ hstep
      exact ⟨h1, h2, decodeIntPtr_range _ _ ha, h4, h5, h6⟩
    · obtain ⟨a, ha, rfl⟩ := Except.map_eq_ok _ _ _ hstep
      exact ⟨h1, h2, h3, decodeInt_range _ _ _ h4 ha, h5, h6⟩
    · obtain ⟨a, ha, rfl⟩ := Except.map_eq_ok _ _ _ hstep
      exact ⟨h1, h2, h3, h4, decodeInt_range _ _ _ h5 ha, h6⟩
    · obtain ⟨a, ha, rfl⟩ := Except.map_eq_ok _ _ _ hstep
      exact ⟨h1, h2, h3, h4, h5, decodeInt_range _ _ _ h6 ha⟩
    · simp only [Except.ok.injEq] at hstep
      exact hstep ▸ ⟨h1, h2, h3, h4, h5, h6⟩
  · simp at h

/-- Meta-data whose integers are in range, written by `encodeMeta`, decode
back to the meta-data. -/
theorem decodeMeta_encodeMeta (m cur : Meta) (hm : m.Representable) :
    decodeMeta (encodeMeta m) cur = .ok m := by
  obtain ⟨cp, np, pp, tp, tc, per⟩ := m
  obtain ⟨h1, h2, h3, h4, h5, h6⟩ := hm
  have h1' : -9223372036854775808 ≤ cp ∧ cp ≤ 9223372036854775807 := h1
  have h4' : -9223372036854775808 ≤ tp ∧ tp ≤ 9223372036854775807 := h4
  have h5' : -9223372036854775808 ≤ tc ∧ tc ≤ 9223372036854775807 := h5
  have h6' : -9223372036854775808 ≤ per ∧ per ≤ 9223372036854775807 := h6
  have hnp : decodeIntPtr (encodePtr Json.int np) = .ok np := by
    cases np with
    | none => rfl
    | some n =>
      have : -9223372036854775808 ≤ n ∧ n ≤ 9223372036854775807 := h2 n rfl
      simp [encodePtr, decodeIntPtr, this]
  have hpp : decodeIntPtr (encodePtr Json.int pp) = .ok pp := by
    cases pp with
    | none => rfl
    | some n =>
      have : -9223372036854775808 ≤ n ∧ n ≤ 9223372036854775807 := h3 n rfl
      simp [encodePtr, decodeIntPtr, this]
  simp +decide [encodeMeta, decodeMeta, decodeMetaField, decodeInt, hnp, hpp, h1', h4', h5',
    h6', Except.map, bind, Except.bind, pure, Except.pure]

/-! ## Facts about attachments -/

/-- The quoted decimal text of an integer in the 64-bit range decodes back
to the integer. -/
theorem decodeQuotedInt_Itoa (n cur : Int) (hn : inInt64 n) :
    decodeQuotedInt (.str (Itoa n)) cur = .ok n := by
  have hparse := parseIntLiteral_Itoa n
  have hne : Itoa n ≠ "null" := by
    intro h
    rw [h] at hparse
    have hnone : parseIntLiteral "null".data = none := by decide
    rw [hnone] at hparse
    cases hparse
  have hn' : -9223372036854775808 ≤ n ∧ n ≤ 9223372036854775807 := hn
  simp only [decodeQuotedInt, hne, if_false, hparse, hn', and_self, if_true]

/-- The time and the size of a decoded attachment can be written and read
back. -/
theorem decodeAttachment_representable (parseTime : String → Option Time)
    (formatTime : Time → Option String)
    (hT : ∀ s t, parseTime s = some t → TimeRoundTrips parseTime formatTime t)
    (hT0 : TimeRoundTrips parseTime formatTime Time.zero)
    (doc : Json) (a : Attachment)
    (h : decodeAttachment parseTime doc Attachment.zero = .ok a) :
    a.Representable parseTime formatTime := by
  have hzero : Attachment.zero.Representable parseTime formatTime :=
    ⟨hT0, by unfold inInt64; decide⟩
  unfold decodeAttachment at h
  split at h
  · simp only [Except.ok.injEq] at h; exact h ▸ hzero
  · rename_i kvs
    refine foldlM_invariant (decodeAttachmentField parseTime)
      (Attachment.Representable parseTime formatTime) kvs ?_ _ _ hzero h
    intro kv _ b b' hb hstep
    obtain ⟨h1, h2⟩ := hb
    unfold decodeAttachmentField at hstep
    split_ifs at hstep
    · obtain ⟨x, hx, rfl⟩ := Except.map_eq_ok _ _ _ hstep
      exact ⟨h1, h2⟩
    · obtain ⟨x, hx, rfl⟩ := Except.map_eq_ok _ _ _ hstep
      exact ⟨decodeTime_roundTrips parseTime formatTime hT _ _ _ h1 hx, h2⟩
    · obtain ⟨x, hx, rfl⟩ := Except.map_eq_ok _ _ _ hstep
      exact ⟨h1, h2⟩
    · obtain ⟨x, hx, rfl⟩ := Except.map_eq_ok _ _ _ hstep
      exact ⟨h1, decodeQuotedInt_range _ _ _ h2 hx⟩
    · obtain ⟨x, hx, rfl⟩ := Except.map_eq_ok _ _ _ hstep
      exact ⟨h1, h2⟩
    · obtain ⟨x, hx, rfl⟩ := Except.map_eq_ok _ _ _ hstep
      exact ⟨h1, h2⟩
    · simp only [Except.ok.injEq] at hstep
      exact hstep ▸ ⟨h1, h2⟩
  · simp at h

/-- An attachment whose time and size can be written is written by
`encodeAttachment`, and what is written decodes back to the attachment;
`file_size` is left out exactly when the size is 0. -/
theorem decodeAttachment_encodeAttachment (parseTime : String → Option Time)
    (formatTime : Time → Option String) (a : Attachment)
    (ha : a.Representable parseTime formatTime) :
    ∃ doc, encodeAttachment formatTime a = .ok doc
      ∧ decodeAttachment parseTime doc Attachment.zero = .ok a
      ∧ (hasKey "file_size" doc = false ↔ a.FileSize = 0) := by
  obtain ⟨id, createdAt, fileName, fileSize, contentType, url⟩ := a
  obtain ⟨⟨s, hs, hps⟩, hsize⟩ := ha
  simp only at hs hps hsize
  by_cases h0 : fileSize = 0
  · subst h0
    refine ⟨_, by simp only [encodeAttachment, encodeTime, hs]; rfl, ?_, ?_⟩
    · simp +decide [omitEmpty, decodeAttachment, decodeAttachmentField, decodeString,
        decodeTime, hps, Except.map, bind, Except.bind, pure, Except.pure, Attachment.zero]
    · simp +decide [omitEmpty, hasKey]
  · have hq := decodeQuotedInt_Itoa fileSize 0 hsize
    refine ⟨_, by simp only [encodeAttachment, encodeTime, hs]; rfl, ?_, ?_⟩
    · simp +decide [omitEmpty, h0, decodeAttachment, decodeAttachmentField, decodeString,
        decodeTime, hps, hq, Except.map, bind, Except.bind, pure, Except.pure, Attachment.zero]
    · simp +decide [omitEmpty, hasKey, h0]

/-! ## Facts about transactions -/

/-- The members written for an `omitempty` field hold its key or nothing. -/
theorem any_omitEmpty (field key : String) (v : Option Json) :
    (omitEmpty key v).any (fun kv => keyIs field kv.1) = (v.isSome && keyIs field key) := by
  cases v <;> simp [omitEmpty]

/-- Decoding members none of which matches a field leaves what a projection
reads alone, when every step on such a member does. -/
theorem absent_of_frame {β γ : Type} (f : β → String × Json → Except String β) (proj : β → γ)
    (field : String)
    (hframe : ∀ b b' kv, keyIs field kv.1 = false → f b kv = .ok b' → proj b' = proj b)
    (kvs : List (String × Json)) (hk : hasKey field (.obj kvs) = false) (b r : β)
    (h : kvs.foldlM f b = .ok r) : proj r = proj b := by
  have hall : ∀ kv ∈ kvs, keyIs field kv.1 = false := by
    intro kv hkv
    simp only [hasKey, List.any_eq_false] at hk
    simpa using hk kv hkv
  exact foldlM_invariant f (fun x => proj x = proj b) kvs
    (fun kv hkv x x' hx hstep => (hframe x x' kv (hall kv hkv) hstep).trans hx) b r rfl h

/-- An optional float that can be written: what `encodeOptional` gives. -/
theorem encodeOptional_float (parseFloat : Json → Option Float)
    (formatFloat : Float → Option Json) (o : Option Float)
    (h : ∀ x, o = some x → FloatRoundTrips parseFloat formatFloat x) :
    ∃ j, encodeOptional (encodeFloat formatFloat) o = .ok j
      ∧ ((o = none ∧ j = none)
        ∨ ∃ x v, o = some x ∧ j = some v ∧ decodeFloatPtr parseFloat v = .ok (some x)) := by
  cases o with
  | none => exact ⟨none, rfl, Or.inl ⟨rfl, rfl⟩⟩
  | some x =>
    obtain ⟨v, hv, hn, hp⟩ := h x rfl
    exact ⟨some v, by simp [encodeOptional, encodeFloat, hv, Except.map],
      Or.inr ⟨x, v, rfl, rfl, (decodeFloat_number parseFloat v x hn hp).2⟩⟩

/-- An optional time that can be written: what `encodeOptional` gives. -/
theorem encodeOptional_time (parseTime : String → Option Time)
    (formatTime : Time → Option String) (o : Option Time)
    (h : ∀ x, o = some x → TimeRoundTrips parseTime formatTime x) :
    ∃ j, encodeOptional (encodeTime formatTime) o = .ok j
      ∧ ((o = none ∧ j = none)
        ∨ ∃ x s, o = some x ∧ j = some (.str s) ∧ parseTime s = some x) := by
  cases o with
  | none => exact ⟨none, rfl, Or.inl ⟨rfl, rfl⟩⟩
  | some x =>
    obtain ⟨s, hs, hp⟩ := h x rfl
    exact ⟨some (.str s), by simp [encodeOptional, encodeTime, hs, Except.map],
      Or.inr ⟨x, s, rfl, rfl, hp⟩⟩

/-- A decoding step of a transaction keeps its numbers and times such that
they can be written and read back. -/
theorem decodeTransactionField_representable (parseFloat : Json → Option Float)
    (formatFloat : Float → Option Json) (parseTime : String → Option Time)
    (formatTime : Time → Option String)
    (hF : ∀ v x, parseFloat v = some x → FloatRoundTrips parseFloat formatFloat x)
    (hF0 : FloatRoundTrips parseFloat formatFloat 0)
    (hT : ∀ s t, parseTime s = some t → TimeRoundTrips parseTime formatTime t)
    (hT0 : TimeRoundTrips parseTime formatTime Time.zero)
    (b b' : Transaction) (kv : String × Json)
    (hb : b.Representable parseFloat formatFloat parseTime formatTime)
    (hstep : decodeTransactionField parseFloat parseTime b kv = .ok b') :
    b'.Representable parseFloat formatFloat parseTime formatTime := by
  obtain ⟨h1, h2, h3, h4, h5, h6, h7, h8, h9⟩ := hb
  unfold decodeTransactionField at hstep
  by_cases hc : keyIs "transaction_id" kv.1 = true
  · rw [if_pos hc] at hstep
    obtain ⟨x, hx, rfl⟩ := Except.map_eq_ok _ _ _ hstep
    exact ⟨h1, h2, h3, h4, h5, h6, h7, h8, h9⟩
  rw [if_neg hc] at hstep
  clear hc
  by_cases hc : keyIs "amount" kv.1 = true
  · rw [if_pos hc] at hstep
    obtain ⟨x, hx, rfl⟩ := Except.map_eq_ok _ _ _ hstep
    exact ⟨decodeFloat_roundTrips parseFloat formatFloat hF _ _ _ h1 hx,
      h2,
      h3,
      h4,
      h5,
      h6,
      h7,
      h8,
      h9⟩
  rw [if_neg hc] at hstep
  clear hc
  by_cases hc : keyIs "amount_cents" kv.1 = true
  · rw [if_pos hc] at hstep
    obtain ⟨x, hx, rfl⟩ := Except.map_eq_ok _ _ _ hstep
    exact ⟨h1,
      decodeInt_range _ _ _ h2 hx,
      h3,
      h4,
      h5,
      h6,
      h7,
      h8,
      h9⟩
  rw [if_neg hc] at hstep
  clear hc
  by_cases hc : keyIs "local_amount" kv.1 = true
  · rw [if_pos hc] at hstep
    obtain ⟨x, hx, rfl⟩ := Except.map_eq_ok _ _ _ hstep
    exact ⟨h1,
      h2,
      decodeFloat_roundTrips parseFloat formatFloat hF _ _ _ h3 hx,
      h4,
      h5,
      h6,
      h7,
      h8,
      h9⟩
  rw [if_neg hc] at hstep
  clear hc
  by_cases hc : keyIs "local_amount_cents" kv.1 = true
  · rw [if_pos hc] at hstep
    obtain ⟨x, hx, rfl⟩ := Except.map_eq_ok _ _ _ hstep
    exact ⟨h1,
      h2,
      h3,
      decodeInt_range _ _ _ h4 hx,
      h5,
      h6,
      h7,
      h8,
      h9⟩
  rw [if_neg hc] at hstep
  clear hc
  by_cases hc : keyIs "side" kv.1 = true
  · rw [if_pos hc] at hstep
    obtain ⟨x, hx, rfl⟩ := Except.map_eq_ok _ _ _ hstep
    exact ⟨h1, h2, h3, h4, h5, h6, h7, h8, h9⟩
  rw [if_neg hc] at hstep
  clear hc
  by_cases hc : keyIs "operation_type" kv.1 = true
  · rw [if_pos hc] at hstep
    obtain ⟨x, hx, rfl⟩ := Except.map_eq_ok _ _ _ hstep
    exact ⟨h1, h2, h3, h4, h5, h6, h7, h8, h9⟩
  rw [if_neg hc] at hstep
  clear hc
  by_cases hc : keyIs "currency" kv.1 = true
  · rw [if_pos hc] at hstep
    obtain ⟨x, hx, rfl⟩ := Except.map_eq_ok _ _ _ hstep
    exact ⟨h1, h2, h3, h4, h5, h6, h7, h8, h9⟩
  rw [if_neg hc] at hstep
  clear hc
  by_cases hc : keyIs "local_currency" kv.1 = true
  · rw [if_pos hc] at hstep
    obtain ⟨x, hx, rfl⟩ := Except.map_eq_ok _ _ _ hstep
    exact ⟨h1, h2, h3, h4, h5, h6, h7, h8, h9⟩
  rw [if_neg hc] at hstep
  clear hc
  by_cases hc : keyIs "settled_at" kv.1 = true
  · rw [if_pos hc] at hstep
    obtain ⟨x, hx, rfl⟩ := Except.map_eq_ok _ _ _ hstep
    exact ⟨h1,
      h2,
      h3,
      h4,
      decodeTimePtr_roundTrips parseTime formatTime hT hT0 _ _ hx,
      h6,
      h7,
      h8,
      h9⟩
  rw [if_neg hc] at hstep
  clear hc
  by_cases hc : keyIs "emitted_at" kv.1 = true
  · rw [if_pos hc] at hstep
    obtain ⟨x, hx, rfl⟩ := Except.map_eq_ok _ _ _ hstep
    exact ⟨h1,
      h2,
      h3,
      h4,
      h5,
      decodeTime_roundTrips parseTime formatTime hT _ _ _ h6 hx,
      h7,
      h8,
      h9⟩
  rw [if_neg hc] at hstep
  clear hc
  by_cases hc : keyIs "status" kv.1 = true
  · rw [if_pos hc] at hstep
    obtain ⟨x, hx, rfl⟩ := Except.map_eq_ok _ _ _ hstep
    exact ⟨h1, h2, h3, h4, h5, h6, h7, h8, h9⟩
  rw [if_neg hc] at hstep
  clear hc
  by_cases hc : keyIs "note" kv.1 = true
  · rw [if_pos hc] at hstep
    obtain ⟨x, hx, rfl⟩ := Except.map_eq_ok _ _ _ hstep
    exact ⟨h1, h2, h3, h4, h5, h6, h7, h8, h9⟩
  rw [if_neg hc] at hstep
  clear hc
  by_cases hc : keyIs "label" kv.1 = true
  · rw [if_pos hc] at hstep
    obtain ⟨x, hx, rfl⟩ := Except.map_eq_ok _ _ _ hstep
    exact ⟨h1, h2, h3, h4, h5, h6, h7, h8, h9⟩
  rw [if_neg hc] at hstep
  clear hc
  by_cases hc : keyIs "vat_amount" kv.1 = true
  · rw [if_pos hc] at hstep
    obtain ⟨x, hx, rfl⟩ := Except.map_eq_ok _ _ _ hstep
    exact ⟨h1,
      h2,
      h3,
      h4,
      h5,
      h6,
      decodeFloatPtr_roundTrips parseFloat formatFloat hF hF0 _ _ hx,
      h8,
      h9⟩
  rw [if_neg hc] at hstep
  clear hc
  by_cases hc : keyIs "vat_amount_cents" kv.1 = true
  · rw [if_pos hc] at hstep
    obtain ⟨x, hx, rfl⟩ := Except.map_eq_ok _ _ _ hstep
    exact ⟨h1,
      h2,
      h3,
      h4,
      h5,
      h6,
      h7,
      decodeIntPtr_range _ _ hx,
      h9⟩
  rw [if_neg hc] at hstep
  clear hc
  by_cases hc : keyIs "vat_rate" kv.1 = true
  · rw [if_pos hc] at hstep
    obtain ⟨x, hx, rfl⟩ := Except.map_eq_ok _ _ _ hstep
    exact ⟨h1,
      h2,
      h3,
      h4,
      h5,
      h6,
      h7,
      h8,
      decodeFloatPtr_roundTrips parseFloat formatFloat hF hF0 _ _ hx⟩
  rw [if_neg hc] at hstep
  clear hc
  by_cases hc : keyIs "initiator_id" kv.1 = true
  · rw [if_pos hc] at hstep
    obtain ⟨x, hx, rfl⟩ := Except.map_eq_ok _ _ _ hstep
    exact ⟨h1, h2, h3, h4, h5, h6, h7, h8, h9⟩
  rw [if_neg hc] at hstep
  clear hc
  by_cases hc : keyIs "label_ids" kv.1 = true
  · rw [if_pos hc] at hstep
    obtain ⟨x, hx, rfl⟩ := Except.map_eq_ok _ _ _ hstep
    exact ⟨h1, h2, h3, h4, h5, h6, h7, h8, h9⟩
  rw [if_neg hc] at hstep
  clear hc
  by_cases hc : keyIs "attachment_ids" kv.1 = true
  · rw [if_pos hc] at hstep
    obtain ⟨x, hx, rfl⟩ := Except.map_eq_ok _ _ _ hstep
    exact ⟨h1, h2, h3, h4, h5, h6, h7, h8, h9⟩
  rw [if_neg hc] at hstep
  clear hc
  by_cases hc : keyIs "attachment_lost" kv.1 = true
  · rw [if_pos hc] at hstep
    obtain ⟨x, hx, rfl⟩ := Except.map_eq_ok _ _ _ hstep
    exact ⟨h1, h2, h3, h4, h5, h6, h7, h8, h9⟩
  rw [if_neg hc] at hstep
  clear hc
  by_cases hc : keyIs "attachment_required" kv.1 = true
  · rw [if_pos hc] at hstep
    obtain ⟨x, hx, rfl⟩ := Except.map_eq_ok _ _ _ hstep
    exact ⟨h1, h2, h3, h4, h5, h6, h7, h8, h9⟩
  rw [if_neg hc] at hstep
  clear hc
  simp only [Except.ok.injEq] at hstep
  exact hstep ▸ ⟨h1, h2, h3, h4, h5, h6, h7, h8, h9⟩

/-- The numbers and the times of a decoded transaction can be written and
read back. -/
theorem decodeTransaction_representable (parseFloat : Json → Option Float)
    (formatFloat : Float → Option Json) (parseTime : String → Option Time)
    (formatTime : Time → Option String)
    (hF : ∀ v x, parseFloat v = some x → FloatRoundTrips parseFloat formatFloat x)
    (hF0 : FloatRoundTrips parseFloat formatFloat 0)
    (hT : ∀ s t, parseTime s = some t → TimeRoundTrips parseTime formatTime t)
    (hT0 : TimeRoundTrips parseTime formatTime Time.zero)
    (doc : Json) (t : Transaction)
    (h : decodeTransaction parseFloat parseTime doc Transaction.zero = .ok t) :
    t.Representable parseFloat formatFloat parseTime formatTime := by
  have hzero : Transaction.zero.Representable parseFloat formatFloat parseTime formatTime := by
    refine ⟨hF0, by unfold inInt64; decide, hF0, by unfold inInt64; decide, ?_, hT0, ?_, ?_, ?_⟩
      <;> intro x hx <;> cases hx
  unfold decodeTransaction at h
  split at h
  · simp only [Except.ok.injEq] at h; exact h ▸ hzero
  · rename_i kvs
    exact foldlM_invariant (decodeTransactionField parseFloat parseTime)
      (Transaction.Representable parseFloat formatFloat parseTime formatTime) kvs
      (fun kv _ b b' hb hstep => decodeTransactionField_representable parseFloat formatFloat
        parseTime formatTime hF hF0 hT hT0 b b' kv hb hstep) _ _ hzero h
  · cases h

/-- A decoding step of a transaction writes only the field its key matches:
the optional fields whose key the member does not match are left alone. -/
theorem decodeTransactionField_frame (parseFloat : Json → Option Float)
    (parseTime : String → Option Time) (b b' : Transaction) (kv : String × Json)
    (h : decodeTransactionField parseFloat parseTime b kv = .ok b') :
    (keyIs "settled_at" kv.1 = false → b'.SettledAt = b.SettledAt) ∧
      (keyIs "note" kv.1 = false → b'.Note = b.Note) ∧
      (keyIs "label" kv.1 = false → b'.Label = b.Label) ∧
      (keyIs "vat_amount" kv.1 = false → b'.VATAmount = b.VATAmount) ∧
      (keyIs "vat_amount_cents" kv.1 = false → b'.VATAmountCents = b.VATAmountCents) ∧
      (keyIs "vat_rate" kv.1 = false → b'.VATRate = b.VATRate) ∧
      (keyIs "initiator_id" kv.1 = false → b'.InitiatorID = b.InitiatorID) ∧
      (keyIs "label_ids" kv.1 = false → b'.LabelIDs = b.LabelIDs) ∧
      (keyIs "attachment_ids" kv.1 = false → b'.AttachmentIDs = b.AttachmentIDs) := by
  unfold decodeTransactionField at h
  by_cases hc : keyIs "transaction_id" kv.1 = true
  · rw [if_pos hc] at h
    obtain ⟨x, -, rfl⟩ := Except.map_eq_ok _ _ _ h
    exact ⟨fun _ => rfl,
      fun _ => rfl,
      fun _ => rfl,
      fun _ => rfl,
      fun _ => rfl,
      fun _ => rfl,
      fun _ => rfl,
      fun _ => rfl,
      fun _ => rfl⟩
  rw [if_neg hc] at h
  clear hc
  by_cases hc : keyIs "amount" kv.1 = true
  · rw [if_pos hc] at h
    obtain ⟨x, -, rfl⟩ := Except.map_eq_ok _ _ _ h
    exact ⟨fun _ => rfl,
      fun _ => rfl,
      fun _ => rfl,
      fun _ => rfl,
      fun _ => rfl,
      fun _ => rfl,
      fun _ => rfl,
      fun _ => rfl,
      fun _ => rfl⟩
  rw [if_neg hc] at h
  clear hc
  by_cases hc : keyIs "amount_cents" kv.1 = true
  · rw [if_pos hc] at h
    obtain ⟨x, -, rfl⟩ := Except.map_eq_ok _ _ _ h
    exact ⟨fun _ => rfl,
      fun _ => rfl,
      fun _ => rfl,
      fun _ => rfl,
      fun _ => rfl,
      fun _ => rfl,
      fun _ => rfl,
      fun _ => rfl,
      fun _ => rfl⟩
  rw [if_neg hc] at h
  clear hc
  by_cases hc : keyIs "local_amount" kv.1 = true
  · rw [if_pos hc] at h
    obtain ⟨x, -, rfl⟩ := Except.map_eq_ok _ _ _ h
    exact ⟨fun _ => rfl,
      fun _ => rfl,
      fun _ => rfl,
      fun _ => rfl,
      fun _ => rfl,
      fun _ => rfl,
      fun _ => rfl,
      fun _ => rfl,
      fun _ => rfl⟩
  rw [if_neg hc] at h
  clear hc
  by_cases hc : keyIs "local_amount_cents" kv.1 = true
  · rw [if_pos hc] at h
    obtain ⟨x, -, rfl⟩ := Except.map_eq_ok _ _ _ h
    exact ⟨fun _ => rfl,
      fun _ => rfl,
      fun _ => rfl,
      fun _ => rfl,
      fun _ => rfl,
      fun _ => rfl,
      fun _ => rfl,
      fun _ => rfl,
      fun _ => rfl⟩
  rw [if_neg hc] at h
  clear hc
  by_cases hc : keyIs "side" kv.1 = true
  · rw [if_pos hc] at h
    obtain ⟨x, -, rfl⟩ := Except.map_eq_ok _ _ _ h
    exact ⟨fun _ => rfl,
      fun _ => rfl,
      fun _ => rfl,
      fun _ => rfl,
      fun _ => rfl,
      fun _ => rfl,
      fun _ => rfl,
      fun _ => rfl,
      fun _ => rfl⟩
  rw [if_neg hc] at h
  clear hc
  by_cases hc : keyIs "operation_type" kv.1 = true
  · rw [if_pos hc] at h
    obtain ⟨x, -, rfl⟩ := Except.map_eq_ok _ _ _ h
    exact ⟨fun _ => rfl,
      fun _ => rfl,
      fun _ => rfl,
      fun _ => rfl,
      fun _ => rfl,
      fun _ => rfl,
      fun _ => rfl,
      fun _ => rfl,
      fun _ => rfl⟩
  rw [if_neg hc] at h
  clear hc
  by_cases hc : keyIs "currency" kv.1 = true
  · rw [if_pos hc] at h
    obtain ⟨x, -, rfl⟩ := Except.map_eq_ok _ _ _ h
    exact ⟨fun _ => rfl,
      fun _ => rfl,
      fun _ => rfl,
      fun _ => rfl,
      fun _ => rfl,
      fun _ => rfl,
      fun _ => rfl,
      fun _ => rfl,
      fun _ => rfl⟩
  rw [if_neg hc] at h
  clear hc
  by_cases hc : keyIs "local_currency" kv.1 = true
  · rw [if_pos hc] at h
    obtain ⟨x, -, rfl⟩ := Except.map_eq_ok _ _ _ h
    exact ⟨fun _ => rfl,
      fun _ => rfl,
      fun _ => rfl,
      fun _ => rfl,
      fun _ => rfl,
      fun _ => rfl,
      fun _ => rfl,
      fun _ => rfl,
      fun _ => rfl⟩
  rw [if_neg hc] at h
  clear hc
  by_cases hc : keyIs "settled_at" kv.1 = true
  · rw [if_pos hc] at h
    obtain ⟨x, -, rfl⟩ := Except.map_eq_ok _ _ _ h
    exact ⟨fun hk => absurd hc (by rw [hk]; decide),
      fun _ => rfl,
      fun _ => rfl,
      fun _ => rfl,
      fun _ => rfl,
      fun _ => rfl,
      fun _ => rfl,
      fun _ => rfl,
      fun _ => rfl⟩
  rw [if_neg hc] at h
  clear hc
  by_cases hc : keyIs "emitted_at" kv.1 = true
  · rw [if_pos hc] at h
    obtain ⟨x, -, rfl⟩ := Except.map_eq_ok _ _ _ h
    exact ⟨fun _ => rfl,
      fun _ => rfl,
      fun _ => rfl,
      fun _ => rfl,
      fun _ => rfl,
      fun _ => rfl,
      fun _ => rfl,
      fun _ => rfl,
      fun _ => rfl⟩
  rw [if_neg hc] at h
  clear hc
  by_cases hc : keyIs "status" kv.1 = true
  · rw [if_pos hc] at h
    obtain ⟨x, -, rfl⟩ := Except.map_eq_ok _ _ _ h
    exact ⟨fun _ => rfl,
      fun _ => rfl,
      fun _ => rfl,
      fun _ => rfl,
      fun _ => rfl,
      fun _ => rfl,
      fun _ => rfl,
      fun _ => rfl,
      fun _ => rfl⟩
  rw [if_neg hc] at h
  clear hc
  by_cases hc : keyIs "note" kv.1 = true
  · rw [if_pos hc] at h
    obtain ⟨x, -, rfl⟩ := Except.map_eq_ok _ _ _ h
    exact ⟨fun _ => rfl,
      fun hk => absurd hc (by rw [hk]; decide),
      fun _ => rfl,
      fun _ => rfl,
      fun _ => rfl,
      fun _ => rfl,
      fun _ => rfl,
      fun _ => rfl,
      fun _ => rfl⟩
  rw [if_neg hc] at h
  clear hc
  by_cases hc : keyIs "label" kv.1 = true
  · rw [if_pos hc] at h
    obtain ⟨x, -, rfl⟩ := Except.map_eq_ok _ _ _ h
    exact ⟨fun _ => rfl,
      fun _ => rfl,
      fun hk => absurd hc (by rw [hk]; decide),
      fun _ => rfl,
      fun _ => rfl,
      fun _ => rfl,
      fun _ => rfl,
      fun _ => rfl,
      fun _ => rfl⟩
  rw [if_neg hc] at h
  clear hc
  by_cases hc : keyIs "vat_amount" kv.1 = true
  · rw [if_pos hc] at h
    obtain ⟨x, -, rfl⟩ := Except.map_eq_ok _ _ _ h
    exact ⟨fun _ => rfl,
      fun _ => rfl,
      fun _ => rfl,
      fun hk => absurd hc (by rw [hk]; decide),
      fun _ => rfl,
      fun _ => rfl,
      fun _ => rfl,
      fun _ => rfl,
      fun _ => rfl⟩
  rw [if_neg hc] at h
  clear hc
  by_cases hc : keyIs "vat_amount_cents" kv.1 = true
  · rw [if_pos hc] at h
    obtain ⟨x, -, rfl⟩ := Except.map_eq_ok _ _ _ h
    exact ⟨fun _ => rfl,
      fun _ => rfl,
      fun _ => rfl,
      fun _ => rfl,
      fun hk => absurd hc (by rw [hk]; decide),
      fun _ => rfl,
      fun _ => rfl,
      fun _ => rfl,
      fun _ => rfl⟩
  rw [if_neg hc] at h
  clear hc
  by_cases hc : keyIs "vat_rate" kv.1 = true
  · rw [if_pos hc] at h
    obtain ⟨x, -, rfl⟩ := Except.map_eq_ok _ _ _ h
    exact ⟨fun _ => rfl,
      fun _ => rfl,
      fun _ => rfl,
      fun _ => rfl,
      fun _ => rfl,
      fun hk => absurd hc (by rw [hk]; decide),
      fun _ => rfl,
      fun _ => rfl,
      fun _ => rfl⟩
  rw [if_neg hc] at h
  clear hc
  by_cases hc : keyIs "initiator_id" kv.1 = true
  · rw [if_pos hc] at h
    obtain ⟨x, -, rfl⟩ := Except.map_eq_ok _ _ _ h
    exact ⟨fun _ => rfl,
      fun _ => rfl,
      fun _ => rfl,
      fun _ => rfl,
      fun _ => rfl,
      fun _ => rfl,
      fun hk => absurd hc (by rw [hk]; decide),
      fun _ => rfl,
      fun _ => rfl⟩
  rw [if_neg hc] at h
  clear hc
  by_cases hc : keyIs "label_ids" kv.1 = true
  · rw [if_pos hc] at h
    obtain ⟨x, -, rfl⟩ := Except.map_eq_ok _ _ _ h
    exact ⟨fun _ => rfl,
      fun _ => rfl,
      fun _ => rfl,
      fun _ => rfl,
      fun _ => rfl,
      fun _ => rfl,
      fun _ => rfl,
      fun hk => absurd hc (by rw [hk]; decide),
      fun _ => rfl⟩
  rw [if_neg hc] at h
  clear hc
  by_cases hc : keyIs "attachment_ids" kv.1 = true
  · rw [if_pos hc] at h
    obtain ⟨x, -, rfl⟩ := Except.map_eq_ok _ _ _ h
    exact ⟨fun _ => rfl,
      fun _ => rfl,
      fun _ => rfl,
      fun _ => rfl,
      fun _ => rfl,
      fun _ => rfl,
      fun _ => rfl,
      fun _ => rfl,
      fun hk => absurd hc (by rw [hk]; decide)⟩
  rw [if_neg hc] at h
  clear hc
  by_cases hc : keyIs "attachment_lost" kv.1 = true
  · rw [if_pos hc] at h
    obtain ⟨x, -, rfl⟩ := Except.map_eq_ok _ _ _ h
    exact ⟨fun _ => rfl,
      fun _ => rfl,
      fun _ => rfl,
      fun _ => rfl,
      fun _ => rfl,
      fun _ => rfl,
      fun _ => rfl,
      fun _ => rfl,
      fun _ => rfl⟩
  rw [if_neg hc] at h
  clear hc
  by_cases hc : keyIs "attachment_required" kv.1 = true
  · rw [if_pos hc] at h
    obtain ⟨x, -, rfl⟩ := Except.map_eq_ok _ _ _ h
    exact ⟨fun _ => rfl,
      fun _ => rfl,
      fun _ => rfl,
      fun _ => rfl,
      fun _ => rfl,
      fun _ => rfl,
      fun _ => rfl,
      fun _ => rfl,
      fun _ => rfl⟩
  rw [if_neg hc] at h
  clear hc
  simp only [Except.ok.injEq] at h
  subst h
  exact ⟨fun _ => rfl,
    fun _ => rfl,
    fun _ => rfl,
    fun _ => rfl,
    fun _ => rfl,
    fun _ => rfl,
    fun _ => rfl,
    fun _ => rfl,
    fun _ => rfl⟩

/-- An optional field of a transaction whose key is absent from the document
decodes to nil. -/
theorem decodeTransaction_absent (parseFloat : Json → Option Float)
    (parseTime : String → Option Time) (doc : Json) (t : Transaction)
    (h : decodeTransaction parseFloat parseTime doc Transaction.zero = .ok t) :
    (hasKey "settled_at" doc = false → t.SettledAt = none) ∧
      (hasKey "note" doc = false → t.Note = none) ∧
      (hasKey "label" doc = false → t.Label = none) ∧
      (hasKey "vat_amount" doc = false → t.VATAmount = none) ∧
      (hasKey "vat_amount_cents" doc = false → t.VATAmountCents = none) ∧
      (hasKey "vat_rate" doc = false → t.VATRate = none) ∧
      (hasKey "initiator_id" doc = false → t.InitiatorID = none) ∧
      (hasKey "label_ids" doc = false → t.LabelIDs = none) ∧
      (hasKey "attachment_ids" doc = false → t.AttachmentIDs = none) := by
  unfold decodeTransaction at h
  split at h
  · simp only [Except.ok.injEq] at h
    subst h
    exact ⟨fun _ => rfl, fun _ => rfl, fun _ => rfl, fun _ => rfl, fun _ => rfl,
      fun _ => rfl, fun _ => rfl, fun _ => rfl, fun _ => rfl⟩
  · rename_i kvs
    refine ⟨?_, ?_, ?_, ?_, ?_, ?_, ?_, ?_, ?_⟩
    · intro hk
      exact absent_of_frame (decodeTransactionField parseFloat parseTime) (·.SettledAt) "settled_at"
        (fun b b' kv hkv hstep =>
          (decodeTransactionField_frame parseFloat parseTime b b' kv hstep).1 hkv)
        kvs hk _ _ h
    · intro hk
      exact absent_of_frame (decodeTransactionField parseFloat parseTime) (·.Note) "note"
        (fun b b' kv hkv hstep =>
          (decodeTransactionField_frame parseFloat parseTime b b' kv hstep).2.1 hkv)
        kvs hk _ _ h
    · intro hk
      exact absent_of_frame (decodeTransactionField parseFloat parseTime) (·.Label) "label"
        (fun b b' kv hkv hstep =>
          (decodeTransactionField_frame parseFloat parseTime b b' kv hstep).2.2.1 hkv)
        kvs hk _ _ h
    · intro hk
      exact absent_of_frame (decodeTransactionField parseFloat parseTime) (·.VATAmount) "vat_amount"
        (fun b b' kv hkv hstep =>
          (decodeTransactionField_frame parseFloat parseTime b b' kv hstep).2.2.2.1 hkv)
        kvs hk _ _ h
    · intro hk
      exact absent_of_frame (decodeTransactionField parseFloat parseTime) (·.VATAmountCents) "vat_amount_cents"
        (fun b b' kv hkv hstep =>
          (decodeTransactionField_frame parseFloat parseTime b b' kv hstep).2.2.2.2.1 hkv)
        kvs hk _ _ h
    · intro hk
      exact absent_of_frame (decodeTransactionField parseFloat parseTime) (·.VATRate) "vat_rate"
        (fun b b' kv hkv hstep =>
          (decodeTransactionField_frame parseFloat parseTime b b' kv hstep).2.2.2.2.2.1 hkv)
        kvs hk _ _ h
    · intro hk
      exact absent_of_frame (decodeTransactionField parseFloat parseTime) (·.InitiatorID) "initiator_id"
        (fun b b' kv hkv hstep =>
          (decodeTransactionField_frame parseFloat parseTime b b' kv hstep).2.2.2.2.2.2.1 hkv)
        kvs hk _ _ h
    · intro hk
      exact absent_of_frame (decodeTransactionField parseFloat parseTime) (·.LabelIDs) "label_ids"
        (fun b b' kv hkv hstep =>
          (decodeTransactionField_frame parseFloat parseTime b b' kv hstep).2.2.2.2.2.2.2.1 hkv)
        kvs hk _ _ h
    · intro hk
      exact absent_of_frame (decodeTransactionField parseFloat parseTime) (·.AttachmentIDs) "attachment_ids"
        (fun b b' kv hkv hstep =>
          (decodeTransactionField_frame parseFloat parseTime b b' kv hstep).2.2.2.2.2.2.2.2 hkv)
        kvs hk _ _ h
  · cases h

/-- A transaction whose numbers and times can be written is written by
`encodeTransaction`; what is written decodes back to the transaction with
its empty slices turned into nil slices, and holds the key of an optional
field exactly when the field is not nil (for a slice: neither nil nor
empty). -/
theorem decodeTransaction_encodeTransaction (parseFloat : Json → Option Float)
    (formatFloat : Float → Option Json) (parseTime : String → Option Time)
    (formatTime : Time → Option String) (t : Transaction)
    (ht : t.Representable parseFloat formatFloat parseTime formatTime) :
    ∃ doc, encodeTransaction formatFloat formatTime t = .ok doc
      ∧ decodeTransaction parseFloat parseTime doc Transaction.zero
        = .ok { t with
            LabelIDs := t.LabelIDs.filter fun l => !l.isEmpty
            AttachmentIDs := t.AttachmentIDs.filter fun l => !l.isEmpty }
      ∧ (hasKey "settled_at" doc = false ↔ t.SettledAt = none) ∧
        (hasKey "note" doc = false ↔ t.Note = none) ∧
        (hasKey "label" doc = false ↔ t.Label = none) ∧
        (hasKey "vat_amount" doc = false ↔ t.VATAmount = none) ∧
        (hasKey "vat_amount_cents" doc = false ↔ t.VATAmountCents = none) ∧
        (hasKey "vat_rate" doc = false ↔ t.VATRate = none) ∧
        (hasKey "initiator_id" doc = false ↔ t.InitiatorID = none) ∧
        (hasKey "label_ids" doc = false ↔ (t.LabelIDs = none ∨ t.LabelIDs = some [])) ∧
        (hasKey "attachment_ids" doc = false
          ↔ (t.AttachmentIDs = none ∨ t.AttachmentIDs = some [])) := by
  obtain ⟨id, amount, amountCents, localAmount, localAmountCents, side, operationType, currency, localCurrency, settledAt, emittedAt, status, note, label, vatAmount, vatAmountCents, vatRate, initiatorID, labelIDs, attachmentIDs, attachmentLost, attachmentRequired⟩ := t
  obtain ⟨⟨vA, hfA, hnA, hpA⟩, hAC, ⟨vL, hfL, hnL, hpL⟩, hLC, hS, ⟨sE, hfE, hpE⟩, hV, hVC,
    hR⟩ := ht
  simp only at hfA hnA hpA hAC hfL hnL hpL hLC hS hfE hpE hV hVC hR
  have hdA := (decodeFloat_number parseFloat vA amount hnA hpA).1
  have hdL := (decodeFloat_number parseFloat vL localAmount hnL hpL).1
  have hAC' : -9223372036854775808 ≤ amountCents ∧ amountCents ≤ 9223372036854775807 := hAC
  have hLC' : -9223372036854775808 ≤ localAmountCents
      ∧ localAmountCents ≤ 9223372036854775807 := hLC
  obtain ⟨jS, hjS, hcS⟩ := encodeOptional_time parseTime formatTime settledAt hS
  obtain ⟨jV, hjV, hcV⟩ := encodeOptional_float parseFloat formatFloat vatAmount hV
  obtain ⟨jR, hjR, hcR⟩ := encodeOptional_float parseFloat formatFloat vatRate hR
  have e_id : ∀ r : Transaction,
      decodeTransactionField parseFloat parseTime r ("transaction_id", .str id) = .ok { r with ID := id } := by
    intro r
    simp +decide [decodeTransactionField, decodeString, Except.map]
  have e_amount : ∀ r : Transaction,
      decodeTransactionField parseFloat parseTime r ("amount", vA) = .ok { r with Amount := amount } := by
    intro r
    simp +decide [decodeTransactionField, hdA, Except.map]
  have e_amountCents : ∀ r : Transaction,
      decodeTransactionField parseFloat parseTime r ("amount_cents", .int amountCents) = .ok { r with AmountCents := amountCents } := by
    intro r
    simp +decide [decodeTransactionField, decodeInt, hAC', Except.map]
  have e_localAmount : ∀ r : Transaction,
      decodeTransactionField parseFloat parseTime r ("local_amount", vL) = .ok { r with LocalAmount := localAmount } := by
    intro r
    simp +decide [decodeTransactionField, hdL, Except.map]
  have e_localAmountCents : ∀ r : Transaction,
      decodeTransactionField parseFloat parseTime r ("local_amount_cents", .int localAmountCents) = .ok { r with LocalAmountCents := localAmountCents } := by
    intro r
    simp +decide [decodeTransactionField, decodeInt, hLC', Except.map]
  have e_side : ∀ r : Transaction,
      decodeTransactionField parseFloat parseTime r ("side", .str side) = .ok { r with Side := side } := by
    intro r
    simp +decide [decodeTransactionField, decodeString, Except.map]
  have e_operationType : ∀ r : Transaction,
      decodeTransactionField parseFloat parseTime r ("operation_type", .str operationType) = .ok { r with OperationType := operationType } := by
    intro r
    simp +decide [decodeTransactionField, decodeString, Except.map]
  have e_currency : ∀ r : Transaction,
      decodeTransactionField parseFloat parseTime r ("currency", .str currency) = .ok { r with Currency := currency } := by
    intro r
    simp +decide [decodeTransactionField, decodeString, Except.map]
  have e_localCurrency : ∀ r : Transaction,
      decodeTransactionField parseFloat parseTime r ("local_currency", .str localCurrency) = .ok { r with LocalCurrency := localCurrency } := by
    intro r
    simp +decide [decodeTransactionField, decodeString, Except.map]
  have e_emittedAt : ∀ r : Transaction,
      decodeTransactionField parseFloat parseTime r ("emitted_at", .str sE) = .ok { r with EmittedAt := emittedAt } := by
    intro r
    simp +decide [decodeTransactionField, decodeTime, hpE, Except.map]
  have e_status : ∀ r : Transaction,
      decodeTransactionField parseFloat parseTime r ("status", .str status) = .ok { r with Status := status } := by
    intro r
    simp +decide [decodeTransactionField, decodeString, Except.map]
  have o_settledAt : ∀ r : Transaction, r.SettledAt = none →
      List.foldlM (decodeTransactionField parseFloat parseTime) r
        (omitEmpty "settled_at" jS) = .ok { r with SettledAt := settledAt } := by
    intro r hr
    rcases hcS with ⟨rfl, rfl⟩ | ⟨x, s, rfl, rfl, hp⟩
    · cases r; simp only at hr; subst hr; rfl
    · simp +decide [omitEmpty, decodeTransactionField, decodeTimePtr, decodeTime, hp,
        Except.map, bind, Except.bind, pure, Except.pure]
  have o_note : ∀ r : Transaction, r.Note = none →
      List.foldlM (decodeTransactionField parseFloat parseTime) r
        (omitEmpty "note" (note.map .str)) = .ok { r with Note := note } := by
    intro r hr
    cases note with
    | none => cases r; simp only at hr; subst hr; rfl
    | some x =>
      simp +decide [omitEmpty, decodeTransactionField, decodeStringPtr, Except.map, bind,
        Except.bind, pure, Except.pure]
  have o_label : ∀ r : Transaction, r.Label = none →
      List.foldlM (decodeTransactionField parseFloat parseTime) r
        (omitEmpty "label" (label.map .str)) = .ok { r with Label := label } := by
    intro r hr
    cases label with
    | none => cases r; simp only at hr; subst hr; rfl
    | some x =>
      simp +decide [omitEmpty, decodeTransactionField, decodeStringPtr, Except.map, bind,
        Except.bind, pure, Except.pure]
  have o_vatAmount : ∀ r : Transaction, r.VATAmount = none →
      List.foldlM (decodeTransactionField parseFloat parseTime) r
        (omitEmpty "vat_amount" jV) = .ok { r with VATAmount := vatAmount } := by
    intro r hr
    rcases hcV with ⟨rfl, rfl⟩ | ⟨x, w, rfl, rfl, hw⟩
    · cases r; simp only at hr; subst hr; rfl
    · simp +decide [omitEmpty, decodeTransactionField, hw, Except.map, bind, Except.bind, pure,
        Except.pure]
  have o_vatAmountCents : ∀ r : Transaction, r.VATAmountCents = none →
      List.foldlM (decodeTransactionField parseFloat parseTime) r
        (omitEmpty "vat_amount_cents" (vatAmountCents.map .int)) = .ok { r with VATAmountCents := vatAmountCents } := by
    intro r hr
    cases vatAmountCents with
    | none => cases r; simp only at hr; subst hr; rfl
    | some x =>
      have hx : -9223372036854775808 ≤ x ∧ x ≤ 9223372036854775807 := hVC x rfl
      simp +decide [omitEmpty, decodeTransactionField, decodeIntPtr, hx, Except.map, bind,
        Except.bind, pure, Except.pure]
  have o_vatRate : ∀ r : Transaction, r.VATRate = none →
      List.foldlM (decodeTransactionField parseFloat parseTime) r
        (omitEmpty "vat_rate" jR) = .ok { r with VATRate := vatRate } := by
    intro r hr
    rcases hcR with ⟨rfl, rfl⟩ | ⟨x, w, rfl, rfl, hw⟩
    · cases r; simp only at hr; subst hr; rfl
    · simp +decide [omitEmpty, decodeTransactionField, hw, Except.map, bind, Except.bind, pure,
        Except.pure]
  have o_initiatorID : ∀ r : Transaction, r.InitiatorID = none →
      List.foldlM (decodeTransactionField parseFloat parseTime) r
        (omitEmpty "initiator_id" (initiatorID.map .str)) = .ok { r with InitiatorID := initiatorID } := by
    intro r hr
    cases initiatorID with
    | none => cases r; simp only at hr; subst hr; rfl
    | some x =>
      simp +decide [omitEmpty, decodeTransactionField, decodeStringPtr, Except.map, bind,
        Except.bind, pure, Except.pure]
  have o_labelIDs : ∀ r : Transaction, r.LabelIDs = none →
      List.foldlM (decodeTransactionField parseFloat parseTime) r
        (omitEmpty "label_ids"
        ((labelIDs.filter fun l => !l.isEmpty).map fun l => .arr (l.map .str)))
        = .ok { r with LabelIDs := labelIDs.filter fun l => !l.isEmpty } := by
    intro r hr
    rcases labelIDs with _ | _ | ⟨x, xs⟩
    · cases r; simp only at hr; subst hr; rfl
    · cases r; simp only at hr; subst hr; rfl
    · have hd := decodeStringSlice_strings (x :: xs)
      simp only [List.map_cons] at hd
      simp +decide [omitEmpty, Option.filter, decodeTransactionField, hd, Except.map, bind,
        Except.bind, pure, Except.pure]
  have o_attachmentIDs : ∀ r : Transaction, r.AttachmentIDs = none →
      List.foldlM (decodeTransactionField parseFloat parseTime) r
        (omitEmpty "attachment_ids"
        ((attachmentIDs.filter fun l => !l.isEmpty).map fun l => .arr (l.map .str)))
        = .ok { r with AttachmentIDs := attachmentIDs.filter fun l => !l.isEmpty } := by
    intro r hr
    rcases attachmentIDs with _ | _ | ⟨x, xs⟩
    · cases r; simp only at hr; subst hr; rfl
    · cases r; simp only at hr; subst hr; rfl
    · have hd := decodeStringSlice_strings (x :: xs)
      simp only [List.map_cons] at hd
      simp +decide [omitEmpty, Option.filter, decodeTransactionField, hd, Except.map, bind,
        Except.bind, pure, Except.pure]
  have o_attachmentLost : ∀ r : Transaction, r.AttachmentLost = false →
      List.foldlM (decodeTransactionField parseFloat parseTime) r
        (omitEmpty "attachment_lost" (if attachmentLost then some (.bool true) else none)) = .ok { r with AttachmentLost := attachmentLost } := by
    intro r hr
    cases attachmentLost with
    | false => cases r; simp only at hr; subst hr; rfl
    | true =>
      simp +decide [omitEmpty, decodeTransactionField, decodeBool, Except.map, bind,
        Except.bind, pure, Except.pure]
  have o_attachmentRequired : ∀ r : Transaction, r.AttachmentRequired = false →
      List.foldlM (decodeTransactionField parseFloat parseTime) r
        (omitEmpty "attachment_required" (if attachmentRequired then some (.bool true) else none)) = .ok { r with AttachmentRequired := attachmentRequired } := by
    intro r hr
    cases attachmentRequired with
    | false => cases r; simp only at hr; subst hr; rfl
    | true =>
      simp +decide [omitEmpty, decodeTransactionField, decodeBool, Except.map, bind,
        Except.bind, pure, Except.pure]
  refine ⟨_, by
    simp only [encodeTransaction, hjS, hjV, hjR, encodeFloat, encodeTime, hfA, hfL, hfE, bind,
      Except.bind, pure, Except.pure]
    rfl, ?_, ?_⟩
  · simp only [decodeTransaction, List.foldlM_append, List.foldlM_cons, List.foldlM_nil, bind,
      Except.bind, pure, Except.pure, Transaction.zero,
      e_id, e_amount, e_amountCents, e_localAmount, e_localAmountCents, e_side, e_operationType, e_currency, e_localCurrency, e_emittedAt, e_status]
    rw [o_settledAt]
    simp only
    rw [o_note]
    simp only
    rw [o_label]
    simp only
    rw [o_vatAmount]
    simp only
    rw [o_vatAmountCents]
    simp only
    rw [o_vatRate]
    simp only
    rw [o_initiatorID]
    simp only
    rw [o_labelIDs]
    simp only
    rw [o_attachmentIDs]
    simp only
    rw [o_attachmentLost]
    simp only
    rw [o_attachmentRequired]
    simp only
    all_goals rfl
  · have hkS : jS.isSome = false ↔ settledAt = none := by
      rcases hcS with ⟨rfl, rfl⟩ | ⟨x, s, rfl, rfl, -⟩ <;> simp
    have hkV : jV.isSome = false ↔ vatAmount = none := by
      rcases hcV with ⟨rfl, rfl⟩ | ⟨x, w, rfl, rfl, -⟩ <;> simp
    have hkR : jR.isSome = false ↔ vatRate = none := by
      rcases hcR with ⟨rfl, rfl⟩ | ⟨x, w, rfl, rfl, -⟩ <;> simp
    have hkL : ∀ ids : Option (List String),
        ((ids.filter fun l => !l.isEmpty).map fun l => Json.arr (l.map .str)).isSome = false
          ↔ (ids = none ∨ ids = some []) := by
      intro ids
      rcases ids with _ | _ | ⟨x, xs⟩ <;> simp [Option.filter]
    refine ⟨?_, ?_, ?_, ?_, ?_, ?_, ?_, ?_, ?_⟩
    · simp +decide [hasKey, List.any_append, any_omitEmpty, hkS]
    · simp +decide [hasKey, List.any_append, any_omitEmpty]
    · simp +decide [hasKey, List.any_append, any_omitEmpty]
    · simp +decide [hasKey, List.any_append, any_omitEmpty, hkV]
    · simp +decide [hasKey, List.any_append, any_omitEmpty]
    · simp +decide [hasKey, List.any_append, any_omitEmpty, hkR]
    · simp +decide [hasKey, List.any_append, any_omitEmpty]
    · rw [← hkL labelIDs]
      simp +decide [hasKey, List.any_append, any_omitEmpty]
    · rw [← hkL attachmentIDs]
      simp +decide [hasKey, List.any_append, any_omitEmpty]

/-! ## C21: decoding a record and encoding it again -/

/-- A decoded label whose document has no `parent_id` has a nil parent. -/
theorem decodeLabel_absent (doc : Json) (l : Label)
    (h : decodeLabel doc ⟨"", "", none⟩ = .ok l) (hk : hasKey "parent_id" doc = false) :
    l.ParentID = none := by
  unfold decodeLabel at h
  split at h
  · simp only [Except.ok.injEq] at h; subst h; rfl
  · rename_i kvs
    exact absent_of_frame decodeLabelField (·.ParentID) "parent_id"
      (fun b b' kv hkv hstep => decodeLabelField_parent b b' kv hkv hstep) kvs hk _ _ h
  · cases h

/-- C21 (as stated, refuted): a label document without `parent_id` decodes
to a label with a nil parent, and encoding that label writes the member
`"parent_id": null`: the field has no `omitempty`, so the key that was absent
from the document is present after re-encoding.  And a transaction document
with `"label_ids": []` decodes to a transaction whose `LabelIDs` is an empty
slice that is not nil; encoding it leaves `label_ids` out, and what is
written decodes to a transaction whose `LabelIDs` is nil: the field is not
preserved. -/
theorem parent_id_and_empty_slices_change_when_reencoded :
    decodeLabel (.obj [("id", .str "l1"), ("name", .str "food")]) ⟨"", "", none⟩
        = .ok ⟨"l1", "food", none⟩
      ∧ hasKey "parent_id" (.obj [("id", .str "l1"), ("name", .str "food")]) = false
      ∧ encodeLabel ⟨"l1", "food", none⟩
        = .obj [("id", .str "l1"), ("name", .str "food"), ("parent_id", .null)]
      ∧ hasKey "parent_id" (encodeLabel ⟨"l1", "food", none⟩) = true
      ∧ (∀ parseFloat parseTime,
          decodeTransaction parseFloat parseTime (.obj [("label_ids", .arr [])]) Transaction.zero
            = .ok { Transaction.zero with LabelIDs := some [] })
      ∧ (∃ doc', encodeTransaction formatZeroFloat formatSeconds
            { Transaction.zero with LabelIDs := some [] } = .ok doc'
          ∧ hasKey "label_ids" doc' = false
          ∧ decodeTransaction parseZeroFloat parseKnownTime doc' Transaction.zero
            = .ok { Transaction.zero with LabelIDs := none }) :=
  ⟨rfl, rfl, rfl, rfl, fun _ _ => rfl, ⟨_, rfl, rfl, rfl⟩⟩

/-- The stand-in float codec reads back what it writes. -/
theorem zeroFloat_roundTrips :
    (∀ v x, parseZeroFloat v = some x → FloatRoundTrips parseZeroFloat formatZeroFloat x)
      ∧ FloatRoundTrips parseZeroFloat formatZeroFloat 0 := by
  have h0 : FloatRoundTrips parseZeroFloat formatZeroFloat 0 := ⟨.int 0, rfl, rfl, rfl⟩
  refine ⟨?_, h0⟩
  intro v x h
  unfold parseZeroFloat at h
  split at h
  · split at h
    · simp only [Option.some.injEq] at h; exact h ▸ h0
    · cases h
  · cases h

/-- The stand-in time codec reads back what it writes. -/
theorem knownTime_roundTrips :
    (∀ s t, parseKnownTime s = some t → TimeRoundTrips parseKnownTime formatSeconds t)
      ∧ TimeRoundTrips parseKnownTime formatSeconds Time.zero := by
  have e0 : Time.zero.FormatRFC3339 = "0001-01-01T00:00:00Z" := by decide
  have e1 : Time.FormatRFC3339 ⟨2019, 1, 7, 16, 39, 58, 0, 0⟩ = "2019-01-07T16:39:58Z" := by decide
  have h0 : TimeRoundTrips parseKnownTime formatSeconds Time.zero :=
    ⟨_, rfl, by rw [e0]; rfl⟩
  have h1 : TimeRoundTrips parseKnownTime formatSeconds ⟨2019, 1, 7, 16, 39, 58, 0, 0⟩ :=
    ⟨_, rfl, by rw [e1]; rfl⟩
  refine ⟨?_, h0⟩
  intro s t h
  unfold parseKnownTime at h
  split at h
  · simp only [Option.some.injEq] at h; exact h ▸ h1
  · split at h
    · simp only [Option.some.injEq] at h; exact h ▸ h0
    · cases h

/-- C21 (amended): with a float codec and a time codec that read back what
they write (for every value they read, and for the zero values), every
document that decodes to a `Transaction`, a `Label`, an `Attachment` or a
`Meta` gives a record that is encoded without error.  For a label, an
attachment and a meta-data record the encoding decodes to the same record;
for a transaction it decodes to the transaction with an empty `LabelIDs` or
`AttachmentIDs` turned into the nil slice, which is the same transaction
when neither is an empty slice that is not nil.  An optional field whose key
is absent from the document decodes to nil; for `settled_at`, `note`,
`label`, `vat_amount`, `vat_amount_cents`, `vat_rate`, `initiator_id`,
`label_ids` and `attachment_ids`, tagged `omitempty`, the key is absent from
the encoding too (as it is for an empty slice), whereas the `parent_id` of a
label, which has no `omitempty`, is written as `null`. -/
theorem records_round_trip (parseFloat : Json → Option Float)
    (formatFloat : Float → Option Json) (parseTime : String → Option Time)
    (formatTime : Time → Option String)
    (hF : ∀ v x, parseFloat v = some x → FloatRoundTrips parseFloat formatFloat x)
    (hF0 : FloatRoundTrips parseFloat formatFloat 0)
    (hT : ∀ s t, parseTime s = some t → TimeRoundTrips parseTime formatTime t)
    (hT0 : TimeRoundTrips parseTime formatTime Time.zero) :
    (∀ doc t, decodeTransaction parseFloat parseTime doc Transaction.zero = .ok t →
      ∃ doc', encodeTransaction formatFloat formatTime t = .ok doc'
        ∧ decodeTransaction parseFloat parseTime doc' Transaction.zero
          = .ok { t with
              LabelIDs := t.LabelIDs.filter fun l => !l.isEmpty
              AttachmentIDs := t.AttachmentIDs.filter fun l => !l.isEmpty }
        ∧ (t.LabelIDs ≠ some [] → t.AttachmentIDs ≠ some [] →
            decodeTransaction parseFloat parseTime doc' Transaction.zero = .ok t)
        ∧ (hasKey "settled_at" doc = false →
            t.SettledAt = none ∧ hasKey "settled_at" doc' = false)
        ∧ (hasKey "note" doc = false → t.Note = none ∧ hasKey "note" doc' = false)
        ∧ (hasKey "label" doc = false → t.Label = none ∧ hasKey "label" doc' = false)
        ∧ (hasKey "vat_amount" doc = false →
            t.VATAmount = none ∧ hasKey "vat_amount" doc' = false)
        ∧ (hasKey "vat_amount_cents" doc = false →
            t.VATAmountCents = none ∧ hasKey "vat_amount_cents" doc' = false)
        ∧ (hasKey "vat_rate" doc = false → t.VATRate = none ∧ hasKey "vat_rate" doc' = false)
        ∧ (hasKey "initiator_id" doc = false →
            t.InitiatorID = none ∧ hasKey "initiator_id" doc' = false)
        ∧ (hasKey "label_ids" doc = false →
            t.LabelIDs = none ∧ hasKey "label_ids" doc' = false)
        ∧ (hasKey "attachment_ids" doc = false →
            t.AttachmentIDs = none ∧ hasKey "attachment_ids" doc' = false)
        ∧ (t.LabelIDs = some [] → hasKey "label_ids" doc' = false)
        ∧ (t.AttachmentIDs = some [] → hasKey "attachment_ids" doc' = false))
    ∧ (∀ doc l, decodeLabel doc ⟨"", "", none⟩ = .ok l →
      decodeLabel (encodeLabel l) ⟨"", "", none⟩ = .ok l
        ∧ (hasKey "parent_id" doc = false →
            l.ParentID = none
              ∧ encodeLabel l
                = .obj [("id", .str l.ID), ("name", .str l.Name), ("parent_id", .null)]))
    ∧ (∀ doc a, decodeAttachment parseTime doc Attachment.zero = .ok a →
      ∃ doc', encodeAttachment formatTime a = .ok doc'
        ∧ decodeAttachment parseTime doc' Attachment.zero = .ok a)
    ∧ (∀ doc m, decodeMeta doc Meta.zero = .ok m →
      decodeMeta (encodeMeta m) Meta.zero = .ok m) := by
  refine ⟨?_, ?_, ?_, ?_⟩
  · intro doc t h
    have hrep := decodeTransaction_representable parseFloat formatFloat parseTime formatTime
      hF hF0 hT hT0 doc t h
    obtain ⟨doc', henc, hdec, k1, k2, k3, k4, k5, k6, k7, k8, k9⟩ :=
      decodeTransaction_encodeTransaction parseFloat formatFloat parseTime formatTime t hrep
    obtain ⟨a1, a2, a3, a4, a5, a6, a7, a8, a9⟩ :=
      decodeTransaction_absent parseFloat parseTime doc t h
    have hkeep : ∀ ids : Option (List String), ids ≠ some [] →
        (ids.filter fun l => !l.isEmpty) = ids := by
      intro ids hne
      rcases ids with _ | _ | ⟨x, xs⟩
      · rfl
      · exact absurd rfl hne
      · rfl
    refine ⟨doc', henc, hdec, ?_,
      fun hk => ⟨a1 hk, k1.2 (a1 hk)⟩, fun hk => ⟨a2 hk, k2.2 (a2 hk)⟩,
      fun hk => ⟨a3 hk, k3.2 (a3 hk)⟩, fun hk => ⟨a4 hk, k4.2 (a4 hk)⟩,
      fun hk => ⟨a5 hk, k5.2 (a5 hk)⟩, fun hk => ⟨a6 hk, k6.2 (a6 hk)⟩,
      fun hk => ⟨a7 hk, k7.2 (a7 hk)⟩, fun hk => ⟨a8 hk, k8.2 (Or.inl (a8 hk))⟩,
      fun hk => ⟨a9 hk, k9.2 (Or.inl (a9 hk))⟩,
      fun he => k8.2 (Or.inr he), fun he => k9.2 (Or.inr he)⟩
    intro h1 h2
    rw [hdec, hkeep _ h1, hkeep _ h2]
  · intro doc l h
    refine ⟨decodeLabel_encodeLabel l _, fun hk => ?_⟩
    have hp := decodeLabel_absent doc l h hk
    refine ⟨hp, ?_⟩
    unfold encodeLabel
    rw [hp]
    rfl
  · intro doc a h
    obtain ⟨doc', henc, hdec, -⟩ := decodeAttachment_encodeAttachment parseTime formatTime a
      (decodeAttachment_representable parseTime formatTime hT hT0 doc a h)
    exact ⟨doc', henc, hdec⟩
  · intro doc m h
    exact decodeMeta_encodeMeta m _ (decodeMeta_representable doc m h)

/-- C21 (amended) at concrete inputs: a transaction document without
`settled_at` and without `label_ids`, a transaction document whose
`label_ids` is the empty array, and a label document without `parent_id`. -/
theorem records_round_trip_witness :
    (∃ doc', encodeTransaction formatZeroFloat formatSeconds stubTransaction = .ok doc'
      ∧ decodeTransaction parseZeroFloat parseKnownTime doc' Transaction.zero
        = .ok stubTransaction
      ∧ stubTransaction.SettledAt = none ∧ hasKey "settled_at" doc' = false
      ∧ stubTransaction.LabelIDs = none ∧ hasKey "label_ids" doc' = false)
    ∧ (∃ doc', encodeTransaction formatZeroFloat formatSeconds
          { Transaction.zero with LabelIDs := some [] } = .ok doc'
      ∧ decodeTransaction parseZeroFloat parseKnownTime doc' Transaction.zero
        = .ok { Transaction.zero with LabelIDs := none }
      ∧ hasKey "label_ids" doc' = false)
    ∧ decodeLabel (encodeLabel ⟨"l1", "food", none⟩) ⟨"", "", none⟩ = .ok ⟨"l1", "food", none⟩
    ∧ encodeLabel ⟨"l1", "food", none⟩
      = .obj [("id", .str "l1"), ("name", .str "food"), ("parent_id", .null)] :=
  have h := records_round_trip parseZeroFloat formatZeroFloat parseKnownTime formatSeconds
    zeroFloat_roundTrips.1 zeroFloat_roundTrips.2 knownTime_roundTrips.1 knownTime_roundTrips.2
  ⟨(h.1 stubTransactionJson stubTransaction rfl).elim fun doc' hd =>
      ⟨doc', hd.1, hd.2.1, (hd.2.2.2.1 rfl).1, (hd.2.2.2.1 rfl).2,
        (hd.2.2.2.2.2.2.2.2.2.2.1 rfl).1, (hd.2.2.2.2.2.2.2.2.2.2.1 rfl).2⟩,
    (h.1 (.obj [("label_ids", .arr [])]) { Transaction.zero with LabelIDs := some [] }
        rfl).elim fun doc' hd =>
      ⟨doc', hd.1, hd.2.1, hd.2.2.2.2.2.2.2.2.2.2.2.2.1 rfl⟩,
    (h.2.1 (.obj [("id", .str "l1"), ("name", .str "food")]) ⟨"l1", "food", none⟩ rfl).1,
    ((h.2.1 (.obj [("id", .str "l1"), ("name", .str "food")]) ⟨"l1", "food", none⟩ rfl).2 rfl).2⟩

end Qonto
